import Mathlib

/-!
# CLAP: a shallow embedding of the command-line option parser (`CLAP.c`, `CLAP.h`)

Modelling conventions.

* A C string is the list of its characters in front of the terminating NUL
  (`CString`); a `char*` that may be `NULL` is an `Option CString`.
* The option table is the list of the array entries. The scan loops of the
  source stop at the first entry of type `CLAP_OPT_END`; the end of the list
  stops them in the same way. A pointer into the table is an index.
* `ptr_value` points to caller-owned storage. It is modelled as the cell it
  points to (`none` is the `NULL` pointer); two descriptors never alias.
* `handler->argv` is a cursor into the `argv` array: the array is the field
  `args`, the cursor the index `argv`. Reading at the end of the array gives
  `NULL`.
* What is printed on `stderr`/`stdout` is not modelled, but whether printing it
  is defined is: `clap_usage` hands strings of the table to `strlen`, `fputs`
  and `%s`, which must not be `NULL`.
* `strtod`, `fopen` and the code behind the callback pointers other than
  `clap_help_cb` are not part of the library: they are parameters (`Env`). Such
  a callback observes the handler and the descriptor and returns an `int`; it
  does not write to them. The callback `clap_help_cb` is the function of
  `CLAP.c`.
* Dereferencing `NULL` and the like is `Outcome.undefined`.
-/

namespace CLAP

/-- A C string: the characters in front of the terminating NUL. -/
abbrev CString := List Char

/-! ## `CLAP.h` -/

abbrev CLAP_OPT_END : Int := 0
abbrev CLAP_OPT_GROUP : Int := 1
abbrev CLAP_OPT_NONE : Int := 2
abbrev CLAP_OPT_INT : Int := 3
abbrev CLAP_OPT_DOUBLE : Int := 4
abbrev CLAP_OPT_STRING : Int := 5
abbrev CLAP_OPT_BOOL : Int := 6
abbrev CLAP_OPT_FILE_R : Int := 7
abbrev CLAP_OPT_FILE_W : Int := 8
abbrev CLAP_OPT_SIZE : Int := 9

abbrev CLAP_FLAG_SET : Nat := 1
abbrev CLAP_FLAG_MANDATORY : Nat := 2
abbrev CLAP_FLAG_CALLBACK : Nat := 4
abbrev CLAP_FLAG_POSITIONAL : Nat := 8

/-- The caller-owned variable a descriptor writes to. A `double` is kept as
an uninterpreted code (whatever `Env.strtod` returns), a `FILE*` as a handle. -/
inductive Value where
  | bool (b : Bool)
  | int (i : Int)
  | double (d : Nat)
  | str (s : Option CString)
  | file (f : Option Nat)
deriving DecidableEq, Repr

/-- The struct `ClapOption`. `callback` is a function pointer: `none` is `NULL`,
`some f` is the address `f` of a function, which `call_callback` resolves. -/
structure ClapOption where
  type : Int
  short_option : Char
  long_option : Option CString
  ptr_value : Option Value
  help : Option CString
  flags : Nat
  callback : Option Nat
deriving DecidableEq, Repr

/-- The struct `ClapHandler`; `args` is the memory of the `argv` array the
cursor `argv` points into. -/
structure ClapHandler where
  options : List ClapOption
  name : Option CString
  description : Option CString
  epilog : Option CString
  argc : Int
  args : List CString
  argv : Nat
deriving DecidableEq, Repr

/-- What the library calls but does not define. -/
structure Env where
  /-- The call `strtod(s, &end)`: the value and the text `end` points to. -/
  strtod : CString → Nat × CString
  /-- The call `fopen(path, mode)`: `none` is `NULL`. -/
  fopen : CString → CString → Option Nat
  /-- The call `f(handler, option)` through a callback pointer `f` that is not a
  function of the library; the option is given by its index in the table. -/
  callback : Nat → ClapHandler → Nat → Int

/-- The result of running a function of the library that returns `int`. -/
inductive Outcome where
  | ret (code : Int) (handler : ClapHandler)
  | undefined
  | timeout
deriving DecidableEq, Repr

/-- The value a call returns, when it returns. -/
def Outcome.code : Outcome → Option Int
  | .ret code _ => some code
  | _ => none

/-- The state a call leaves behind, when it returns. -/
def Outcome.state : Outcome → Option ClapHandler
  | .ret _ handler => some handler
  | _ => none

/-! ## `CLAP.c` -/

abbrev _FLAG_OPT_LONG : Nat := 1
abbrev _FLAG_OPT_POSITIONAL : Nat := 2
abbrev _FLAG_REQUIRE_NO_VAL : Nat := 4
abbrev _FLAG_LONG_OPT_WITH_VALUE : Nat := 8

/-! ### The C library functions the parser relies on -/

/-- The predicate `isspace` in the C locale. -/
def isspace (c : Char) : Bool :=
  c = ' ' || c = '\t' || c = '\n' || c = Char.ofNat 11 || c = Char.ofNat 12 || c = '\r'

/-- The predicate `isdigit`. -/
def isdigit (c : Char) : Bool := decide ('0' ≤ c) && decide (c ≤ '9')

/-- The value of a run of decimal digits read after the value `acc`. -/
def strtol_digits : Nat → CString → Nat
  | acc, [] => acc
  | acc, c :: cs => strtol_digits (acc * 10 + (c.toNat - 48)) cs

abbrev LONG_MAX : Int := 2 ^ 63 - 1
abbrev LONG_MIN : Int := -(2 ^ 63)

/-- The text `strtol` looks for digits in: what follows the white space and the
optional sign. -/
def strtol_body (nptr : CString) : CString :=
  let s := nptr.dropWhile isspace
  if s.head? = some '-' ∨ s.head? = some '+' then s.tail else s

/-- The call `strtol(nptr, &end, 10)` of ISO C on an LP64 platform: white space
is skipped, then an optional sign, then the longest run of decimal digits;
the result is the value, clamped to the range of `long`, and the text `end`
points to. Without a digit nothing is converted: the value is 0 and `end`
is `nptr`. -/
def strtol (nptr : CString) : Int × CString :=
  let neg := (nptr.dropWhile isspace).head? = some '-'
  let u := strtol_body nptr
  let ds := u.takeWhile isdigit
  if ds = [] then (0, nptr)
  else
    let n : Int := strtol_digits 0 ds
    let v : Int := if neg then -n else n
    (max LONG_MIN (min LONG_MAX v), u.dropWhile isdigit)

/-- The conversion `(int) x` of a `long` (two's complement, 32-bit `int`). -/
def toInt32 (x : Int) : Int := (x + 2 ^ 31) % 2 ^ 32 - 2 ^ 31

/-- The expression `strchr(s, c) + 1` for a `c` that occurs in `s`: the text
after the first `c`; without one the pointer is not valid. -/
def strchr_next (c : Char) : CString → Option CString
  | [] => none
  | d :: s => if d = c then some s else strchr_next c s

/-- The test `strchr(s, c) != NULL`. -/
def strchr_found (c : Char) (s : CString) : Bool := (strchr_next c s).isSome

/-! ### `clap_usage` and `clap_help_cb`

Of the functions that print, only whether the call is defined is kept: `none`
is a `NULL` handed to `strlen`, to `fputs` or to a `%s` conversion. -/

/-- The function `clap_print_option_in_list(option)`. -/
def clap_print_option_in_list (option : ClapOption) : Option Unit :=
  if option.flags &&& CLAP_FLAG_POSITIONAL ≠ 0 then
    if option.long_option = none then none else some ()
  else if option.short_option ≠ Char.ofNat 0 then some ()
  else if option.long_option = none then none else some ()

/-- The function `clap_print_option(option)`: a positional descriptor is printed
by its long flag, any other string is tested before it is printed. -/
def clap_print_option (option : ClapOption) : Option Unit :=
  if option.flags &&& CLAP_FLAG_POSITIONAL ≠ 0 then
    if option.long_option = none then none else some ()
  else some ()

/-- The first loop of `clap_usage` (lines 527-538), which lists the mandatory and
the positional options: the values of `num_args` and `positionals` behind it. -/
def clap_usage_list : List ClapOption → Nat → Nat → Option (Nat × Nat)
  | [], num_args, positionals => some (num_args, positionals)
  | options :: rest, num_args, positionals =>
    if options.type = CLAP_OPT_END then some (num_args, positionals)
    else if options.flags &&& CLAP_FLAG_MANDATORY ≠ 0 ∨
        options.flags &&& CLAP_FLAG_POSITIONAL ≠ 0 then
      match clap_print_option_in_list options with
      | none => none
      | some _ =>
        clap_usage_list rest (num_args + 1)
          (if options.flags &&& CLAP_FLAG_POSITIONAL ≠ 0 then positionals + 1 else positionals)
    else clap_usage_list rest (num_args + 1) positionals

/-- The second loop of `clap_usage` (lines 549-556), which prints the positional
options: the value of `positionals` behind it. -/
def clap_usage_positionals : List ClapOption → Nat → Option Nat
  | [], positionals => some positionals
  | options :: rest, positionals =>
    if options.type = CLAP_OPT_END then some positionals
    else if options.type ≠ CLAP_OPT_GROUP ∧ options.flags &&& CLAP_FLAG_POSITIONAL ≠ 0 then
      match clap_print_option options with
      | none => none
      | some _ => clap_usage_positionals rest (positionals + 1)
    else clap_usage_positionals rest positionals

/-- The third loop of `clap_usage` (lines 569-580), which prints the other options
and the titles of the groups. -/
def clap_usage_others : List ClapOption → Option Unit
  | [] => some ()
  | options :: rest =>
    if options.type = CLAP_OPT_END then some ()
    else if options.flags &&& CLAP_FLAG_POSITIONAL = 0 then
      if options.type ≠ CLAP_OPT_GROUP then
        match clap_print_option options with
        | none => none
        | some _ => clap_usage_others rest
      else if options.help = none then none
      else clap_usage_others rest
    else clap_usage_others rest

/-- The function `clap_usage(handler)`. The name, the description and the epilog
are tested before they are printed. -/
def clap_usage (handler : ClapHandler) : Option Unit :=
  match clap_usage_list handler.options 0 0 with
  | none => none
  | some (num_args, positionals) =>
    match (if positionals ≠ 0 then clap_usage_positionals handler.options positionals
           else some positionals) with
    | none => none
    | some positionals1 =>
      if positionals1 ≠ num_args then clap_usage_others handler.options else some ()

/-- The function `clap_help_cb(handler, option)`: it calls `clap_usage` and
returns -4. -/
def clap_help_cb (handler : ClapHandler) (_option : Nat) : Option Int :=
  match clap_usage handler with
  | none => none
  | some _ => some (-4)

/-- The address of `clap_help_cb`, which the macro `CLAP_HELP()` puts in the table. -/
def clap_help_cb_ptr : Nat := 1

/-- The call `option->callback(handler, option)` through the pointer `f` (line 171):
the function of the library when `f` is its address, a function of the
environment otherwise. -/
def call_callback (env : Env) (f : Nat) (handler : ClapHandler) (i : Nat) : Option Int :=
  if f = clap_help_cb_ptr then clap_help_cb handler i else some (env.callback f handler i)

/-- The statement `return option->callback(handler, option)` of line 171. -/
def return_callback (env : Env) (f : Nat) (handler : ClapHandler) (i : Nat) : Outcome :=
  match call_callback env f handler i with
  | none => .undefined
  | some code => .ret code handler

/-! ### `clap_option_set_value` -/

/-- How lines 107-165 of `clap_option_set_value` end: they fall through to
line 167 (`done`), return -3 (`error`), or have no defined behaviour. In
both defined cases the handler and the descriptor are as the lines left them. -/
inductive Stored where
  | done (handler : ClapHandler) (option : ClapOption)
  | error (handler : ClapHandler) (option : ClapOption)
  | undefined
deriving DecidableEq, Repr

/-- The `switch` of `clap_option_set_value` (lines 127-164) on the source string
`next_arg`. -/
def clap_option_coerce (env : Env) (handler : ClapHandler) (option : ClapOption)
    (next_arg : CString) : Stored :=
  if option.type = CLAP_OPT_STRING then
    match option.ptr_value with
    | none => .undefined
    | some _ => .done handler { option with ptr_value := some (.str (some next_arg)) }
  else if option.type = CLAP_OPT_INT then
    match option.ptr_value with
    | none => .undefined
    | some _ =>
      let option1 := { option with ptr_value := some (.int (toInt32 (strtol next_arg).1)) }
      if (strtol next_arg).2 ≠ [] then .error handler option1 else .done handler option1
  else if option.type = CLAP_OPT_DOUBLE then
    match option.ptr_value with
    | none => .undefined
    | some _ =>
      let option1 := { option with ptr_value := some (.double (env.strtod next_arg).1) }
      if (env.strtod next_arg).2 ≠ [] then .error handler option1 else .done handler option1
  else if option.type = CLAP_OPT_FILE_R ∨ option.type = CLAP_OPT_FILE_W then
    match option.ptr_value with
    | none => .undefined
    | some _ =>
      let f := env.fopen next_arg (if option.type = CLAP_OPT_FILE_W then ['w'] else ['r'])
      let option1 := { option with ptr_value := some (.file f) }
      if f = none then .error handler option1 else .done handler option1
  else .error handler option

/-- The token `*(handler->argv - 1)`. -/
def prev_arg (handler : ClapHandler) : Option CString :=
  if handler.argv = 0 then none else handler.args[handler.argv - 1]?

/-- Lines 107-165 of `clap_option_set_value`: the boolean toggle, or the
resolution of the source string followed by the `switch`. -/
def clap_option_store (env : Env) (handler : ClapHandler) (option : ClapOption)
    (flags : Nat) : Stored :=
  if option.type = CLAP_OPT_BOOL then
    match option.ptr_value with
    | some (.bool b) => .done handler { option with ptr_value := some (.bool (!b)) }
    | _ => .undefined
  else if option.type ≠ CLAP_OPT_NONE then
    if flags &&& _FLAG_LONG_OPT_WITH_VALUE ≠ 0 then
      match prev_arg handler with
      | none => .undefined
      | some arg =>
        match strchr_next '=' arg with
        | none => .undefined
        | some next_arg => clap_option_coerce env handler option next_arg
    else if option.flags &&& CLAP_FLAG_POSITIONAL = 0 then
      match handler.args[handler.argv]? with
      | none => .error { handler with argv := handler.argv + 1 } option
      | some next_arg =>
        clap_option_coerce env { handler with argv := handler.argv + 1 } option next_arg
    else
      match prev_arg handler with
      | none => .undefined
      | some next_arg => clap_option_coerce env handler option next_arg
  else .done handler option

/-- The handler after the descriptor at index `i` has been overwritten. -/
def write_option (handler : ClapHandler) (i : Nat) (option : ClapOption) : ClapHandler :=
  { handler with options := handler.options.set i option }

/-- The function `clap_option_set_value(handler, option, flags)`, `option`
being the entry `i` of the table. -/
def clap_option_set_value (env : Env) (handler : ClapHandler) (i : Nat) (flags : Nat) :
    Outcome :=
  match handler.options[i]? with
  | none => .undefined
  | some option =>
    if flags &&& _FLAG_OPT_POSITIONAL = 0 ∧ option.flags &&& CLAP_FLAG_POSITIONAL ≠ 0 then
      .ret (-3) handler
    else
      match clap_option_store env handler option flags with
      | .undefined => .undefined
      | .error handler1 option1 => .ret (-3) (write_option handler1 i option1)
      | .done handler1 option1 =>
        let option2 := { option1 with flags := option1.flags ||| CLAP_FLAG_SET }
        let handler2 := write_option handler1 i option2
        if option2.flags &&& CLAP_FLAG_CALLBACK ≠ 0 then
          match option2.callback with
          | none => .undefined
          | some f => return_callback env f handler2 i
        else .ret 0 handler2

/-! ### The three matchers -/

/-- The loop of `clap_option_short` with `options` at entry `i` of the table. -/
def clap_option_short_from (env : Env) (handler : ClapHandler) (opt : Char) (flags : Nat) :
    List ClapOption → Nat → Outcome
  | [], _ => .ret (-2) handler
  | options :: rest, i =>
    if options.type = CLAP_OPT_END then .ret (-2) handler
    else if options.type ≠ CLAP_OPT_GROUP ∧ options.short_option = opt then
      if flags &&& _FLAG_REQUIRE_NO_VAL ≠ 0 ∧
          (options.type ≠ CLAP_OPT_BOOL ∨ options.type = CLAP_OPT_NONE) then
        .ret (-2) handler
      else clap_option_set_value env handler i 0
    else clap_option_short_from env handler opt flags rest (i + 1)

/-- The function `clap_option_short(handler, opt, flags)`. -/
def clap_option_short (env : Env) (handler : ClapHandler) (opt : Char) (flags : Nat) :
    Outcome :=
  clap_option_short_from env handler opt flags handler.options 0

/-- The loop of `clap_option_positional` with `options` at entry `i`. -/
def clap_option_positional_from (env : Env) (handler : ClapHandler) (flags : Nat) :
    List ClapOption → Nat → Outcome
  | [], _ => .ret (-2) handler
  | options :: rest, i =>
    if options.type = CLAP_OPT_END then .ret (-2) handler
    else if options.type ≠ CLAP_OPT_GROUP ∧
        options.flags &&& CLAP_FLAG_POSITIONAL ≠ 0 ∧ options.flags &&& CLAP_FLAG_SET = 0 then
      clap_option_set_value env handler i (flags ||| _FLAG_OPT_POSITIONAL)
    else clap_option_positional_from env handler flags rest (i + 1)

/-- The function `clap_option_positional(handler, opt, flags)`; `opt` is only
printed. -/
def clap_option_positional (env : Env) (handler : ClapHandler) (_opt : CString)
    (flags : Nat) : Outcome :=
  clap_option_positional_from env handler flags handler.options 0

/-- The function `strcmp_long_option(str, str_with_equals)`. -/
def strcmp_long_option : CString → CString → Int
  | [], [] => 0
  | [], d :: _ => if d = '=' then 0 else d.toNat
  | c :: _, [] => c.toNat
  | c :: str, d :: str_with_equals =>
    if d ≠ '=' then
      if c ≠ d then (if c < d then -(c.toNat : Int) else d.toNat)
      else strcmp_long_option str str_with_equals
    else (if c < d then -(c.toNat : Int) else d.toNat)

/-- The loop of `clap_option_long` with `options` at entry `i`; comparing a
`NULL` long flag dereferences it. -/
def clap_option_long_from (env : Env) (handler : ClapHandler) (opt : CString) (flags : Nat) :
    List ClapOption → Nat → Outcome
  | [], _ => .ret (-2) handler
  | options :: rest, i =>
    if options.type = CLAP_OPT_END then .ret (-2) handler
    else if options.type ≠ CLAP_OPT_GROUP then
      match options.long_option with
      | none => .undefined
      | some long_option =>
        if strcmp_long_option long_option opt = 0 then
          clap_option_set_value env handler i (flags ||| _FLAG_OPT_LONG)
        else clap_option_long_from env handler opt flags rest (i + 1)
    else clap_option_long_from env handler opt flags rest (i + 1)

/-- The function `clap_option_long(handler, opt, flags)`. -/
def clap_option_long (env : Env) (handler : ClapHandler) (opt : CString) (flags : Nat) :
    Outcome :=
  clap_option_long_from env handler opt
    (if strchr_found '=' opt then flags ||| _FLAG_LONG_OPT_WITH_VALUE else flags)
    handler.options 0

/-! ### `clap_parse` -/

/-- The `for` loop of `clap_parse` (lines 322-327) over the characters of a
bundle that are still to be handled. -/
def clap_parse_bundle (env : Env) : List Char → ClapHandler → Outcome
  | [], handler => .ret 0 handler
  | c :: cs, handler =>
    match clap_option_short env handler c _FLAG_REQUIRE_NO_VAL with
    | .ret err handler1 => if err ≠ 0 then .ret err handler1 else clap_parse_bundle env cs handler1
    | o => o

/-- The body of the `while` loop of `clap_parse` after `arg = *(handler->argv++)`
(lines 298-341): the value of `err`, which the loop returns when it is not 0. -/
def clap_parse_token (env : Env) (handler : ClapHandler) (arg : CString) : Outcome :=
  match arg with
  | '-' :: rest =>
    if arg.length < 2 then .ret (-1) handler
    else if rest.head? ≠ some '-' then
      if arg.length = 2 then clap_option_short env handler (rest.headD (Char.ofNat 0)) 0
      else clap_parse_bundle env rest handler
    else if arg.length < 3 then .ret (-1) handler
    else clap_option_long env handler (arg.drop 2) 0
  | _ => clap_option_positional env handler arg 0

/-- The `while` loop of `clap_parse` (lines 295-342). It ends with `err = 0` when
the cursor reads `NULL`; `fuel` bounds the number of iterations. -/
def clap_parse_loop (env : Env) : Nat → ClapHandler → Outcome
  | 0, _ => .timeout
  | fuel + 1, handler =>
    match handler.args[handler.argv]? with
    | none => .ret 0 handler
    | some arg =>
      match clap_parse_token env { handler with argv := handler.argv + 1 } arg with
      | .ret err handler1 =>
        if err ≠ 0 then .ret err handler1 else clap_parse_loop env fuel handler1
      | o => o

/-- The mandatory field check of `clap_parse` (lines 346-357). -/
def clap_parse_mandatory (handler : ClapHandler) : List ClapOption → Outcome
  | [] => .ret 0 handler
  | options :: rest =>
    if options.type = CLAP_OPT_END then .ret 0 handler
    else if options.flags &&& CLAP_FLAG_MANDATORY ≠ 0 ∧ options.flags &&& CLAP_FLAG_SET = 0 then
      .ret (-1) handler
    else clap_parse_mandatory handler rest

/-- Lines 290-343 of `clap_parse`: the scan of `argv`. Every token takes one
iteration at most, so `argv.length + 1` iterations are enough. -/
def clap_parse_scan (env : Env) (handler : ClapHandler) (argc : Int) (argv : List CString) :
    Outcome :=
  let handler1 := { handler with argc := argc, args := argv, argv := 1 }
  if argc > 1 then clap_parse_loop env (argv.length + 1) handler1 else .ret 0 handler1

/-- The function `clap_parse(handler, argc, argv)`. -/
def clap_parse (env : Env) (handler : ClapHandler) (argc : Int) (argv : List CString) :
    Outcome :=
  match clap_parse_scan env handler argc argv with
  | .ret err handler1 =>
    if err ≠ 0 then .ret err handler1 else clap_parse_mandatory handler1 handler1.options
  | o => o

/-! ### `clap_check_options`, `clap_handler_new` -/

/-- The loop of `clap_check_options` with `options` at entry `i` of the table: the
index of the entry it returns, `none` for `NULL`. -/
def clap_check_options_from : List ClapOption → Nat → Option Nat
  | [], _ => none
  | options :: rest, i =>
    if options.type = CLAP_OPT_END then none
    else if options.type > CLAP_OPT_SIZE ∨ options.type < CLAP_OPT_END then some i
    else clap_check_options_from rest (i + 1)

/-- The function `clap_check_options(options)`. -/
def clap_check_options (options : List ClapOption) : Option Nat :=
  clap_check_options_from options 0

/-- The function `clap_handler_new(options, name, description, epilog)`, with an
allocation that succeeds; `none` is `NULL`. The fields `argc` and `argv` are
not initialised: `clap_parse` writes them before it reads them. -/
def clap_handler_new (options : Option (List ClapOption))
    (name description epilog : Option CString) : Option ClapHandler :=
  match options with
  | none => none
  | some options =>
    match clap_check_options options with
    | some _ => none
    | none =>
      some { options := options, name := name, description := description, epilog := epilog,
             argc := 0, args := [], argv := 0 }

/-! ## Vocabulary of the specification -/

/-- The descriptors of a table: its entries in front of the `End` sentinel. -/
def descriptors (t : List ClapOption) : List ClapOption :=
  t.takeWhile (fun o => decide (o.type ≠ CLAP_OPT_END))

/-- The runtime `Set` bit of a descriptor is on. -/
def IsSet (o : ClapOption) : Prop := o.flags &&& CLAP_FLAG_SET ≠ 0

/-- The descriptor has the `Mandatory` attribute. -/
def IsMandatory (o : ClapOption) : Prop := o.flags &&& CLAP_FLAG_MANDATORY ≠ 0

/-- The descriptor has the `Positional` attribute. -/
def IsPositional (o : ClapOption) : Prop := o.flags &&& CLAP_FLAG_POSITIONAL ≠ 0

/-- The descriptor has the `HasCallback` attribute. -/
def HasCallback (o : ClapOption) : Prop := o.flags &&& CLAP_FLAG_CALLBACK ≠ 0

instance (o : ClapOption) : Decidable (IsSet o) := by unfold IsSet; infer_instance

instance (o : ClapOption) : Decidable (IsMandatory o) := by unfold IsMandatory; infer_instance

instance (o : ClapOption) : Decidable (IsPositional o) := by unfold IsPositional; infer_instance

instance (o : ClapOption) : Decidable (HasCallback o) := by unfold HasCallback; infer_instance

/-- No entry of `pre` stops the scan of `clap_option_short` for the character `c`
or answers it. -/
def NoShortMatch (c : Char) (pre : List ClapOption) : Prop :=
  ∀ p ∈ pre, p.type ≠ CLAP_OPT_END ∧ (p.type = CLAP_OPT_GROUP ∨ p.short_option ≠ c)

/-- No entry of `pre` stops the scan of `clap_option_long` for the token text `opt`
or answers it: each one is a group or has a long flag that `strcmp_long_option`
tells from `opt`. -/
def NoLongMatch (opt : CString) (pre : List ClapOption) : Prop :=
  ∀ p ∈ pre, p.type ≠ CLAP_OPT_END ∧
    (p.type = CLAP_OPT_GROUP ∨ ∃ l, p.long_option = some l ∧ strcmp_long_option l opt ≠ 0)

/-- No entry of `pre` stops the scan of `clap_option_positional` or takes the
token: each one is a group, is not positional, or is already set. -/
def NoFreeSlot (pre : List ClapOption) : Prop :=
  ∀ p ∈ pre, p.type ≠ CLAP_OPT_END ∧ (p.type = CLAP_OPT_GROUP ∨ ¬ IsPositional p ∨ IsSet p)

/-- The token `tok` addresses the descriptor `o`, which stands behind the entries
`pre` of the table, by a flag: `tok` is `-c` for the short flag `c` of `o`, or
`--name` or `--name=value` for its long flag `name`, and no entry of `pre`
answers first. -/
def AddressesByFlag (pre : List ClapOption) (o : ClapOption) (tok : CString) : Prop :=
  (∃ c, tok = ['-', c] ∧ c ≠ '-' ∧ o.short_option = c ∧ NoShortMatch c pre) ∨
  (∃ name value, o.long_option = some name ∧ name ≠ [] ∧ '=' ∉ name ∧
    (tok = '-' :: '-' :: name ∨ tok = '-' :: '-' :: (name ++ '=' :: value)) ∧
    NoLongMatch (tok.drop 2) pre)

/-- The descriptor has no callback, or a callback that returns 0 whatever it is
called on. -/
def CallbackQuiet (env : Env) (o : ClapOption) : Prop :=
  ¬ HasCallback o ∨ ∃ f, o.callback = some f ∧ ∀ h i, call_callback env f h i = some 0

/-- The descriptor `o` after its boolean has been written as `b` and its `Set` bit
put on. -/
def toggled (o : ClapOption) (b : Bool) : ClapOption :=
  { o with ptr_value := some (.bool b), flags := o.flags ||| CLAP_FLAG_SET }

instance (c : Char) (pre : List ClapOption) : Decidable (NoShortMatch c pre) := by
  unfold NoShortMatch; infer_instance

instance (pre : List ClapOption) : Decidable (NoFreeSlot pre) := by
  unfold NoFreeSlot; infer_instance

/-- What `clap_parse` does once the last token of `argv` has been matched to the
descriptor `o`, entry `i` of the table, and its source string `source` has been
found: the `switch`, the `Set` bit and the callback of `clap_option_set_value`,
and then, when that gives 0, the mandatory sweep. -/
def assign_and_finish (env : Env) (h : ClapHandler) (i : Nat) (o : ClapOption)
    (source : CString) : Outcome :=
  match clap_option_coerce env h o source with
  | .undefined => .undefined
  | .error h1 o1 => .ret (-3) (write_option h1 i o1)
  | .done h1 o1 =>
    let o2 := { o1 with flags := o1.flags ||| CLAP_FLAG_SET }
    let h2 := write_option h1 i o2
    if o2.flags &&& CLAP_FLAG_CALLBACK ≠ 0 then
      match o2.callback with
      | none => .undefined
      | some f =>
        match call_callback env f h2 i with
        | none => .undefined
        | some code => if code ≠ 0 then .ret code h2 else clap_parse_mandatory h2 h2.options
    else clap_parse_mandatory h2 h2.options

/-- The callback of `o`, if it has one, looks at the table only: its value does
not depend on `argc`, on `argv` or on the cursor. -/
def CallbackOnTable (env : Env) (o : ClapOption) : Prop :=
  ∀ f, o.callback = some f → ∀ h1 h2 i, h1.options = h2.options →
    call_callback env f h1 i = call_callback env f h2 i

/-- The descriptor a short flag `c` stands for: the first entry in front of the
`End` sentinel that is not a group and carries `c`. -/
def short_match (c : Char) : List ClapOption → Option ClapOption
  | [] => none
  | o :: t =>
    if o.type = CLAP_OPT_END then none
    else if o.type ≠ CLAP_OPT_GROUP ∧ o.short_option = c then some o
    else short_match c t

/-- The table after the boolean of the descriptor `c` stands for has been flipped
(and its `Set` bit put on). -/
def toggle_short (c : Char) : List ClapOption → List ClapOption
  | [] => []
  | o :: t =>
    if o.type = CLAP_OPT_END then o :: t
    else if o.type ≠ CLAP_OPT_GROUP ∧ o.short_option = c then
      (match o.ptr_value with
        | some (.bool b) => toggled o (!b)
        | _ => o) :: t
    else o :: toggle_short c t

/-- A `Bool` descriptor a bundle can flip: it is not positional, its storage
holds a boolean, and it has no callback or a callback returning 0. -/
def GoodBool (env : Env) (o : ClapOption) : Prop :=
  o.type = CLAP_OPT_BOOL ∧ ¬ IsPositional o ∧ (∃ b, o.ptr_value = some (.bool b)) ∧
    CallbackQuiet env o

/-- A positional slot: a descriptor the positional matcher looks at (not a group)
that has the `Positional` attribute. -/
def IsSlot (o : ClapOption) : Prop := o.type ≠ CLAP_OPT_GROUP ∧ IsPositional o

instance (o : ClapOption) : Decidable (IsSlot o) := by unfold IsSlot; infer_instance

/-- The positional slots of the table all have their `Set` bit clear. -/
def FreshSlots (t : List ClapOption) : Prop := ∀ o ∈ descriptors t, IsSlot o → ¬ IsSet o

instance (t : List ClapOption) : Decidable (FreshSlots t) := by unfold FreshSlots; infer_instance

/-- The number of positional slots of the table. -/
def positional_count : List ClapOption → Nat
  | [] => 0
  | o :: t =>
    if o.type = CLAP_OPT_END then 0
    else if IsSlot o then positional_count t + 1
    else positional_count t

/-- A handler whose cursor stands just behind the token `tok`. -/
def token_handler (tok : CString) : ClapHandler :=
  { options := [], name := none, description := none, epilog := none,
    argc := 0, args := [tok], argv := 1 }

/-- The positional descriptor `o` once the positional token `tok` has been bound to
it: what lines 107-167 of `clap_option_set_value` make of `o` when they end well. -/
def bound (env : Env) (o : ClapOption) (tok : CString) : ClapOption :=
  match clap_option_store env (token_handler tok) o _FLAG_OPT_POSITIONAL with
  | .done _ o1 => { o1 with flags := o1.flags ||| CLAP_FLAG_SET }
  | _ => o

/-- The coercion of the positional token `tok` for the descriptor `o` succeeds:
lines 107-165 end well, and `o` has no callback or a callback returning 0. -/
def Binds (env : Env) (o : ClapOption) (tok : CString) : Prop :=
  (∃ h1 o1, clap_option_store env (token_handler tok) o _FLAG_OPT_POSITIONAL = .done h1 o1) ∧
    CallbackQuiet env o

/-- The table in which the i-th token has been bound to the i-th positional slot, in
table order, whatever entries lie between the slots; tokens without a slot are
left over. -/
def bind_positionals (env : Env) : List ClapOption → List CString → List ClapOption
  | [], _ => []
  | o :: t, [] => o :: t
  | o :: t, tok :: toks =>
    if o.type = CLAP_OPT_END then o :: t
    else if IsSlot o then bound env o tok :: bind_positionals env t toks
    else o :: bind_positionals env t (tok :: toks)

/-- The coercion of the i-th token succeeds for the i-th positional slot, for
every token that has a slot. -/
def AllBind (env : Env) : List ClapOption → List CString → Prop
  | [], _ => True
  | _ :: _, [] => True
  | o :: t, tok :: toks =>
    if o.type = CLAP_OPT_END then True
    else if IsSlot o then Binds env o tok ∧ AllBind env t toks
    else AllBind env t (tok :: toks)

/-- The call with result `r`, started on the handler `h`, has not run out of fuel,
and when it returns it has kept the `argv` array and not moved the cursor
back. -/
def Advances (h : ClapHandler) (r : Outcome) : Prop :=
  match r with
  | .ret _ h1 => h1.args = h.args ∧ h.argv ≤ h1.argv
  | .undefined => True
  | .timeout => False

/-- The kind is one of the closed variants a descriptor may have: `Group`, `None`,
`Int`, `Double`, `String`, `Bool`, `FileRead`, `FileWrite`. -/
def IsKind (type : Int) : Prop :=
  type = CLAP_OPT_GROUP ∨ type = CLAP_OPT_NONE ∨ type = CLAP_OPT_INT ∨ type = CLAP_OPT_DOUBLE ∨
    type = CLAP_OPT_STRING ∨ type = CLAP_OPT_BOOL ∨ type = CLAP_OPT_FILE_R ∨
    type = CLAP_OPT_FILE_W

instance (type : Int) : Decidable (IsKind type) := by unfold IsKind; infer_instance

/-- The invariant of a descriptor: a descriptor that is not a group has a short
flag or a long flag. -/
def DescriptorInvariant (o : ClapOption) : Prop :=
  o.type = CLAP_OPT_GROUP ∨ o.short_option ≠ Char.ofNat 0 ∨ o.long_option ≠ none

instance (o : ClapOption) : Decidable (DescriptorInvariant o) := by
  unfold DescriptorInvariant; infer_instance

/-- The string holds no NUL character: it is the text of a C string. -/
def IsCString (s : CString) : Prop := Char.ofNat 0 ∉ s

instance (s : CString) : Decidable (IsCString s) := by unfold IsCString; infer_instance

/-- The name portion of the text of a long token: what stands before its first `=`. -/
def long_name (text : CString) : CString := text.takeWhile (fun c => decide (c ≠ '='))

/-- The descriptor `o1` has the shape of `o`: the same kind, flags texts, help
text and callback, and the same flag word but for the `Set` bit, which may have
been put on. The storage may differ. -/
def SameShape (o o1 : ClapOption) : Prop :=
  o1.type = o.type ∧ o1.short_option = o.short_option ∧ o1.long_option = o.long_option ∧
    o1.help = o.help ∧ o1.callback = o.callback ∧
    (o1.flags = o.flags ∨ o1.flags = o.flags ||| CLAP_FLAG_SET)

/-- The index of the entry a short flag `c` stands for: the first entry in front
of the `End` sentinel that is not a group and carries `c`. -/
def short_index (c : Char) : List ClapOption → Option Nat
  | [] => none
  | o :: t =>
    if o.type = CLAP_OPT_END then none
    else if o.type ≠ CLAP_OPT_GROUP ∧ o.short_option = c then some 0
    else (short_index c t).map (fun k => k + 1)

/-- The descriptor has a long flag that `strcmp_long_option` finds equal to the
token text. -/
def long_flag_is (text : CString) (o : ClapOption) : Bool :=
  match o.long_option with
  | some l => decide (strcmp_long_option l text = 0)
  | none => false

/-- The index of the entry a long token text stands for: the first entry in
front of the `End` sentinel that is not a group and whose long flag is found
equal to the text. -/
def long_index (text : CString) : List ClapOption → Option Nat
  | [] => none
  | o :: t =>
    if o.type = CLAP_OPT_END then none
    else if o.type ≠ CLAP_OPT_GROUP ∧ long_flag_is text o = true then some 0
    else (long_index text t).map (fun k => k + 1)

/-- The token `tok` matches the descriptor `o`, entry `j` of the table `t`: a token
`--text` matches the entry its text stands for, a token `-c1...ck` the entries
its characters stand for, and a token that does not start with `-` a positional
slot whose `Set` bit is clear. -/
def Matches (t : List ClapOption) (tok : CString) (j : Nat) (o : ClapOption) : Prop :=
  if tok.head? ≠ some '-' then IsSlot o ∧ ¬ IsSet o
  else if (tok.drop 1).head? ≠ some '-' then ∃ c ∈ tok.drop 1, short_index c t = some j
  else long_index (tok.drop 2) t = some j

instance (t : List ClapOption) (tok : CString) (j : Nat) (o : ClapOption) :
    Decidable (Matches t tok j o) := by unfold Matches; infer_instance

/-- The table `t1` is the table `t` with the same entries in the same order and
shape; an entry that differs is one for which `P` holds. -/
def Touches (P : Nat → ClapOption → Prop) (t t1 : List ClapOption) : Prop :=
  t1.length = t.length ∧
    ∀ j o o1, t[j]? = some o → t1[j]? = some o1 → SameShape o o1 ∧ (o1 ≠ o → P j o)

/-- When the call with result `r`, started on the handler `h`, returns, it has
touched the table at entries for which `P` holds only. -/
def Keeps (P : Nat → ClapOption → Prop) (h : ClapHandler) (r : Outcome) : Prop :=
  match r with
  | .ret _ h1 => Touches P h.options h1.options
  | _ => True

/-- The tokens the `while` loop of `clap_parse` reads from the handler `handler`
on, in order, each with the handler it is handled on: a token taken as the
value of an option is not among them, and the list ends with the token on
which the loop stops. -/
def clap_parse_reads (env : Env) : Nat → ClapHandler → List (ClapHandler × CString)
  | 0, _ => []
  | fuel + 1, handler =>
    match handler.args[handler.argv]? with
    | none => []
    | some arg =>
      ({ handler with argv := handler.argv + 1 }, arg) ::
        match clap_parse_token env { handler with argv := handler.argv + 1 } arg with
        | .ret err handler1 => if err ≠ 0 then [] else clap_parse_reads env fuel handler1
        | _ => []

/-- The tokens the scan of `clap_parse(handler, argc, argv)` reaches. -/
def scan_reads (env : Env) (handler : ClapHandler) (argc : Int) (argv : List CString) :
    List (ClapHandler × CString) :=
  if argc > 1 then
    clap_parse_reads env (argv.length + 1) { handler with argc := argc, args := argv, argv := 1 }
  else []

/-- The index of the entry a bare token stands for: the first entry in front of
the `End` sentinel that is not a group, is positional and has its `Set` bit
clear (the test of `clap_option_positional`, lines 217-218). -/
def slot_index : List ClapOption → Option Nat
  | [] => none
  | o :: t =>
    if o.type = CLAP_OPT_END then none
    else if o.type ≠ CLAP_OPT_GROUP ∧
        o.flags &&& CLAP_FLAG_POSITIONAL ≠ 0 ∧ o.flags &&& CLAP_FLAG_SET = 0 then some 0
    else (slot_index t).map (fun k => k + 1)

/-- The entries the characters of a bundle match while the `for` loop of
`clap_parse` runs on them from the handler `handler` on: each character the loop
reaches is looked up in the table as it is at that turn, and the loop stops at
the first character whose call does not give 0. -/
def bundle_matched (env : Env) : List Char → ClapHandler → List Nat
  | [], _ => []
  | c :: cs, handler =>
    (short_index c handler.options).toList ++
      match clap_option_short env handler c _FLAG_REQUIRE_NO_VAL with
      | .ret err handler1 => if err ≠ 0 then [] else bundle_matched env cs handler1
      | _ => []

/-- The entries the token `arg` matches when the body of the `while` loop handles
it on the handler `handler`: the branches are those of `clap_parse_token`, with
the entry each matcher finds in place of the call of the matcher. -/
def token_matched (env : Env) (handler : ClapHandler) (arg : CString) : List Nat :=
  match arg with
  | '-' :: rest =>
    if arg.length < 2 then []
    else if rest.head? ≠ some '-' then
      if arg.length = 2 then (short_index (rest.headD (Char.ofNat 0)) handler.options).toList
      else bundle_matched env rest handler
    else if arg.length < 3 then []
    else (long_index (arg.drop 2) handler.options).toList
  | _ => (slot_index handler.options).toList

/-- The entries that the tokens of `argv` match during the scan of
`clap_parse(handler, argc, argv)`: those of the tokens the scan reads, each on
the handler it is handled on. A token taken as the value of an option and a
token behind the one on which the scan stops match nothing. -/
def scan_matched (env : Env) (handler : ClapHandler) (argc : Int) (argv : List CString) :
    List Nat :=
  ((scan_reads env handler argc argv).map (fun p => token_matched env p.1 p.2)).flatten

/-- Every positional slot of the table has its `Set` bit on. -/
def SlotsFilled (t : List ClapOption) : Prop := ∀ o ∈ descriptors t, IsSlot o → IsSet o

instance (t : List ClapOption) : Decidable (SlotsFilled t) := by unfold SlotsFilled; infer_instance

/-- The table a call leaves behind, when it returns. -/
def Outcome.table (r : Outcome) : Option (List ClapOption) := r.state.map (fun h => h.options)

/-- Two runs end alike: both have no defined behaviour, or both return, with the
same code and the same table. -/
def Agree (r1 r2 : Outcome) : Prop :=
  match r1, r2 with
  | .ret a h1, .ret b h2 => a = b ∧ h1.options = h2.options
  | .undefined, .undefined => True
  | _, _ => False

/-- Every callback looks at the table only: its value does not depend on `argc`,
on `argv` or on the cursor. -/
def TableOnly (env : Env) : Prop :=
  ∀ f h1 h2 i, h1.options = h2.options → env.callback f h1 i = env.callback f h2 i

/-- The separate tokens `-c1`, ..., `-ck` of the characters of a cluster. -/
def split_cluster (cs : List Char) : List CString := cs.map (fun c => ['-', c])

/-- The character `c` stands for a `Bool` descriptor of the table or for none. -/
def BoolOrNone (t : List ClapOption) (c : Char) : Prop :=
  match short_match c t with
  | some o => o.type = CLAP_OPT_BOOL
  | none => True

instance (t : List ClapOption) (c : Char) : Decidable (BoolOrNone t c) := by
  unfold BoolOrNone; split <;> infer_instance

/-- The source string of a descriptor that takes a value, as lines 110-122 find
it from the token just read and the cursor: the text behind the first `=` of
the token when the token carries a value, else the next token of `argv` for a
descriptor that is not positional, else the token itself. -/
def source_string (h : ClapHandler) (o : ClapOption) (fl : Nat) : Option CString :=
  if fl &&& _FLAG_LONG_OPT_WITH_VALUE ≠ 0 then (prev_arg h).bind (strchr_next '=')
  else if o.flags &&& CLAP_FLAG_POSITIONAL = 0 then h.args[h.argv]?
  else prev_arg h

/-- The handler once the source string has been found: the cursor has moved when
the source is the next token of `argv`. -/
def after_source (h : ClapHandler) (o : ClapOption) (fl : Nat) : ClapHandler :=
  if fl &&& _FLAG_LONG_OPT_WITH_VALUE ≠ 0 then h
  else if o.flags &&& CLAP_FLAG_POSITIONAL = 0 then { h with argv := h.argv + 1 }
  else h

/-! ## Sample tables: the macros of `CLAP.h`, `example.c`, the scenarios of the specification -/

/-- A table entry `{ type, short, long, ptr, help, flags, callback }`. -/
def entry (type : Int) (short : Char) (long : Option String) (ptr : Option Value)
    (flags : Nat) (callback : Option Nat) : ClapOption :=
  { type := type, short_option := short, long_option := long.map String.toList,
    ptr_value := ptr, help := none, flags := flags, callback := callback }

/-- The macro `CLAP_END()`. -/
def CLAP_END : ClapOption := entry CLAP_OPT_END (Char.ofNat 0) none none 0 none

/-- The macro `CLAP_GROUP(h)` with the title of the group of `example.c`. -/
def CLAP_GROUP : ClapOption :=
  { entry CLAP_OPT_GROUP (Char.ofNat 0) none none 0 none with
    help := some "Some test options".toList }

/-- The address of `a_callback` of `example.c`. -/
def a_callback : Nat := 2

/-- The macro `CLAP_HELP()`. -/
def CLAP_HELP : ClapOption :=
  { entry CLAP_OPT_NONE 'h' (some "help") none CLAP_FLAG_CALLBACK (some clap_help_cb_ptr) with
    help := some "show this help message and exit".toList }

/-- An environment: `a_callback` returns 0 (and so does every other callback that
is not of the library), every file opens, and `strtod` reads integers only. -/
def example_env : Env :=
  { strtod := fun s => ((strtol s).1.toNat, (strtol s).2)
    fopen := fun _ _ => some 3
    callback := fun _ _ _ => 0 }

/-- A handler on the table `t`, as `clap_handler_new` returns it. -/
def handler_of (t : List ClapOption) : ClapHandler :=
  { options := t, name := none, description := none, epilog := none,
    argc := 0, args := [], argv := 0 }

/-- The table of `example.c`. -/
def example_options : List ClapOption :=
  [ CLAP_HELP,
    entry CLAP_OPT_FILE_R (Char.ofNat 0) (some "file") (some (.file none)) CLAP_FLAG_POSITIONAL none,
    entry CLAP_OPT_DOUBLE 'e' (some "threshold") (some (.double 10)) CLAP_FLAG_MANDATORY none,
    entry CLAP_OPT_STRING 'c' (some "callback") (some (.str none)) CLAP_FLAG_CALLBACK
      (some a_callback),
    CLAP_GROUP,
    entry CLAP_OPT_BOOL 'v' (some "verbose") (some (.bool false)) 0 none,
    entry CLAP_OPT_BOOL 't' (some "test") (some (.bool true)) 0 none,
    CLAP_END ]

/-- The table `[Bool('v', "verbose"), Int('n', "count", mandatory)]` of the
scenarios of the specification. -/
def scenario_options : List ClapOption :=
  [ entry CLAP_OPT_BOOL 'v' (some "verbose") (some (.bool false)) 0 none,
    entry CLAP_OPT_INT 'n' (some "count") (some (.int 0)) CLAP_FLAG_MANDATORY none,
    CLAP_END ]

/-- The three arguments `-v -n 5` after the program name. -/
def scenario_argv : List CString := ["prog", "-v", "-n", "5"].map String.toList

/-- The table of the scenario after `scenario_argv` has been parsed. -/
def scenario_options_parsed : List ClapOption :=
  [ entry CLAP_OPT_BOOL 'v' (some "verbose") (some (.bool true)) CLAP_FLAG_SET none,
    entry CLAP_OPT_INT 'n' (some "count") (some (.int 5))
      (CLAP_FLAG_MANDATORY ||| CLAP_FLAG_SET) none,
    CLAP_END ]

/-- The handler of the scenario after `scenario_argv` has been parsed. -/
def scenario_handler_parsed : ClapHandler :=
  { handler_of scenario_options_parsed with argc := 4, args := scenario_argv, argv := 4 }

/-- A table whose help flag is a `Bool` descriptor with the callback `clap_help_cb`,
followed by the two options of the scenario table. -/
def help_bool_options : List ClapOption :=
  [ entry CLAP_OPT_BOOL 'h' (some "help") (some (.bool false)) CLAP_FLAG_CALLBACK
      (some clap_help_cb_ptr),
    entry CLAP_OPT_BOOL 'v' (some "verbose") (some (.bool false)) 0 none,
    entry CLAP_OPT_INT 'n' (some "count") (some (.int 0)) CLAP_FLAG_MANDATORY none,
    CLAP_END ]

/-- A table with two positional slots, `src` and `dst`, and other entries around
them. -/
def copy_options : List ClapOption :=
  [ entry CLAP_OPT_BOOL 'v' (some "verbose") (some (.bool false)) 0 none,
    entry CLAP_OPT_STRING (Char.ofNat 0) (some "src") (some (.str none)) CLAP_FLAG_POSITIONAL none,
    CLAP_GROUP,
    entry CLAP_OPT_INT 'n' (some "count") (some (.int 0)) 0 none,
    entry CLAP_OPT_INT (Char.ofNat 0) (some "dst") (some (.int 0))
      (CLAP_FLAG_POSITIONAL ||| CLAP_FLAG_MANDATORY) none,
    CLAP_END ]

/-- A table with one entry whose kind is the number `CLAP_OPT_SIZE`, which is the
count of kinds and not a kind. -/
def size_options : List ClapOption :=
  [ entry CLAP_OPT_BOOL 'v' (some "verbose") (some (.bool false)) 0 none,
    entry CLAP_OPT_SIZE 'x' (some "extra") (some (.int 0)) 0 none,
    CLAP_END ]

/-- A table whose first descriptor has a short flag and no long flag. -/
def short_only_options : List ClapOption :=
  [ entry CLAP_OPT_BOOL 'v' none (some (.bool false)) 0 none,
    entry CLAP_OPT_BOOL 't' (some "test") (some (.bool true)) 0 none,
    CLAP_END ]

/-! ## The help entry -/

/-- The descriptor is the entry `CLAP_HELP()`: a `None` descriptor with the flags
`h` and `help` and the callback `clap_help_cb`, with the attribute `Callback` and
no other; its `Set` bit may be on. The help text is only printed. -/
def IsHelp (o : ClapOption) : Prop :=
  o.type = CLAP_OPT_NONE ∧ o.short_option = 'h' ∧ o.long_option = some ['h', 'e', 'l', 'p'] ∧
    o.callback = some clap_help_cb_ptr ∧
    (o.flags = CLAP_FLAG_CALLBACK ∨ o.flags = CLAP_FLAG_CALLBACK ||| CLAP_FLAG_SET)

instance (o : ClapOption) : Decidable (IsHelp o) := by unfold IsHelp; infer_instance

/-- The only descriptors of the table with the attribute `Callback` are entries
`CLAP_HELP()`. -/
def HelpOnly (t : List ClapOption) : Prop := ∀ o ∈ descriptors t, HasCallback o → IsHelp o

instance (t : List ClapOption) : Decidable (HelpOnly t) := by unfold HelpOnly; infer_instance

/-- The entry of the table a token `-h`, `--help` or `--help=value` is matched to:
the entry the character `h` stands for, for the token `-h`, and the entry the
text of a long token stands for. -/
def help_match (t : List ClapOption) (tok : CString) : Option ClapOption :=
  if tok = ['-', 'h'] then (short_index 'h' t).bind (fun j => t[j]?)
  else if tok.take 2 = ['-', '-'] then (long_index (tok.drop 2) t).bind (fun j => t[j]?)
  else none

/-- The token is `-h` or a long token and is matched to an entry `CLAP_HELP()` of
the table. -/
def MatchesHelp (t : List ClapOption) (tok : CString) : Prop :=
  match help_match t tok with
  | some o => IsHelp o
  | none => False

instance (t : List ClapOption) (tok : CString) : Decidable (MatchesHelp t tok) := by
  unfold MatchesHelp; split <;> infer_instance

/-- The scan of `clap_parse(handler, argc, argv)` reaches a token `-h` or `--help`
that is matched to an entry `CLAP_HELP()`. -/
def ReadsHelp (env : Env) (handler : ClapHandler) (argc : Int) (argv : List CString) : Prop :=
  ∃ p ∈ scan_reads env handler argc argv, MatchesHelp p.1.options p.2

instance (env : Env) (handler : ClapHandler) (argc : Int) (argv : List CString) :
    Decidable (ReadsHelp env handler argc argv) := by unfold ReadsHelp; infer_instance

/-- The table of the scenarios with the entry `CLAP_HELP()` in front. -/
def help_options : List ClapOption :=
  [ CLAP_HELP,
    entry CLAP_OPT_BOOL 'v' (some "verbose") (some (.bool false)) 0 none,
    entry CLAP_OPT_INT 'n' (some "count") (some (.int 0)) CLAP_FLAG_MANDATORY none,
    CLAP_END ]

/-! ## The call of a callback -/

theorem clap_help_cb_congr (h1 h2 : ClapHandler) (i j : Nat)
    (hopts : h1.options = h2.options) : clap_help_cb h1 i = clap_help_cb h2 j := by
  unfold clap_help_cb clap_usage
  rw [hopts]

/-- Whether the call of a callback is defined depends on the table only. -/
theorem call_callback_none_congr (env : Env) (f : Nat) (h1 h2 : ClapHandler) (i : Nat)
    (hopts : h1.options = h2.options) :
    call_callback env f h1 i = none ↔ call_callback env f h2 i = none := by
  unfold call_callback
  by_cases hf : f = clap_help_cb_ptr
  · rw [if_pos hf, if_pos hf, clap_help_cb_congr h1 h2 i i hopts]
  · rw [if_neg hf, if_neg hf]
    simp

theorem call_callback_congr (env : Env) (f : Nat) (h1 h2 : ClapHandler) (i : Nat)
    (hopts : h1.options = h2.options)
    (henv : env.callback f h1 i = env.callback f h2 i) :
    call_callback env f h1 i = call_callback env f h2 i := by
  unfold call_callback
  by_cases hf : f = clap_help_cb_ptr
  · rw [if_pos hf, if_pos hf, clap_help_cb_congr h1 h2 i i hopts]
  · rw [if_neg hf, if_neg hf, henv]

theorem return_callback_some (env : Env) (f : Nat) (h : ClapHandler) (i : Nat) (code : Int)
    (hc : call_callback env f h i = some code) : return_callback env f h i = .ret code h := by
  unfold return_callback
  rw [hc]

theorem return_callback_none (env : Env) (f : Nat) (h : ClapHandler) (i : Nat)
    (hc : call_callback env f h i = none) : return_callback env f h i = .undefined := by
  unfold return_callback
  rw [hc]

/-- The call of a callback returns on the handler it was called on, or has no
defined behaviour. -/
theorem return_callback_cases (env : Env) (f : Nat) (h : ClapHandler) (i : Nat) :
    (call_callback env f h i = none ∧ return_callback env f h i = .undefined) ∨
      ∃ code, call_callback env f h i = some code ∧ return_callback env f h i = .ret code h := by
  unfold return_callback
  cases call_callback env f h i with
  | none => exact Or.inl ⟨rfl, rfl⟩
  | some code => exact Or.inr ⟨code, rfl, rfl⟩

/-- A table with the entry `CLAP_HELP()` and a positional descriptor that has a
short flag and no long flag. -/
def help_unnamed_options : List ClapOption :=
  [ CLAP_HELP,
    entry CLAP_OPT_STRING 'f' none (some (.str none)) CLAP_FLAG_POSITIONAL none,
    CLAP_END ]

/-- An environment whose callbacks read the handler: they return `argc - 2`. Files
and `strtod` are as in `example_env`. -/
def argc_env : Env :=
  { strtod := fun s => ((strtol s).1.toNat, (strtol s).2)
    fopen := fun _ _ => some 3
    callback := fun _ handler _ => handler.argc - 2 }

/-- A table whose `Int` option `count` has a callback. -/
def counted_options : List ClapOption :=
  [ entry CLAP_OPT_INT 'n' (some "count") (some (.int 0)) CLAP_FLAG_CALLBACK (some a_callback),
    CLAP_END ]

/-! ## The mandatory sweep -/

theorem descriptors_cons_end (o : ClapOption) (t : List ClapOption)
    (h : o.type = CLAP_OPT_END) : descriptors (o :: t) = [] := by
  simp [descriptors, h]

theorem descriptors_cons (o : ClapOption) (t : List ClapOption)
    (h : o.type ≠ CLAP_OPT_END) : descriptors (o :: t) = o :: descriptors t := by
  simp [descriptors, h]

/-- The sweep returns -1 exactly when a descriptor is mandatory and not set;
it leaves the handler as it is. -/
theorem clap_parse_mandatory_eq (h : ClapHandler) (t : List ClapOption) :
    clap_parse_mandatory h t =
      .ret (if ∃ o ∈ descriptors t, IsMandatory o ∧ ¬ IsSet o then -1 else 0) h := by
  induction t with
  | nil => simp [clap_parse_mandatory, descriptors]
  | cons o t ih =>
    unfold clap_parse_mandatory
    by_cases hend : o.type = CLAP_OPT_END
    · simp [hend, descriptors_cons_end]
    · by_cases hm : o.flags &&& CLAP_FLAG_MANDATORY ≠ 0 ∧ o.flags &&& CLAP_FLAG_SET = 0
      · have : ∃ o1 ∈ descriptors (o :: t), IsMandatory o1 ∧ ¬ IsSet o1 :=
          ⟨o, by simp [descriptors_cons _ _ hend], hm.1, fun hs => hs hm.2⟩
        rw [if_neg hend, if_pos hm, if_pos this]
      · rw [if_neg hend, if_neg hm, ih, descriptors_cons _ _ hend]
        congr 1
        have hno : ¬ (IsMandatory o ∧ ¬ IsSet o) := fun hx =>
          hm ⟨hx.1, Classical.not_not.mp hx.2⟩
        simp only [List.mem_cons, exists_eq_or_imp, hno, false_or]

/-- C1: when the scan of `argv` ends with `err = 0` in the state `h1`, `clap_parse`
returns -1 if a descriptor in front of the `End` sentinel is mandatory with its
`Set` bit clear, and 0 otherwise; and whenever `clap_parse` returns 0, every
mandatory descriptor of the returned table has its `Set` bit on. -/
theorem clap_parse_mandatory_sweep (env : Env) (handler : ClapHandler) (argc : Int)
    (argv : List CString) :
    (∀ h1, clap_parse_scan env handler argc argv = .ret 0 h1 →
      clap_parse env handler argc argv =
        .ret (if ∃ o ∈ descriptors h1.options, IsMandatory o ∧ ¬ IsSet o then -1 else 0) h1) ∧
    (∀ h2, clap_parse env handler argc argv = .ret 0 h2 →
      ∀ o ∈ descriptors h2.options, IsMandatory o → IsSet o) := by
  constructor
  · intro h1 hscan
    simp [clap_parse, hscan, clap_parse_mandatory_eq]
  · intro h2 hp o ho hm
    unfold clap_parse at hp
    cases hs : clap_parse_scan env handler argc argv with
    | ret err h1 =>
      rw [hs] at hp
      simp only at hp
      by_cases herr : err ≠ 0
      · rw [if_pos herr] at hp
        injection hp with h1 h2
        exact absurd h1 herr
      · rw [if_neg herr, clap_parse_mandatory_eq] at hp
        injection hp with hc hh
        subst hh
        by_contra hns
        have : ∃ o ∈ descriptors h1.options, IsMandatory o ∧ ¬ IsSet o := ⟨o, ho, hm, hns⟩
        rw [if_pos this] at hc
        exact absurd hc (by decide)
    | undefined => rw [hs] at hp; simp at hp
    | timeout => rw [hs] at hp; simp at hp

/-- The scan of `-v -n 5` on the scenario table ends with `err = 0`, and
`clap_parse` then returns 0 since the mandatory `count` is set. -/
theorem clap_parse_mandatory_sweep_witness :
    clap_parse_scan example_env (handler_of scenario_options) 4 scenario_argv =
        .ret 0 scenario_handler_parsed ∧
    clap_parse example_env (handler_of scenario_options) 4 scenario_argv =
        .ret 0 scenario_handler_parsed :=
  ⟨by decide,
   ((clap_parse_mandatory_sweep example_env (handler_of scenario_options) 4 scenario_argv).1
      scenario_handler_parsed (by decide)).trans (by decide)⟩

/-! ## Parsing an empty argument list -/

/-- C2 (amended): on an empty argument list `clap_parse` only runs the mandatory
sweep. It returns 0 if and only if no descriptor in front of the `End`
sentinel is mandatory with its `Set` bit clear, and -1 otherwise; for a table
whose `Set` bits are all clear this is: if and only if no descriptor is
mandatory. -/
theorem clap_parse_empty_args (env : Env) (handler : ClapHandler) (prog : CString) :
    clap_parse env handler 1 [prog] =
      .ret (if ∃ o ∈ descriptors handler.options, IsMandatory o ∧ ¬ IsSet o then -1 else 0)
        { handler with argc := 1, args := [prog], argv := 1 } ∧
    ((clap_parse env handler 1 [prog]).code = some 0 ↔
      ∀ o ∈ descriptors handler.options, IsMandatory o → IsSet o) ∧
    ((∀ o ∈ descriptors handler.options, ¬ IsSet o) →
      ((clap_parse env handler 1 [prog]).code = some 0 ↔
        ∀ o ∈ descriptors handler.options, ¬ IsMandatory o)) := by
  have heq : clap_parse env handler 1 [prog] =
      .ret (if ∃ o ∈ descriptors handler.options, IsMandatory o ∧ ¬ IsSet o then -1 else 0)
        { handler with argc := 1, args := [prog], argv := 1 } := by
    simp [clap_parse, clap_parse_scan, clap_parse_mandatory_eq]
  have hiff : (clap_parse env handler 1 [prog]).code = some 0 ↔
      ∀ o ∈ descriptors handler.options, IsMandatory o → IsSet o := by
    rw [heq]
    constructor
    · intro hh o ho hm
      by_contra hns
      have hex : ∃ o ∈ descriptors handler.options, IsMandatory o ∧ ¬ IsSet o :=
        ⟨o, ho, hm, hns⟩
      rw [if_pos hex] at hh
      simp [Outcome.code] at hh
    · intro hall
      have hex : ¬ ∃ o ∈ descriptors handler.options, IsMandatory o ∧ ¬ IsSet o := by
        rintro ⟨o, ho, hm, hns⟩
        exact hns (hall o ho hm)
      rw [if_neg hex]
      rfl
  refine ⟨heq, hiff, fun hfresh => hiff.trans ⟨fun hall o ho hm => ?_, fun hall o ho hm => ?_⟩⟩
  · exact hfresh o ho (hall o ho hm)
  · exact absurd hm (hall o ho)

/-- On the fresh table `[Group, Bool v]`, which has no mandatory descriptor,
an empty argument list is accepted. -/
theorem clap_parse_empty_args_witness :
    (∀ o ∈ descriptors [CLAP_GROUP, entry CLAP_OPT_BOOL 'v' none (some (.bool false)) 0 none],
      ¬ IsSet o) ∧
    ((clap_parse example_env
        (handler_of [CLAP_GROUP, entry CLAP_OPT_BOOL 'v' none (some (.bool false)) 0 none])
        1 ["prog".toList]).code = some 0 ↔
      ∀ o ∈ descriptors [CLAP_GROUP, entry CLAP_OPT_BOOL 'v' none (some (.bool false)) 0 none],
        ¬ IsMandatory o) :=
  ⟨by decide,
   (clap_parse_empty_args example_env
      (handler_of [CLAP_GROUP, entry CLAP_OPT_BOOL 'v' none (some (.bool false)) 0 none])
      "prog".toList).2.2 (by decide)⟩

/-- C2 as stated fails on a table that has been parsed before: after `-v -n 5`
the mandatory `count` keeps its `Set` bit (`scenario_options_parsed`), and an
empty argument list is then accepted although the table has a mandatory
descriptor. -/
theorem clap_parse_empty_args_counterexample :
    ¬ ((clap_parse example_env (handler_of scenario_options_parsed) 1 ["prog".toList]).code =
          some 0 ↔
        ∀ o ∈ descriptors scenario_options_parsed, ¬ IsMandatory o) := by
  decide

/-! ## A `None` descriptor in a bundle -/

/-- C7 fails on the code: in the bundle `-vh` on the table of `example.c` the
character `h` matches the `None` descriptor `CLAP_HELP()`; `clap_option_short`
with `_FLAG_REQUIRE_NO_VAL` returns -2 (not bundlable) and leaves the table as
it is, no `Set` bit and no callback, and `clap_parse` returns -2. The same
call without `_FLAG_REQUIRE_NO_VAL` sets the `Set` bit and returns -4, the
value of the callback. -/
theorem clap_option_short_none_in_bundle :
    clap_option_short example_env (handler_of example_options) 'h' _FLAG_REQUIRE_NO_VAL =
      .ret (-2) (handler_of example_options) ∧
    clap_option_short example_env (handler_of example_options) 'h' 0 =
      .ret (-4) (write_option (handler_of example_options) 0
        { CLAP_HELP with flags := CLAP_FLAG_CALLBACK ||| CLAP_FLAG_SET }) ∧
    clap_parse example_env (handler_of example_options) 2 ["prog".toList, "-vh".toList] =
      .ret (-2) { write_option (handler_of example_options) 5
          (entry CLAP_OPT_BOOL 'v' (some "verbose") (some (.bool true)) CLAP_FLAG_SET none) with
        argc := 2, args := ["prog".toList, "-vh".toList], argv := 2 } := by
  refine ⟨by decide, by decide, by decide⟩

/-! ## The matchers find the first entry that answers -/

theorem getElem?_split {α : Type} (pre : List α) (o : α) (post : List α) :
    (pre ++ o :: post)[pre.length]? = some o := by
  rw [List.getElem?_append_right (Nat.le_refl _)]
  simp

theorem set_split {α : Type} (pre : List α) (o o1 : α) (post : List α) :
    (pre ++ o :: post).set pre.length o1 = pre ++ o1 :: post := by
  simp

theorem clap_option_short_from_skip (env : Env) (h : ClapHandler) (c : Char) (fl : Nat)
    (pre rest : List ClapOption) (i : Nat) (hpre : NoShortMatch c pre) :
    clap_option_short_from env h c fl (pre ++ rest) i =
      clap_option_short_from env h c fl rest (i + pre.length) := by
  induction pre generalizing i with
  | nil => simp
  | cons p pre ih =>
    have hp := hpre p (by simp)
    have hrest : NoShortMatch c pre := fun q hq => hpre q (by simp [hq])
    have hno : ¬ (p.type ≠ CLAP_OPT_GROUP ∧ p.short_option = c) := by
      rintro ⟨h1, h2⟩
      rcases hp.2 with h3 | h3
      · exact h1 h3
      · exact h3 h2
    rw [List.cons_append, clap_option_short_from]
    rw [if_neg hp.1, if_neg hno, ih _ hrest]
    congr 1
    simp only [List.length_cons]
    omega

theorem clap_option_long_from_skip (env : Env) (h : ClapHandler) (opt : CString) (fl : Nat)
    (pre rest : List ClapOption) (i : Nat) (hpre : NoLongMatch opt pre) :
    clap_option_long_from env h opt fl (pre ++ rest) i =
      clap_option_long_from env h opt fl rest (i + pre.length) := by
  induction pre generalizing i with
  | nil => simp
  | cons p pre ih =>
    have hp := hpre p (by simp)
    have hrest : NoLongMatch opt pre := fun q hq => hpre q (by simp [hq])
    have hidx : i + 1 + pre.length = i + (p :: pre).length := by
      simp only [List.length_cons]; omega
    rw [List.cons_append, clap_option_long_from]
    rw [if_neg hp.1]
    rcases hp.2 with hg | ⟨l, hl, hne⟩
    · rw [if_neg (by simp [hg]), ih _ hrest, hidx]
    · by_cases hg : p.type = CLAP_OPT_GROUP
      · rw [if_neg (by simp [hg]), ih _ hrest, hidx]
      · rw [if_pos hg, hl]
        simp only
        rw [if_neg hne, ih _ hrest, hidx]

theorem clap_option_positional_from_skip (env : Env) (h : ClapHandler) (fl : Nat)
    (pre rest : List ClapOption) (i : Nat) (hpre : NoFreeSlot pre) :
    clap_option_positional_from env h fl (pre ++ rest) i =
      clap_option_positional_from env h fl rest (i + pre.length) := by
  induction pre generalizing i with
  | nil => simp
  | cons p pre ih =>
    have hp := hpre p (by simp)
    have hrest : NoFreeSlot pre := fun q hq => hpre q (by simp [hq])
    have hno : ¬ (p.type ≠ CLAP_OPT_GROUP ∧
        p.flags &&& CLAP_FLAG_POSITIONAL ≠ 0 ∧ p.flags &&& CLAP_FLAG_SET = 0) := by
      rintro ⟨h1, h2, h3⟩
      rcases hp.2 with h4 | h4 | h4
      · exact h1 h4
      · exact h4 h2
      · exact h4 h3
    rw [List.cons_append, clap_option_positional_from]
    rw [if_neg hp.1, if_neg hno, ih _ hrest]
    congr 1
    simp only [List.length_cons]
    omega

/-- The short matcher acts on the first entry that is not a group and carries
the character. -/
theorem clap_option_short_hit (env : Env) (h : ClapHandler) (c : Char) (fl : Nat)
    (pre : List ClapOption) (o : ClapOption) (post : List ClapOption)
    (htab : h.options = pre ++ o :: post) (hpre : NoShortMatch c pre)
    (hend : o.type ≠ CLAP_OPT_END) (hgrp : o.type ≠ CLAP_OPT_GROUP)
    (hshort : o.short_option = c) :
    clap_option_short env h c fl =
      if fl &&& _FLAG_REQUIRE_NO_VAL ≠ 0 ∧ (o.type ≠ CLAP_OPT_BOOL ∨ o.type = CLAP_OPT_NONE)
      then .ret (-2) h else clap_option_set_value env h pre.length 0 := by
  unfold clap_option_short
  rw [htab, clap_option_short_from_skip env h c fl pre _ 0 hpre]
  simp only [clap_option_short_from]
  rw [if_neg hend, if_pos ⟨hgrp, hshort⟩, Nat.zero_add]

/-- The long matcher acts on the first entry that is not a group and whose
long flag `strcmp_long_option` finds equal to the token text. -/
theorem clap_option_long_hit (env : Env) (h : ClapHandler) (opt : CString) (fl : Nat)
    (pre : List ClapOption) (o : ClapOption) (post : List ClapOption) (l : CString)
    (htab : h.options = pre ++ o :: post) (hpre : NoLongMatch opt pre)
    (hend : o.type ≠ CLAP_OPT_END) (hgrp : o.type ≠ CLAP_OPT_GROUP)
    (hlong : o.long_option = some l) (hcmp : strcmp_long_option l opt = 0) :
    clap_option_long env h opt fl =
      clap_option_set_value env h pre.length
        ((if strchr_found '=' opt then fl ||| _FLAG_LONG_OPT_WITH_VALUE else fl) |||
          _FLAG_OPT_LONG) := by
  unfold clap_option_long
  rw [htab, clap_option_long_from_skip env h opt _ pre _ 0 hpre]
  simp only [clap_option_long_from]
  rw [if_neg hend, if_pos hgrp, hlong]
  simp only
  rw [if_pos hcmp, Nat.zero_add]

/-- The positional matcher acts on the first entry that is not a group, is
positional and is not set. -/
theorem clap_option_positional_hit (env : Env) (h : ClapHandler) (tok : CString) (fl : Nat)
    (pre : List ClapOption) (o : ClapOption) (post : List ClapOption)
    (htab : h.options = pre ++ o :: post) (hpre : NoFreeSlot pre)
    (hend : o.type ≠ CLAP_OPT_END) (hgrp : o.type ≠ CLAP_OPT_GROUP)
    (hpos : IsPositional o) (hset : ¬ IsSet o) :
    clap_option_positional env h tok fl =
      clap_option_set_value env h pre.length (fl ||| _FLAG_OPT_POSITIONAL) := by
  unfold clap_option_positional
  rw [htab, clap_option_positional_from_skip env h fl pre _ 0 hpre]
  simp only [clap_option_positional_from]
  rw [if_neg hend, if_pos ⟨hgrp, hpos, Classical.not_not.mp hset⟩, Nat.zero_add]

/-- The guard of `clap_option_set_value`: a positional descriptor reached
without `_FLAG_OPT_POSITIONAL` gives -3 and nothing is written. -/
theorem clap_option_set_value_guard (env : Env) (h : ClapHandler) (i fl : Nat)
    (o : ClapOption) (hget : h.options[i]? = some o)
    (hfl : fl &&& _FLAG_OPT_POSITIONAL = 0) (hpos : IsPositional o) :
    clap_option_set_value env h i fl = .ret (-3) h := by
  unfold clap_option_set_value
  rw [hget]
  simp only
  rw [if_pos ⟨hfl, hpos⟩]

/-! ## The token classifier and one turn of the loop -/

theorem clap_parse_token_short (env : Env) (h : ClapHandler) (c : Char) (hc : c ≠ '-') :
    clap_parse_token env h ['-', c] = clap_option_short env h c 0 := by
  simp [clap_parse_token, hc]

theorem clap_parse_token_bundle (env : Env) (h : ClapHandler) (c d : Char) (cs : List Char)
    (hc : c ≠ '-') :
    clap_parse_token env h ('-' :: c :: d :: cs) = clap_parse_bundle env (c :: d :: cs) h := by
  simp [clap_parse_token, hc]

theorem clap_parse_token_long (env : Env) (h : ClapHandler) (tok : CString) (hne : tok ≠ []) :
    clap_parse_token env h ('-' :: '-' :: tok) = clap_option_long env h tok 0 := by
  cases tok with
  | nil => exact absurd rfl hne
  | cons d ds =>
    have h2 : ¬ (ds.length + 1 + 1 + 1 < 2) := by omega
    have h3 : ¬ (ds.length + 1 + 1 + 1 < 3) := by omega
    simp [clap_parse_token, h2, h3]

theorem clap_parse_token_positional (env : Env) (h : ClapHandler) (tok : CString)
    (hbare : tok.head? ≠ some '-') :
    clap_parse_token env h tok = clap_option_positional env h tok 0 := by
  unfold clap_parse_token
  split
  · simp at hbare
  · rfl

theorem clap_parse_loop_step (env : Env) (fuel : Nat) (h : ClapHandler) (arg : CString)
    (harg : h.args[h.argv]? = some arg) :
    clap_parse_loop env (fuel + 1) h =
      match clap_parse_token env { h with argv := h.argv + 1 } arg with
      | .ret err h1 => if err ≠ 0 then .ret err h1 else clap_parse_loop env fuel h1
      | o => o := by
  rw [clap_parse_loop, harg]

theorem clap_parse_loop_done (env : Env) (fuel : Nat) (h : ClapHandler)
    (harg : h.args[h.argv]? = none) :
    clap_parse_loop env (fuel + 1) h = .ret 0 h := by
  rw [clap_parse_loop, harg]

/-- A long flag without `=` is found equal to a token text that is the flag,
or the flag followed by `=` and anything. -/
theorem strcmp_long_option_name (name rest : CString) (hne : '=' ∉ name)
    (hrest : rest = [] ∨ rest.head? = some '=') :
    strcmp_long_option name (name ++ rest) = 0 := by
  induction name with
  | nil =>
    rcases hrest with hr | hr
    · subst hr; rfl
    · cases rest with
      | nil => rfl
      | cons d ds =>
        simp at hr
        subst hr
        simp [strcmp_long_option]
  | cons c cs ih =>
    have hc : c ≠ '=' := fun hc => hne (by simp [hc])
    have hcs : '=' ∉ cs := fun hm => hne (by simp [hm])
    rw [List.cons_append, strcmp_long_option]
    simp [hc, ih hcs]

theorem strchr_found_append (name : CString) (value : CString) :
    strchr_found '=' (name ++ '=' :: value) = true := by
  unfold strchr_found
  induction name with
  | nil => simp [strchr_next]
  | cons c cs ih =>
    rw [List.cons_append, strchr_next]
    split
    · rfl
    · exact ih

/-! ## A positional descriptor addressed by a flag -/

theorem clap_parse_token_misuse (env : Env) (pre : List ClapOption) (o : ClapOption)
    (post : List ClapOption) (hend : o.type ≠ CLAP_OPT_END) (hgrp : o.type ≠ CLAP_OPT_GROUP)
    (hpos : IsPositional o) (h : ClapHandler) (tok : CString)
    (htab : h.options = pre ++ o :: post) (hadr : AddressesByFlag pre o tok) :
    clap_parse_token env h tok = .ret (-3) h := by
  have hget : h.options[pre.length]? = some o := by rw [htab]; exact getElem?_split pre o post
  rcases hadr with ⟨c, rfl, hc, hshort, hpre⟩ | ⟨name, value, hlong, hne, heq, htok, hpre⟩
  · rw [clap_parse_token_short env h c hc,
      clap_option_short_hit env h c 0 pre o post htab hpre hend hgrp hshort,
      if_neg (by simp)]
    exact clap_option_set_value_guard env h _ 0 o hget (by decide) hpos
  · rcases htok with rfl | rfl <;>
      simp only [List.drop_succ_cons, List.drop_zero] at hpre
    · rw [clap_parse_token_long env h name hne]
      have hcmp : strcmp_long_option name name = 0 := by
        simpa using strcmp_long_option_name name [] heq (Or.inl rfl)
      rw [clap_option_long_hit env h name 0 pre o post name htab hpre hend hgrp hlong hcmp]
      refine clap_option_set_value_guard env h _ _ o hget ?_ hpos
      split <;> decide
    · rw [clap_parse_token_long env h _ (by simp)]
      have hcmp : strcmp_long_option name (name ++ '=' :: value) = 0 :=
        strcmp_long_option_name name _ heq (Or.inr rfl)
      rw [clap_option_long_hit env h _ 0 pre o post name htab hpre hend hgrp hlong hcmp]
      refine clap_option_set_value_guard env h _ _ o hget ?_ hpos
      split <;> decide

theorem or_set_and_set (f : Nat) : (f ||| CLAP_FLAG_SET) &&& CLAP_FLAG_SET = 1 := by
  show (f ||| 1) &&& 1 = 1
  apply Nat.eq_of_testBit_eq; intro i
  simp only [Nat.testBit_and, Nat.testBit_or]
  cases i <;> simp [Nat.testBit_succ]

theorem or_set_and_mandatory (f : Nat) :
    (f ||| CLAP_FLAG_SET) &&& CLAP_FLAG_MANDATORY = f &&& CLAP_FLAG_MANDATORY := by
  show (f ||| 1) &&& 2 = f &&& 2
  apply Nat.eq_of_testBit_eq; intro i
  simp only [Nat.testBit_and, Nat.testBit_or]
  cases i <;> simp [Nat.testBit_succ]

theorem or_set_and_callback (f : Nat) :
    (f ||| CLAP_FLAG_SET) &&& CLAP_FLAG_CALLBACK = f &&& CLAP_FLAG_CALLBACK := by
  show (f ||| 1) &&& 4 = f &&& 4
  apply Nat.eq_of_testBit_eq; intro i
  simp only [Nat.testBit_and, Nat.testBit_or]
  cases i <;> simp [Nat.testBit_succ]

theorem or_set_and_positional (f : Nat) :
    (f ||| CLAP_FLAG_SET) &&& CLAP_FLAG_POSITIONAL = f &&& CLAP_FLAG_POSITIONAL := by
  show (f ||| 1) &&& 8 = f &&& 8
  apply Nat.eq_of_testBit_eq; intro i
  simp only [Nat.testBit_and, Nat.testBit_or]
  cases i <;> simp [Nat.testBit_succ]

/-- The `switch` leaves the handler alone and writes to the storage only. -/
theorem clap_option_coerce_shape (env : Env) (h : ClapHandler) (o : ClapOption) (s : CString)
    (h1 : ClapHandler) (o1 : ClapOption)
    (hres : clap_option_coerce env h o s = .done h1 o1 ∨
      clap_option_coerce env h o s = .error h1 o1) :
    h1 = h ∧ o1 = { o with ptr_value := o1.ptr_value } := by
  unfold clap_option_coerce at hres
  split_ifs at hres <;> first
    | (cases hv : o.ptr_value <;> rw [hv] at hres <;> simp at hres <;>
        rcases hres with ⟨rfl, rfl⟩ <;> exact ⟨rfl, rfl⟩)
    | (cases hv : o.ptr_value <;> rw [hv] at hres <;> simp at hres <;>
        (try split_ifs at hres) <;> simp at hres <;>
        rcases hres with ⟨rfl, rfl⟩ <;> exact ⟨rfl, rfl⟩)
    | (simp at hres; rcases hres with ⟨rfl, rfl⟩; exact ⟨rfl, rfl⟩)

/-- Lines 107-165 leave the table alone, move the cursor by one token at most, and
write to the storage of the descriptor only. -/
theorem clap_option_store_shape (env : Env) (h : ClapHandler) (o : ClapOption) (fl : Nat)
    (h1 : ClapHandler) (o1 : ClapOption)
    (hres : clap_option_store env h o fl = .done h1 o1 ∨
      clap_option_store env h o fl = .error h1 o1) :
    (h1 = h ∨ h1 = { h with argv := h.argv + 1 }) ∧ o1 = { o with ptr_value := o1.ptr_value } := by
  unfold clap_option_store at hres
  split_ifs at hres with hb hn hl hp
  · split at hres
    · simp at hres
      rcases hres with ⟨rfl, rfl⟩
      exact ⟨Or.inl rfl, rfl⟩
    · simp at hres
  · split at hres
    · simp at hres
    · split at hres
      · simp at hres
      · have := clap_option_coerce_shape env h o _ h1 o1 hres
        exact ⟨Or.inl this.1, this.2⟩
  · split at hres
    · simp at hres
      rcases hres with ⟨rfl, rfl⟩
      exact ⟨Or.inr rfl, rfl⟩
    · have := clap_option_coerce_shape env _ o _ h1 o1 hres
      exact ⟨Or.inr this.1, this.2⟩
  · split at hres
    · simp at hres
    · have := clap_option_coerce_shape env h o _ h1 o1 hres
      exact ⟨Or.inl this.1, this.2⟩
  · simp at hres
    rcases hres with ⟨rfl, rfl⟩
    exact ⟨Or.inl rfl, rfl⟩

/-! ## The callback protocol -/

/-- C10: when lines 107-165 end well (`done`) on a descriptor that declares a
callback `f`, `clap_option_set_value` returns the value of `f`, called on the
handler in which the descriptor already has its `Set` bit (and has no defined
behaviour when the call of `f` has none). In `clap_parse`, a
non-zero value of a token (in particular of a callback) ends the loop at once:
no later token is read and the mandatory sweep is not run; the value 0 lets the
loop go on with the token under the cursor. -/
theorem clap_option_set_value_callback (env : Env) :
    (∀ h i fl o h1 o1 f, h.options[i]? = some o →
      ¬ (fl &&& _FLAG_OPT_POSITIONAL = 0 ∧ IsPositional o) →
      clap_option_store env h o fl = .done h1 o1 →
      HasCallback o → o.callback = some f →
      (∀ code, call_callback env f
            (write_option h1 i { o1 with flags := o1.flags ||| CLAP_FLAG_SET }) i = some code →
          clap_option_set_value env h i fl =
            .ret code (write_option h1 i { o1 with flags := o1.flags ||| CLAP_FLAG_SET })) ∧
        (call_callback env f
            (write_option h1 i { o1 with flags := o1.flags ||| CLAP_FLAG_SET }) i = none →
          clap_option_set_value env h i fl = .undefined) ∧
        ∃ o2, (write_option h1 i { o1 with flags := o1.flags ||| CLAP_FLAG_SET }).options[i]? =
          some o2 ∧ IsSet o2) ∧
    (∀ fuel h arg err h1, h.args[h.argv]? = some arg →
      clap_parse_token env { h with argv := h.argv + 1 } arg = .ret err h1 → err ≠ 0 →
      clap_parse_loop env (fuel + 1) h = .ret err h1) ∧
    (∀ h argc argv err h1, clap_parse_scan env h argc argv = .ret err h1 → err ≠ 0 →
      clap_parse env h argc argv = .ret err h1) ∧
    (∀ fuel h arg h1, h.args[h.argv]? = some arg →
      clap_parse_token env { h with argv := h.argv + 1 } arg = .ret 0 h1 →
      clap_parse_loop env (fuel + 1) h = clap_parse_loop env fuel h1) := by
  refine ⟨?_, ?_, ?_, ?_⟩
  · intro h i fl o h1 o1 f hget hguard hstore hcb hf
    have hshape := clap_option_store_shape env h o fl h1 o1 (Or.inl hstore)
    have hflags : o1.flags = o.flags := by rw [hshape.2]
    have hcallback : o1.callback = o.callback := by rw [hshape.2]
    have hopts : h1.options = h.options := by
      rcases hshape.1 with hh | hh <;> rw [hh]
    have hcall : clap_option_set_value env h i fl =
        return_callback env f
          (write_option h1 i { o1 with flags := o1.flags ||| CLAP_FLAG_SET }) i := by
      unfold clap_option_set_value
      rw [hget]
      simp only
      rw [if_neg (show ¬ (fl &&& _FLAG_OPT_POSITIONAL = 0 ∧
        o.flags &&& CLAP_FLAG_POSITIONAL ≠ 0) from hguard), hstore]
      simp only
      rw [if_pos (by rw [or_set_and_callback, hflags]; exact hcb), hcallback, hf]
    refine ⟨?_, ?_, ?_⟩
    · intro code hc
      rw [hcall, return_callback_some env f _ i code hc]
    · intro hc
      rw [hcall, return_callback_none env f _ i hc]
    · have hlt : i < h.options.length := by
        rcases Nat.lt_or_ge i h.options.length with hlt | hge
        · exact hlt
        · rw [List.getElem?_eq_none hge] at hget
          exact absurd hget (by simp)
      refine ⟨{ o1 with flags := o1.flags ||| CLAP_FLAG_SET }, ?_, ?_⟩
      · simp [write_option, hopts, List.getElem?_set, hlt]
      · unfold IsSet
        show (o1.flags ||| CLAP_FLAG_SET) &&& CLAP_FLAG_SET ≠ 0
        rw [or_set_and_set]
        decide
  · intro fuel h arg err h1 harg htok herr
    rw [clap_parse_loop_step env fuel h arg harg, htok]
    simp only
    rw [if_pos herr]
  · intro h argc argv err h1 hscan herr
    unfold clap_parse
    rw [hscan]
    simp only
    rw [if_pos herr]
  · intro fuel h arg h1 harg htok
    rw [clap_parse_loop_step env fuel h arg harg, htok]
    simp

/-- On the table of `example.c`, `-h` runs the callback of `CLAP_HELP()`, which
returns -4: `clap_parse` returns -4, the token `--bogus` is not looked at and
the unset mandatory `threshold` is not reported. -/
theorem clap_option_set_value_callback_witness :
    clap_parse_scan example_env (handler_of example_options) 3
        ["prog".toList, "-h".toList, "--bogus".toList] =
      .ret (-4) { write_option (handler_of example_options) 0
          { CLAP_HELP with flags := CLAP_FLAG_CALLBACK ||| CLAP_FLAG_SET } with
        argc := 3, args := ["prog".toList, "-h".toList, "--bogus".toList], argv := 2 } ∧
    clap_parse example_env (handler_of example_options) 3
        ["prog".toList, "-h".toList, "--bogus".toList] =
      .ret (-4) { write_option (handler_of example_options) 0
          { CLAP_HELP with flags := CLAP_FLAG_CALLBACK ||| CLAP_FLAG_SET } with
        argc := 3, args := ["prog".toList, "-h".toList, "--bogus".toList], argv := 2 } :=
  ⟨by decide,
   (clap_option_set_value_callback example_env).2.2.1 (handler_of example_options) 3
     ["prog".toList, "-h".toList, "--bogus".toList] (-4) _ (by decide) (by decide)⟩

/-! ## Boolean flags -/

/-- A `Bool` descriptor that is not positional and whose callback is quiet:
`clap_option_set_value` flips the stored boolean, sets the `Set` bit and
returns 0. -/
theorem clap_option_set_value_bool (env : Env) (h : ClapHandler) (pre : List ClapOption)
    (o : ClapOption) (post : List ClapOption) (b : Bool) (fl : Nat)
    (htab : h.options = pre ++ o :: post) (hbool : o.type = CLAP_OPT_BOOL)
    (hpos : ¬ IsPositional o) (hval : o.ptr_value = some (.bool b))
    (hcb : CallbackQuiet env o) :
    clap_option_set_value env h pre.length fl =
      .ret 0 { h with options := pre ++ toggled o (!b) :: post } := by
  have hget : h.options[pre.length]? = some o := by rw [htab]; exact getElem?_split pre o post
  have hstore : clap_option_store env h o fl =
      .done h { o with ptr_value := some (.bool (!b)) } := by
    unfold clap_option_store
    rw [if_pos hbool, hval]
  have hw : write_option h pre.length
      { ({ o with ptr_value := some (.bool (!b)) } : ClapOption) with
        flags := o.flags ||| CLAP_FLAG_SET } =
      { h with options := pre ++ toggled o (!b) :: post } := by
    unfold write_option toggled
    rw [htab, set_split]
  unfold clap_option_set_value
  rw [hget]
  simp only
  rw [if_neg (fun hg => hpos hg.2), hstore]
  simp only
  rw [hw, or_set_and_callback]
  rcases hcb with hno | ⟨f, hf, hzero⟩
  · rw [if_neg (show ¬ (o.flags &&& CLAP_FLAG_CALLBACK ≠ 0) from hno)]
  · by_cases hc : o.flags &&& CLAP_FLAG_CALLBACK ≠ 0
    · rw [if_pos hc, hf]
      simp only
      rw [return_callback_some env f _ _ 0 (hzero _ _)]
    · rw [if_neg hc]

/-- The short matcher on the first `Bool` descriptor that carries `c`, bundled
or not. -/
theorem clap_option_short_bool (env : Env) (h : ClapHandler) (pre : List ClapOption)
    (o : ClapOption) (post : List ClapOption) (c : Char) (b : Bool) (fl : Nat)
    (htab : h.options = pre ++ o :: post) (hpre : NoShortMatch c pre)
    (hbool : o.type = CLAP_OPT_BOOL) (hshort : o.short_option = c)
    (hpos : ¬ IsPositional o) (hval : o.ptr_value = some (.bool b))
    (hcb : CallbackQuiet env o) :
    clap_option_short env h c fl =
      .ret 0 { h with options := pre ++ toggled o (!b) :: post } := by
  rw [clap_option_short_hit env h c fl pre o post htab hpre (by rw [hbool]; decide)
    (by rw [hbool]; decide) hshort]
  rw [if_neg (by rw [hbool]; simp)]
  exact clap_option_set_value_bool env h pre o post b 0 htab hbool hpos hval hcb

theorem toggled_toggled (o : ClapOption) (b1 b2 : Bool) :
    toggled (toggled o b1) b2 = toggled o b2 := by
  unfold toggled
  simp only [ClapOption.mk.injEq, true_and, and_true]
  rw [Nat.or_assoc]
  rfl

theorem toggled_isSet (o : ClapOption) (b : Bool) : IsSet (toggled o b) := by
  unfold IsSet toggled
  simp only
  rw [or_set_and_set]
  decide

theorem toggled_isPositional (o : ClapOption) (b : Bool) :
    IsPositional (toggled o b) ↔ IsPositional o := by
  unfold IsPositional toggled
  simp only
  rw [or_set_and_positional]

theorem toggled_callbackQuiet (env : Env) (o : ClapOption) (b : Bool)
    (hcb : CallbackQuiet env o) : CallbackQuiet env (toggled o b) := by
  unfold CallbackQuiet HasCallback toggled at *
  simp only
  rw [or_set_and_callback]
  exact hcb

/-- The loop of `clap_parse` over `r` remaining tokens `-c`. -/
theorem clap_parse_loop_bool (env : Env) (pre post : List ClapOption) (c : Char)
    (hc : c ≠ '-') (hpre : NoShortMatch c pre) (r : Nat) :
    ∀ (fuel : Nat) (h : ClapHandler) (o : ClapOption) (b : Bool), r + 1 ≤ fuel →
      h.options = pre ++ o :: post → o.type = CLAP_OPT_BOOL → o.short_option = c →
      ¬ IsPositional o → o.ptr_value = some (.bool b) → CallbackQuiet env o →
      h.argv + r = h.args.length →
      (∀ j, h.argv ≤ j → j < h.args.length → h.args[j]? = some ['-', c]) →
      clap_parse_loop env fuel h =
        .ret 0 { h with
          options := pre ++ (if r = 0 then o else
            toggled o (if r % 2 = 0 then b else !b)) :: post,
          argv := h.args.length } := by
  induction r with
  | zero =>
    intro fuel h o b hfuel htab _ _ _ _ _ hlen _
    obtain ⟨fuel1, rfl⟩ : ∃ k, fuel = k + 1 := ⟨fuel - 1, by omega⟩
    rw [clap_parse_loop_done env fuel1 h (List.getElem?_eq_none (by omega))]
    simp only [if_true]
    rw [← htab, ← show h.argv = h.args.length by omega]
  | succ r ih =>
    intro fuel h o b hfuel htab hbool hshort hpos hval hcb hlen htoks
    obtain ⟨fuel1, rfl⟩ : ∃ k, fuel = k + 1 := ⟨fuel - 1, by omega⟩
    rw [clap_parse_loop_step env fuel1 h ['-', c] (htoks _ (Nat.le_refl _) (by omega)),
      clap_parse_token_short env _ c hc,
      clap_option_short_bool env { h with argv := h.argv + 1 } pre o post c b 0 htab hpre hbool
        hshort hpos hval hcb]
    simp only [ne_eq, not_true_eq_false, if_false]
    rw [ih fuel1 ⟨pre ++ toggled o (!b) :: post, h.name, h.description, h.epilog, h.argc,
        h.args, h.argv + 1⟩ (toggled o (!b)) (!b) (by omega) rfl hbool hshort
      ((toggled_isPositional o _).not.mpr hpos) rfl (toggled_callbackQuiet env o _ hcb)
      (by simp only; omega) (fun j hj1 hj2 => htoks j (by simp only at hj1; omega) hj2)]
    simp only [toggled_toggled, Nat.succ_ne_zero, if_false]
    congr 3
    by_cases hr : r = 0
    · subst hr; simp
    · rw [if_neg hr]
      congr 1
      rcases Nat.mod_two_eq_zero_or_one r with h0 | h1
      · have : (r + 1) % 2 = 1 := by omega
        simp [h0, this]
      · have : (r + 1) % 2 = 0 := by omega
        simp [h1, this]

theorem getElem?_cons_replicate {α : Type} (a x : α) (n j : Nat) (h1 : 1 ≤ j)
    (h2 : j < (a :: List.replicate n x).length) :
    (a :: List.replicate n x)[j]? = some x := by
  obtain ⟨k, rfl⟩ : ∃ k, j = k + 1 := ⟨j - 1, by omega⟩
  simp only [List.length_cons, List.length_replicate] at h2
  rw [List.getElem?_cons_succ, List.getElem?_replicate]
  simp
  omega

/-! ## The coercion of `Int` descriptors -/

theorem isdigit_not_isspace (c : Char) (h : isdigit c = true) : isspace c = false := by
  by_contra hs
  have hs1 : isspace c = true := by simpa using hs
  simp only [isspace, Bool.or_eq_true, decide_eq_true_eq] at hs1
  rcases hs1 with ((((rfl | rfl) | rfl) | rfl) | rfl) | rfl <;> exact absurd h (by decide)

theorem isdigit_not_sign (c : Char) (h : isdigit c = true) : c ≠ '-' ∧ c ≠ '+' := by
  constructor <;> rintro rfl <;> exact absurd h (by decide)

theorem takeWhile_dropWhile_run {α : Type} (p : α → Bool) (ds rest : List α)
    (hall : ∀ d ∈ ds, p d = true) (hrest : ∀ c ∈ rest.head?, p c = false) :
    (ds ++ rest).takeWhile p = ds ∧ (ds ++ rest).dropWhile p = rest := by
  induction ds with
  | nil =>
    cases rest with
    | nil => simp
    | cons c cs =>
      have hc : p c = false := hrest c (by simp)
      simp [List.takeWhile, List.dropWhile, hc]
  | cons d ds ih =>
    have hd : p d = true := hall d (by simp)
    have ih1 := ih (fun x hx => hall x (by simp [hx]))
    simp [List.takeWhile, List.dropWhile, hd, ih1.1, ih1.2]

theorem strtol_body_digit (c : Char) (s : CString) (h : isdigit c = true) :
    strtol_body (c :: s) = c :: s ∧ ((c :: s).dropWhile isspace).head? ≠ some '-' := by
  have hsp := isdigit_not_isspace c h
  have hsg := isdigit_not_sign c h
  unfold strtol_body
  simp [List.dropWhile, hsp, hsg.1, hsg.2]

/-- On a non-empty run of digits followed by `rest`, which does not start with
a digit, `strtol` reads the run and stops in front of `rest`. -/
theorem strtol_run (ds rest : CString) (hne : ds ≠ [])
    (hall : ∀ d ∈ ds, isdigit d = true) (hrest : ∀ c ∈ rest.head?, isdigit c = false) :
    strtol (ds ++ rest) = (min LONG_MAX (strtol_digits 0 ds : Int), rest) := by
  cases ds with
  | nil => exact absurd rfl hne
  | cons d ds =>
    have hd : isdigit d = true := hall d (by simp)
    have hbody := strtol_body_digit d (ds ++ rest) hd
    have hrun := takeWhile_dropWhile_run isdigit (d :: ds) rest hall hrest
    rw [List.cons_append] at hrun
    unfold strtol
    simp only [List.cons_append, hbody.1, hrun.1, hrun.2]
    rw [if_neg (by simp), if_neg (by simpa using hbody.2)]
    congr 1
    have h0 : (0 : Int) ≤ (strtol_digits 0 (d :: ds) : Int) := Int.ofNat_nonneg _
    have h1 : LONG_MIN ≤ min LONG_MAX (strtol_digits 0 (d :: ds) : Int) := by
      apply le_min
      · show -(2 ^ 63 : Int) ≤ 2 ^ 63 - 1
        norm_num
      · exact le_trans (show -(2 ^ 63 : Int) ≤ 0 by norm_num) h0
    exact max_eq_right h1

/-- The value `strtol_digits` reads is the number the decimal digits write. -/
theorem strtol_digits_eq_ofDigits (ds : CString) (acc : Nat) :
    strtol_digits acc ds =
      acc * 10 ^ ds.length + Nat.ofDigits 10 (ds.reverse.map (fun c => c.toNat - 48)) := by
  induction ds generalizing acc with
  | nil =>
    show acc = acc * 10 ^ 0 + Nat.ofDigits 10 []
    simp
  | cons c cs ih =>
    show strtol_digits (acc * 10 + (c.toNat - 48)) cs = _
    rw [ih, List.reverse_cons, List.map_append, Nat.ofDigits_append]
    simp only [List.length_map, List.length_reverse, List.length_cons, List.map_cons,
      List.map_nil, Nat.ofDigits_singleton]
    ring

theorem toInt32_of_int_range (v : Int) (h0 : 0 ≤ v) (h1 : v ≤ 2 ^ 31 - 1) :
    toInt32 (min LONG_MAX v) = v := by
  have hmin : min LONG_MAX v = v :=
    min_eq_right (le_trans h1 (show (2 ^ 31 - 1 : Int) ≤ 2 ^ 63 - 1 by norm_num))
  rw [hmin]
  unfold toInt32
  omega

/-- A numeral followed by a character that is not a digit: the `switch` writes
the value of the numeral and fails. -/
theorem clap_option_coerce_int_trailing (env : Env) (h : ClapHandler) (o : ClapOption)
    (v0 : Value) (ds : CString) (c : Char) (rest : CString)
    (hint : o.type = CLAP_OPT_INT) (hptr : o.ptr_value = some v0) (hne : ds ≠ [])
    (hall : ∀ d ∈ ds, isdigit d = true) (hc : isdigit c = false) :
    clap_option_coerce env h o (ds ++ c :: rest) =
      .error h { o with
        ptr_value := some (.int (toInt32 (min LONG_MAX (strtol_digits 0 ds : Int)))) } := by
  have hrun := strtol_run ds (c :: rest) hne hall (by simpa using hc)
  unfold clap_option_coerce
  rw [if_neg (by rw [hint]; decide), if_pos hint, hptr]
  simp only [hrun]
  rw [if_pos (by simp)]

/-- A non-empty text in which `strtol` finds no digit to convert: the `switch`
writes 0 and fails. -/
theorem clap_option_coerce_int_no_digit (env : Env) (h : ClapHandler) (o : ClapOption)
    (v0 : Value) (s : CString) (hint : o.type = CLAP_OPT_INT) (hptr : o.ptr_value = some v0)
    (hnone : (strtol_body s).takeWhile isdigit = []) (hne : s ≠ []) :
    clap_option_coerce env h o s = .error h { o with ptr_value := some (.int 0) } := by
  have hst : strtol s = (0, s) := by
    unfold strtol
    simp only [hnone, if_true]
  unfold clap_option_coerce
  rw [if_neg (by rw [hint]; decide), if_pos hint, hptr]
  simp only [hst]
  rw [if_pos hne]
  rfl

/-- A non-empty run of digits within the range of `int`: the `switch` writes
the number the digits write and ends well. -/
theorem clap_option_coerce_int_digits (env : Env) (h : ClapHandler) (o : ClapOption)
    (v0 : Value) (ds : CString) (hint : o.type = CLAP_OPT_INT) (hptr : o.ptr_value = some v0)
    (hne : ds ≠ []) (hall : ∀ d ∈ ds, isdigit d = true)
    (hrange : Nat.ofDigits 10 (ds.reverse.map (fun c => c.toNat - 48)) ≤ 2 ^ 31 - 1) :
    clap_option_coerce env h o ds =
      .done h { o with
        ptr_value := some (.int (Int.ofNat
          (Nat.ofDigits 10 (ds.reverse.map (fun c => c.toNat - 48))))) } := by
  have hrun := strtol_run ds [] hne hall (by simp)
  rw [List.append_nil] at hrun
  have hval : strtol_digits 0 ds = Nat.ofDigits 10 (ds.reverse.map (fun c => c.toNat - 48)) := by
    rw [strtol_digits_eq_ofDigits]; simp
  unfold clap_option_coerce
  rw [if_neg (by rw [hint]; decide), if_pos hint, hptr]
  simp only [hrun, hval]
  rw [if_neg (by simp), toInt32_of_int_range _ (Int.ofNat_nonneg _) (by omega)]
  rfl

/-- C8 holds for `12abc`, `notanumber` and `12`, but fails on the empty source
string, which has no numeric prefix: `strtol` converts nothing and leaves `end`
on the terminating NUL, the test `end[0] != 0` passes, and `--count=` on the
scenario table stores 0 in `count`, sets its `Set` bit and returns 0. -/
theorem clap_parse_int_empty_value :
    clap_parse example_env (handler_of scenario_options) 2
        ["prog".toList, "--count=".toList] =
      .ret 0 { write_option (handler_of scenario_options) 1
          (entry CLAP_OPT_INT 'n' (some "count") (some (.int 0))
            (CLAP_FLAG_MANDATORY ||| CLAP_FLAG_SET) none) with
        argc := 2, args := ["prog".toList, "--count=".toList], argv := 2 } ∧
    (clap_parse example_env (handler_of scenario_options) 2
        ["prog".toList, "--count=12abc".toList]).code = some (-3) ∧
    (clap_parse example_env (handler_of scenario_options) 2
        ["prog".toList, "--count=notanumber".toList]).code = some (-3) ∧
    (clap_parse example_env (handler_of scenario_options) 2
        ["prog".toList, "--count=12".toList]).code = some 0 := by
  refine ⟨by decide, by decide, by decide, by decide⟩

/-! ## The three ways to give a value -/

theorem strchr_next_append (pfx value : CString) (h : '=' ∉ pfx) :
    strchr_next '=' (pfx ++ '=' :: value) = some value := by
  induction pfx with
  | nil => simp [strchr_next]
  | cons c cs ih =>
    have hc : c ≠ '=' := fun hc => h (by simp [hc])
    rw [List.cons_append, strchr_next, if_neg hc]
    exact ih (fun hm => h (by simp [hm]))

theorem strchr_found_of_not_mem (s : CString) (h : '=' ∉ s) : strchr_found '=' s = false := by
  unfold strchr_found
  induction s with
  | nil => rfl
  | cons c cs ih =>
    have hc : c ≠ '=' := fun hc => h (by simp [hc])
    rw [strchr_next, if_neg hc]
    exact ih (fun hm => h (by simp [hm]))

/-- Telling a long flag from `name` and from `name=value` is the same. -/
theorem strcmp_long_option_inline (name value : CString) (h : '=' ∉ name) (l : CString) :
    strcmp_long_option l (name ++ '=' :: value) = 0 ↔ strcmp_long_option l name = 0 := by
  induction name generalizing l with
  | nil =>
    cases l with
    | nil => simp [strcmp_long_option]
    | cons c cs =>
      simp only [List.nil_append, strcmp_long_option]
      simp only [ne_eq, not_true_eq_false, if_false]
      constructor
      · intro hz
        split_ifs at hz with hlt
        · simpa using hz
        · exact absurd hz (by decide)
      · intro hz
        have hc : c = Char.ofNat 0 := by
          apply Char.ext
          apply UInt32.ext
          simpa [Char.toNat] using hz
        subst hc
        decide
  | cons d ds ih =>
    have hd : d ≠ '=' := fun hd => h (by simp [hd])
    have hds : '=' ∉ ds := fun hm => h (by simp [hm])
    cases l with
    | nil => simp [strcmp_long_option, hd]
    | cons c cs =>
      rw [List.cons_append, strcmp_long_option, strcmp_long_option]
      simp only [hd, ne_eq, not_false_eq_true, if_true]
      by_cases hcd : c = d
      · simp only [hcd, not_true_eq_false, if_false]
        exact ih hds cs
      · simp only [hcd, not_false_eq_true, if_true]

theorem noLongMatch_inline (name value : CString) (h : '=' ∉ name) (pre : List ClapOption)
    (hpre : NoLongMatch name pre) : NoLongMatch (name ++ '=' :: value) pre := by
  intro p hp
  refine ⟨(hpre p hp).1, ?_⟩
  rcases (hpre p hp).2 with hg | ⟨l, hl, hne⟩
  · exact Or.inl hg
  · exact Or.inr ⟨l, hl, fun hz => hne ((strcmp_long_option_inline name value h l).mp hz)⟩

/-- The first turn of the loop of `clap_parse`. -/
theorem clap_parse_first_token (env : Env) (handler : ClapHandler) (argc : Int)
    (prog tok : CString) (rest : List CString) (hargc : argc > 1) :
    clap_parse env handler argc (prog :: tok :: rest) =
      match clap_parse_token env
        { handler with argc := argc, args := prog :: tok :: rest, argv := 2 } tok with
      | .ret err h1 =>
        if err ≠ 0 then .ret err h1
        else
          match clap_parse_loop env (rest.length + 2) h1 with
          | .ret err2 h2 =>
            if err2 ≠ 0 then .ret err2 h2 else clap_parse_mandatory h2 h2.options
          | x => x
      | x => x := by
  unfold clap_parse clap_parse_scan
  simp only [hargc, if_true, List.length_cons]
  rw [clap_parse_loop_step env _ _ tok (by simp)]
  cases clap_parse_token env
      { handler with argc := argc, args := prog :: tok :: rest, argv := 1 + 1 } tok with
  | ret err h1 =>
    by_cases herr : err ≠ 0
    · simp only [herr, if_true, ne_eq, not_false_eq_true]
    · simp only [herr, if_false]
  | undefined => rfl
  | timeout => rfl

/-- The `switch` does the same on every handler. -/
theorem clap_option_coerce_uniform (env : Env) (o : ClapOption) (s : CString) :
    (∀ h, clap_option_coerce env h o s = .undefined) ∨
    (∃ o1, ∀ h, clap_option_coerce env h o s = .done h o1) ∨
    (∃ o1, ∀ h, clap_option_coerce env h o s = .error h o1) := by
  unfold clap_option_coerce
  cases o.ptr_value <;> simp only [] <;> split_ifs <;> first
    | exact Or.inl (fun _ => rfl)
    | exact Or.inr (Or.inl ⟨_, fun _ => rfl⟩)
    | exact Or.inr (Or.inr ⟨_, fun _ => rfl⟩)

/-- A value found for the last token: the rest of `clap_parse`. -/
theorem clap_option_set_value_finish (env : Env) (h hV : ClapHandler) (pre : List ClapOption)
    (o : ClapOption) (post : List ClapOption) (fl fuel : Nat) (source : CString)
    (htab : h.options = pre ++ o :: post) (hpos : ¬ IsPositional o)
    (hstore : clap_option_store env h o fl = clap_option_coerce env hV o source)
    (hend : hV.args[hV.argv]? = none) :
    (match clap_option_set_value env h pre.length fl with
      | .ret err h1 =>
        if err ≠ 0 then .ret err h1
        else
          match clap_parse_loop env (fuel + 1) h1 with
          | .ret err2 h2 =>
            if err2 ≠ 0 then .ret err2 h2 else clap_parse_mandatory h2 h2.options
          | x => x
      | x => x) = assign_and_finish env hV pre.length o source := by
  have hget : h.options[pre.length]? = some o := by rw [htab]; exact getElem?_split pre o post
  unfold clap_option_set_value assign_and_finish
  rw [hget]
  simp only
  rw [if_neg (fun hg => hpos hg.2), hstore]
  cases hco : clap_option_coerce env hV o source with
  | undefined => rfl
  | error h1 o1 => simp
  | done h1 o1 =>
    have hh : h1 = hV := (clap_option_coerce_shape env hV o source h1 o1 (Or.inl hco)).1
    subst hh
    have hdone : ∀ o2, clap_parse_loop env (fuel + 1) (write_option h1 pre.length o2) =
        .ret 0 (write_option h1 pre.length o2) :=
      fun o2 => clap_parse_loop_done env fuel _ hend
    simp only
    split_ifs with hcb
    · cases o1.callback with
      | none => rfl
      | some f =>
        simp only
        rcases return_callback_cases env f
            (write_option h1 pre.length
              { o1 with flags := o1.flags ||| CLAP_FLAG_SET, callback := some f }) pre.length
          with ⟨hc, hr⟩ | ⟨code, hc, hr⟩
        · rw [hr, hc]
        · rw [hr, hc]
          simp only
          split_ifs with hz
          · rfl
          · rw [hdone]
            simp
    · simp only [ne_eq, not_true_eq_false, if_false]
      rw [hdone]
      simp

/-- The source string is the next token of `argv`. -/
theorem clap_option_store_next (env : Env) (h : ClapHandler) (o : ClapOption) (fl : Nat)
    (source : CString) (hb : o.type ≠ CLAP_OPT_BOOL) (hn : o.type ≠ CLAP_OPT_NONE)
    (hfl : fl &&& _FLAG_LONG_OPT_WITH_VALUE = 0) (hpos : ¬ IsPositional o)
    (hnext : h.args[h.argv]? = some source) :
    clap_option_store env h o fl =
      clap_option_coerce env { h with argv := h.argv + 1 } o source := by
  unfold clap_option_store
  rw [if_neg hb, if_pos hn, if_neg (by simpa using hfl),
    if_pos (show o.flags &&& CLAP_FLAG_POSITIONAL = 0 from Classical.not_not.mp hpos), hnext]

/-- The source string is the text behind the first `=` of the token. -/
theorem clap_option_store_inline (env : Env) (h : ClapHandler) (o : ClapOption) (fl : Nat)
    (tok source : CString) (hb : o.type ≠ CLAP_OPT_BOOL) (hn : o.type ≠ CLAP_OPT_NONE)
    (hfl : fl &&& _FLAG_LONG_OPT_WITH_VALUE ≠ 0) (hprev : prev_arg h = some tok)
    (hchr : strchr_next '=' tok = some source) :
    clap_option_store env h o fl = clap_option_coerce env h o source := by
  unfold clap_option_store
  rw [if_neg hb, if_pos hn, if_pos hfl, hprev]
  simp only
  rw [hchr]

theorem clap_parse_long_inline (env : Env) (handler : ClapHandler) (pre : List ClapOption)
    (o : ClapOption) (post : List ClapOption) (name value prog : CString)
    (htab : handler.options = pre ++ o :: post) (hpre : NoLongMatch name pre)
    (hend : o.type ≠ CLAP_OPT_END) (hgrp : o.type ≠ CLAP_OPT_GROUP)
    (hb : o.type ≠ CLAP_OPT_BOOL) (hn : o.type ≠ CLAP_OPT_NONE)
    (hlong : o.long_option = some name) (heq : '=' ∉ name) (hpos : ¬ IsPositional o) :
    clap_parse env handler 2 [prog, '-' :: '-' :: (name ++ '=' :: value)] =
      assign_and_finish env
        { handler with argc := 2, args := [prog, '-' :: '-' :: (name ++ '=' :: value)],
                       argv := 2 } pre.length o value := by
  rw [clap_parse_first_token env handler 2 prog _ [] (by decide),
    clap_parse_token_long env _ _ (by simp),
    clap_option_long_hit env
      { handler with argc := 2, args := [prog, '-' :: '-' :: (name ++ '=' :: value)], argv := 2 }
      _ 0 pre o post name htab (noLongMatch_inline name value heq pre hpre)
      hend hgrp hlong (strcmp_long_option_name name _ heq (Or.inr rfl)),
    strchr_found_append]
  refine clap_option_set_value_finish env _ _ pre o post _ 1 value htab hpos ?_ (by simp)
  refine clap_option_store_inline env _ o _ ('-' :: '-' :: (name ++ '=' :: value)) value hb hn
    (by decide) (by simp [prev_arg]) ?_
  have hmem : '=' ∉ '-' :: '-' :: name := by
    simp only [List.mem_cons, not_or]
    exact ⟨by decide, by decide, heq⟩
  exact strchr_next_append ('-' :: '-' :: name) value hmem

theorem clap_parse_long_next (env : Env) (handler : ClapHandler) (pre : List ClapOption)
    (o : ClapOption) (post : List ClapOption) (name value prog : CString)
    (htab : handler.options = pre ++ o :: post) (hpre : NoLongMatch name pre)
    (hend : o.type ≠ CLAP_OPT_END) (hgrp : o.type ≠ CLAP_OPT_GROUP)
    (hb : o.type ≠ CLAP_OPT_BOOL) (hn : o.type ≠ CLAP_OPT_NONE)
    (hlong : o.long_option = some name) (hne : name ≠ []) (heq : '=' ∉ name)
    (hpos : ¬ IsPositional o) :
    clap_parse env handler 3 [prog, '-' :: '-' :: name, value] =
      assign_and_finish env
        { handler with argc := 3, args := [prog, '-' :: '-' :: name, value], argv := 3 }
        pre.length o value := by
  have hcmp : strcmp_long_option name name = 0 := by
    simpa using strcmp_long_option_name name [] heq (Or.inl rfl)
  rw [clap_parse_first_token env handler 3 prog _ [value] (by decide),
    clap_parse_token_long env _ _ hne,
    clap_option_long_hit env
      { handler with argc := 3, args := [prog, '-' :: '-' :: name, value], argv := 2 }
      _ 0 pre o post name htab hpre hend hgrp hlong hcmp,
    strchr_found_of_not_mem name heq]
  refine clap_option_set_value_finish env _ _ pre o post _ 2 value htab hpos ?_ (by simp)
  exact clap_option_store_next env _ o _ value hb hn (by decide) hpos (by simp)

theorem clap_parse_short_next (env : Env) (handler : ClapHandler) (pre : List ClapOption)
    (o : ClapOption) (post : List ClapOption) (c : Char) (value prog : CString)
    (htab : handler.options = pre ++ o :: post) (hpre : NoShortMatch c pre)
    (hend : o.type ≠ CLAP_OPT_END) (hgrp : o.type ≠ CLAP_OPT_GROUP)
    (hb : o.type ≠ CLAP_OPT_BOOL) (hn : o.type ≠ CLAP_OPT_NONE)
    (hshort : o.short_option = c) (hc : c ≠ '-') (hpos : ¬ IsPositional o) :
    clap_parse env handler 3 [prog, ['-', c], value] =
      assign_and_finish env
        { handler with argc := 3, args := [prog, ['-', c], value], argv := 3 }
        pre.length o value := by
  rw [clap_parse_first_token env handler 3 prog _ [value] (by decide),
    clap_parse_token_short env _ c hc,
    clap_option_short_hit env
      { handler with argc := 3, args := [prog, ['-', c], value], argv := 2 }
      c 0 pre o post htab hpre hend hgrp hshort,
    if_neg (by simp)]
  refine clap_option_set_value_finish env _ _ pre o post _ 2 value htab hpos ?_ (by simp)
  exact clap_option_store_next env _ o _ value hb hn (by decide) hpos (by simp)

/-- The rest of `clap_parse` leaves the same table whatever `argv` was, and
returns the same value when the callback looks at the table only. -/
theorem assign_and_finish_congr (env : Env) (h1 h2 : ClapHandler) (i : Nat) (o : ClapOption)
    (source : CString) (hopts : h1.options = h2.options) :
    ((assign_and_finish env h1 i o source).state.map ClapHandler.options =
      (assign_and_finish env h2 i o source).state.map ClapHandler.options) ∧
    (CallbackOnTable env o →
      (assign_and_finish env h1 i o source).code = (assign_and_finish env h2 i o source).code) := by
  have hw : ∀ o1, (write_option h1 i o1).options = (write_option h2 i o1).options := by
    intro o1; simp [write_option, hopts]
  unfold assign_and_finish
  rcases clap_option_coerce_uniform env o source with hu | ⟨o1, hd⟩ | ⟨o1, he⟩
  · rw [hu h1, hu h2]
    exact ⟨rfl, fun _ => rfl⟩
  · have hshape := (clap_option_coerce_shape env h1 o source h1 o1 (Or.inl (hd h1))).2
    have hcbk : o1.callback = o.callback := by rw [hshape]
    rw [hd h1, hd h2]
    simp only [clap_parse_mandatory_eq, ← hw]
    by_cases hflag : (o1.flags ||| CLAP_FLAG_SET) &&& CLAP_FLAG_CALLBACK ≠ 0
    · rw [if_pos hflag, if_pos hflag]
      cases hf : o1.callback with
      | none => exact ⟨rfl, fun _ => rfl⟩
      | some f =>
        simp only
        have hn := call_callback_none_congr env f
          (write_option h1 i { o1 with flags := o1.flags ||| CLAP_FLAG_SET, callback := some f })
          (write_option h2 i { o1 with flags := o1.flags ||| CLAP_FLAG_SET, callback := some f })
          i (hw _)
        constructor
        · cases hc1 : call_callback env f
              (write_option h1 i
                { o1 with flags := o1.flags ||| CLAP_FLAG_SET, callback := some f }) i with
          | none => rw [hn.mp hc1]
          | some c1 =>
            cases hc2 : call_callback env f
                (write_option h2 i
                  { o1 with flags := o1.flags ||| CLAP_FLAG_SET, callback := some f }) i with
            | none => rw [hn.mpr hc2] at hc1; cases hc1
            | some c2 =>
              simp only
              split_ifs <;> simp [Outcome.state, hw]
        · intro hon
          have hv := hon f (by rw [← hcbk, hf])
            (write_option h1 i
              { o1 with flags := o1.flags ||| CLAP_FLAG_SET, callback := some f })
            (write_option h2 i
              { o1 with flags := o1.flags ||| CLAP_FLAG_SET, callback := some f }) i (hw _)
          rw [hv]
          cases call_callback env f
              (write_option h2 i
                { o1 with flags := o1.flags ||| CLAP_FLAG_SET, callback := some f }) i with
          | none => rfl
          | some c2 =>
            simp only
            split_ifs <;> simp [Outcome.code]
    · rw [if_neg hflag, if_neg hflag]
      exact ⟨by simp [Outcome.state, hw], fun _ => by simp [Outcome.code]⟩
  · rw [he h1, he h2]
    exact ⟨by simp [Outcome.state, hw], fun _ => rfl⟩

/-- With storage to write to and a callback whose call is defined, the rest of
`clap_parse` returns for `String`, `Int` and `Double` descriptors. -/
theorem assign_and_finish_returns (env : Env) (h : ClapHandler) (i : Nat) (o : ClapOption)
    (source : CString)
    (htype : o.type = CLAP_OPT_STRING ∨ o.type = CLAP_OPT_INT ∨ o.type = CLAP_OPT_DOUBLE)
    (hptr : o.ptr_value ≠ none)
    (hcb : HasCallback o → ∃ f, o.callback = some f ∧ ∀ g k, call_callback env f g k ≠ none) :
    (assign_and_finish env h i o source).code ≠ none := by
  obtain ⟨v0, hv0⟩ := Option.ne_none_iff_exists'.mp hptr
  unfold assign_and_finish
  rcases clap_option_coerce_uniform env o source with hu | ⟨o1, hd⟩ | ⟨o1, he⟩
  · exfalso
    have := hu h
    unfold clap_option_coerce at this
    rw [hv0] at this
    rcases htype with ht | ht | ht <;> simp [ht] at this <;> split_ifs at this
  · have hshape := (clap_option_coerce_shape env h o source h o1 (Or.inl (hd h))).2
    have hcbk : o1.callback = o.callback := by rw [hshape]
    have hfl : o1.flags = o.flags := by rw [hshape]
    rw [hd h]
    simp only [clap_parse_mandatory_eq]
    by_cases hflag : (o1.flags ||| CLAP_FLAG_SET) &&& CLAP_FLAG_CALLBACK ≠ 0
    · rw [if_pos hflag]
      have hflag1 : HasCallback o := by
        rw [or_set_and_callback, hfl] at hflag
        exact hflag
      obtain ⟨f, hf, hdef⟩ := hcb hflag1
      rw [← hcbk] at hf
      rw [hf]
      obtain ⟨code, hc⟩ := Option.ne_none_iff_exists'.mp (hdef
        (write_option h i { o1 with flags := o1.flags ||| CLAP_FLAG_SET, callback := some f }) i)
      simp only [hc]
      split_ifs <;> simp [Outcome.code]
    · rw [if_neg hflag]
      simp [Outcome.code]
  · rw [he h]
    simp [Outcome.code]

/-- C3 (amended): let `o` be a `String`, `Int` or `Double` descriptor that is not
positional and is the first table match for its short flag `c` and for its long
flag `name`. Parsing `--name=value`, `-c value` and `--name value` from the same
table leaves the same table (hence the same stored value and the same `Set`
bit), whatever the callback of `o` returns. The three calls return the same
value when the callback of `o`, if any, looks at the table only: the three
calls hand it handlers that differ in `argc`, `argv` and the cursor. They
return when `o` has storage and the call of its callback, if it has one, is
defined. -/
theorem clap_parse_value_forms (env : Env) (handler : ClapHandler) (pre : List ClapOption)
    (o : ClapOption) (post : List ClapOption) (c : Char) (name value prog : CString)
    (htab : handler.options = pre ++ o :: post)
    (htype : o.type = CLAP_OPT_STRING ∨ o.type = CLAP_OPT_INT ∨ o.type = CLAP_OPT_DOUBLE)
    (hshort : o.short_option = c) (hc : c ≠ '-')
    (hlong : o.long_option = some name) (hne : name ≠ []) (heq : '=' ∉ name)
    (hpos : ¬ IsPositional o) (hpreS : NoShortMatch c pre) (hpreL : NoLongMatch name pre) :
    ((clap_parse env handler 2 [prog, '-' :: '-' :: (name ++ '=' :: value)]).state.map
        ClapHandler.options =
      (clap_parse env handler 3 [prog, ['-', c], value]).state.map ClapHandler.options ∧
     (clap_parse env handler 3 [prog, ['-', c], value]).state.map ClapHandler.options =
      (clap_parse env handler 3 [prog, '-' :: '-' :: name, value]).state.map
        ClapHandler.options) ∧
    (CallbackOnTable env o →
      (clap_parse env handler 2 [prog, '-' :: '-' :: (name ++ '=' :: value)]).code =
        (clap_parse env handler 3 [prog, ['-', c], value]).code ∧
      (clap_parse env handler 3 [prog, ['-', c], value]).code =
        (clap_parse env handler 3 [prog, '-' :: '-' :: name, value]).code) ∧
    (o.ptr_value ≠ none →
      (HasCallback o → ∃ f, o.callback = some f ∧ ∀ g k, call_callback env f g k ≠ none) →
      (clap_parse env handler 2 [prog, '-' :: '-' :: (name ++ '=' :: value)]).code ≠ none) := by
  have hend : o.type ≠ CLAP_OPT_END := by rcases htype with h | h | h <;> rw [h] <;> decide
  have hgrp : o.type ≠ CLAP_OPT_GROUP := by rcases htype with h | h | h <;> rw [h] <;> decide
  have hb : o.type ≠ CLAP_OPT_BOOL := by rcases htype with h | h | h <;> rw [h] <;> decide
  have hn : o.type ≠ CLAP_OPT_NONE := by rcases htype with h | h | h <;> rw [h] <;> decide
  rw [clap_parse_long_inline env handler pre o post name value prog htab hpreL hend hgrp hb hn
      hlong heq hpos,
    clap_parse_short_next env handler pre o post c value prog htab hpreS hend hgrp hb hn
      hshort hc hpos,
    clap_parse_long_next env handler pre o post name value prog htab hpreL hend hgrp hb hn
      hlong hne heq hpos]
  have h12 := assign_and_finish_congr env
    { handler with argc := 2, args := [prog, '-' :: '-' :: (name ++ '=' :: value)], argv := 2 }
    { handler with argc := 3, args := [prog, ['-', c], value], argv := 3 }
    pre.length o value rfl
  have h23 := assign_and_finish_congr env
    { handler with argc := 3, args := [prog, ['-', c], value], argv := 3 }
    { handler with argc := 3, args := [prog, '-' :: '-' :: name, value], argv := 3 }
    pre.length o value rfl
  exact ⟨⟨h12.1, h23.1⟩, fun hon => ⟨h12.2 hon, h23.2 hon⟩,
    fun hptr hcb => assign_and_finish_returns env _ _ o value htype hptr hcb⟩

/-- The `Int` option `count` of the scenario table given the value `5` as
`--count=5`, `-n 5` and `--count 5`: the same table and the same value. -/
theorem clap_parse_value_forms_witness :
    NoShortMatch 'n' (scenario_options.take 1) ∧
    (clap_parse example_env (handler_of scenario_options) 2
        ["prog".toList, "--count=5".toList]).state.map ClapHandler.options =
      (clap_parse example_env (handler_of scenario_options) 3
        ["prog".toList, "-n".toList, "5".toList]).state.map ClapHandler.options ∧
    (clap_parse example_env (handler_of scenario_options) 2
        ["prog".toList, "--count=5".toList]).code =
      (clap_parse example_env (handler_of scenario_options) 3
        ["prog".toList, "--count".toList, "5".toList]).code :=
  have hw := clap_parse_value_forms example_env (handler_of scenario_options)
    (scenario_options.take 1)
    (entry CLAP_OPT_INT 'n' (some "count") (some (.int 0)) CLAP_FLAG_MANDATORY none)
    [CLAP_END] 'n' "count".toList "5".toList "prog".toList rfl (Or.inr (Or.inl rfl)) rfl
    (by decide) rfl (by decide) (by decide) (by decide) (by decide)
    (fun p hp => by
      have hp1 : p = entry CLAP_OPT_BOOL 'v' (some "verbose") (some (.bool false)) 0 none := by
        simpa [scenario_options] using hp
      subst hp1
      exact ⟨by decide, Or.inr ⟨"verbose".toList, rfl, by decide⟩⟩)
  have hcb : CallbackOnTable example_env
      (entry CLAP_OPT_INT 'n' (some "count") (some (.int 0)) CLAP_FLAG_MANDATORY none) :=
    fun f hf => absurd hf (by simp [entry])
  ⟨by decide, hw.1.1, ((hw.2.1 hcb).1).trans (hw.2.1 hcb).2⟩

/-- C3 (as stated) fails for the return code: the callback is handed the handler,
whose `argc` is 2 for `--count=5` and 3 for `-n 5` and `--count 5`. With a
callback that returns `argc - 2`, the three calls store the same value 5 and set
the same `Set` bit, but return 0, 1 and 1. -/
theorem clap_parse_value_forms_counterexample :
    (clap_parse argc_env (handler_of counted_options) 2
        ["prog".toList, "--count=5".toList]).code = some 0 ∧
    (clap_parse argc_env (handler_of counted_options) 3
        ["prog".toList, "-n".toList, "5".toList]).code = some 1 ∧
    (clap_parse argc_env (handler_of counted_options) 3
        ["prog".toList, "--count".toList, "5".toList]).code = some 1 ∧
    (clap_parse argc_env (handler_of counted_options) 2
        ["prog".toList, "--count=5".toList]).state.map ClapHandler.options =
      some [ entry CLAP_OPT_INT 'n' (some "count") (some (.int 5))
               (CLAP_FLAG_CALLBACK ||| CLAP_FLAG_SET) (some a_callback),
             CLAP_END ] ∧
    (clap_parse argc_env (handler_of counted_options) 3
        ["prog".toList, "-n".toList, "5".toList]).state.map ClapHandler.options =
      some [ entry CLAP_OPT_INT 'n' (some "count") (some (.int 5))
               (CLAP_FLAG_CALLBACK ||| CLAP_FLAG_SET) (some a_callback),
             CLAP_END ] := by
  refine ⟨by decide, by decide, by decide, by decide, by decide⟩

/-! ## Bundles of short flags -/

theorem short_match_none (env : Env) (h : ClapHandler) (c : Char) (fl : Nat)
    (t : List ClapOption) (i : Nat) (hm : short_match c t = none) :
    clap_option_short_from env h c fl t i = .ret (-2) h := by
  induction t generalizing i with
  | nil => rfl
  | cons o t ih =>
    rw [short_match] at hm
    rw [clap_option_short_from]
    split_ifs at hm ⊢ with h1 h2
    · rfl
    · exact ih _ hm

theorem short_match_split (c : Char) (t : List ClapOption) (o : ClapOption)
    (hm : short_match c t = some o) :
    ∃ pre post, t = pre ++ o :: post ∧ NoShortMatch c pre ∧ o.type ≠ CLAP_OPT_END ∧
      o.type ≠ CLAP_OPT_GROUP ∧ o.short_option = c := by
  induction t with
  | nil => simp [short_match] at hm
  | cons p t ih =>
    rw [short_match] at hm
    split_ifs at hm with h1 h2
    · injection hm with hm
      subst hm
      exact ⟨[], t, rfl, fun q hq => by simp at hq, h1, h2.1, h2.2⟩
    · obtain ⟨pre, post, ht, hpre, hrest⟩ := ih hm
      refine ⟨p :: pre, post, by rw [ht]; rfl, ?_, hrest⟩
      intro q hq
      rcases List.mem_cons.mp hq with rfl | hq1
      · refine ⟨h1, ?_⟩
        by_cases hg : q.type = CLAP_OPT_GROUP
        · exact Or.inl hg
        · exact Or.inr (fun hs => h2 ⟨hg, hs⟩)
      · exact hpre q hq1

theorem short_match_of_split (c : Char) (pre : List ClapOption) (o : ClapOption)
    (post : List ClapOption) (hpre : NoShortMatch c pre) (hend : o.type ≠ CLAP_OPT_END)
    (hgrp : o.type ≠ CLAP_OPT_GROUP) (hshort : o.short_option = c) :
    short_match c (pre ++ o :: post) = some o := by
  induction pre with
  | nil =>
    rw [List.nil_append, short_match, if_neg hend, if_pos ⟨hgrp, hshort⟩]
  | cons p pre ih =>
    have hp := hpre p (by simp)
    have hno : ¬ (p.type ≠ CLAP_OPT_GROUP ∧ p.short_option = c) := by
      rintro ⟨h1, h2⟩
      rcases hp.2 with h3 | h3
      · exact h1 h3
      · exact h3 h2
    rw [List.cons_append, short_match, if_neg hp.1, if_neg hno]
    exact ih (fun q hq => hpre q (by simp [hq]))

theorem toggle_short_split (c : Char) (pre : List ClapOption) (o : ClapOption)
    (post : List ClapOption) (b : Bool) (hpre : NoShortMatch c pre)
    (hend : o.type ≠ CLAP_OPT_END) (hgrp : o.type ≠ CLAP_OPT_GROUP)
    (hshort : o.short_option = c) (hval : o.ptr_value = some (.bool b)) :
    toggle_short c (pre ++ o :: post) = pre ++ toggled o (!b) :: post := by
  induction pre with
  | nil =>
    rw [List.nil_append, toggle_short, if_neg hend, if_pos ⟨hgrp, hshort⟩, hval]
    rfl
  | cons p pre ih =>
    have hp := hpre p (by simp)
    have hno : ¬ (p.type ≠ CLAP_OPT_GROUP ∧ p.short_option = c) := by
      rintro ⟨h1, h2⟩
      rcases hp.2 with h3 | h3
      · exact h1 h3
      · exact h3 h2
    rw [List.cons_append, toggle_short, if_neg hp.1, if_neg hno,
      ih (fun q hq => hpre q (by simp [hq]))]
    rfl

/-- Writing to the storage and the flags of one entry does not change which
entry a character stands for. -/
theorem short_match_replace (d : Char) (pre : List ClapOption) (o o1 : ClapOption)
    (post : List ClapOption) (ht : o1.type = o.type) (hs : o1.short_option = o.short_option) :
    short_match d (pre ++ o1 :: post) = short_match d (pre ++ o :: post) ∨
    (short_match d (pre ++ o :: post) = some o ∧ short_match d (pre ++ o1 :: post) = some o1) := by
  induction pre with
  | nil =>
    simp only [List.nil_append, short_match, ht, hs]
    split_ifs
    · exact Or.inl rfl
    · exact Or.inr ⟨rfl, rfl⟩
    · exact Or.inl rfl
  | cons p pre ih =>
    simp only [List.cons_append, short_match]
    split_ifs
    · exact Or.inl rfl
    · exact Or.inl rfl
    · exact ih

theorem goodBool_toggled (env : Env) (o : ClapOption) (b : Bool) (hg : GoodBool env o) :
    GoodBool env (toggled o b) :=
  ⟨hg.1, (toggled_isPositional o b).not.mpr hg.2.1, ⟨b, rfl⟩,
    toggled_callbackQuiet env o b hg.2.2.2⟩

/-- One character of a bundle that stands for a good `Bool` descriptor. -/
theorem clap_option_short_good (env : Env) (h : ClapHandler) (c : Char) (fl : Nat)
    (o : ClapOption) (hm : short_match c h.options = some o) (hg : GoodBool env o) :
    clap_option_short env h c fl = .ret 0 { h with options := toggle_short c h.options } ∧
    ∃ pre post b, h.options = pre ++ o :: post ∧
      toggle_short c h.options = pre ++ toggled o b :: post := by
  obtain ⟨pre, post, ht, hpre, hend, hgrp, hshort⟩ := short_match_split c h.options o hm
  obtain ⟨b, hb⟩ := hg.2.2.1
  have htog := toggle_short_split c pre o post b hpre hend hgrp hshort hb
  refine ⟨?_, pre, post, !b, ht, by rw [ht, htog]⟩
  rw [clap_option_short_bool env h pre o post c b fl ht hpre hg.1 hshort hg.2.1 hb hg.2.2.2,
    ht, htog]

theorem goodBool_after_toggle (env : Env) (t : List ClapOption) (c d : Char) (o : ClapOption)
    (hm : short_match c t = some o) (hg : GoodBool env o)
    (hd : ∃ o1, short_match d t = some o1 ∧ GoodBool env o1) :
    ∃ o2, short_match d (toggle_short c t) = some o2 ∧ GoodBool env o2 := by
  obtain ⟨pre, post, ht, hpre, hend, hgrp, hshort⟩ := short_match_split c t o hm
  obtain ⟨b, hb⟩ := hg.2.2.1
  rw [ht, toggle_short_split c pre o post b hpre hend hgrp hshort hb]
  rw [ht] at hd
  obtain ⟨o1, ho1, hg1⟩ := hd
  rcases short_match_replace d pre o (toggled o (!b)) post rfl rfl with hsame | ⟨_, hnew⟩
  · exact ⟨o1, by rw [hsame, ho1], hg1⟩
  · exact ⟨_, hnew, goodBool_toggled env o _ hg⟩

theorem not_bool_after_toggle (env : Env) (t : List ClapOption) (c d : Char) (o : ClapOption)
    (hm : short_match c t = some o) (hg : GoodBool env o)
    (hd : ∃ o1, short_match d t = some o1 ∧ o1.type ≠ CLAP_OPT_BOOL ∧ o1.type ≠ CLAP_OPT_NONE) :
    ∃ o2, short_match d (toggle_short c t) = some o2 ∧ o2.type ≠ CLAP_OPT_BOOL ∧
      o2.type ≠ CLAP_OPT_NONE := by
  obtain ⟨pre, post, ht, hpre, hend, hgrp, hshort⟩ := short_match_split c t o hm
  obtain ⟨b, hb⟩ := hg.2.2.1
  rw [ht, toggle_short_split c pre o post b hpre hend hgrp hshort hb]
  rw [ht] at hd
  obtain ⟨o1, ho1, hnb, hnn⟩ := hd
  rcases short_match_replace d pre o (toggled o (!b)) post rfl rfl with hsame | ⟨hold, _⟩
  · exact ⟨o1, by rw [hsame, ho1], hnb, hnn⟩
  · rw [hold] at ho1
    injection ho1 with ho1
    subst ho1
    exact absurd hg.1 hnb

/-- A bundle of characters that all stand for good `Bool` descriptors: every
one is flipped, from left to right, and the `for` loop ends with 0. -/
theorem clap_parse_bundle_good (env : Env) (cs : List Char) :
    ∀ h : ClapHandler, (∀ c ∈ cs, ∃ o, short_match c h.options = some o ∧ GoodBool env o) →
      clap_parse_bundle env cs h =
        .ret 0 { h with options := cs.foldl (fun t c => toggle_short c t) h.options } := by
  induction cs with
  | nil => intro h _; rfl
  | cons c cs ih =>
    intro h hall
    obtain ⟨o, hm, hg⟩ := hall c (by simp)
    rw [clap_parse_bundle, (clap_option_short_good env h c _ o hm hg).1]
    simp only [ne_eq, not_true_eq_false, if_false]
    rw [ih { h with options := toggle_short c h.options }
      (fun d hd => goodBool_after_toggle env h.options c d o hm hg (hall d (by simp [hd])))]
    rfl

/-- A bundle in which good `Bool` characters are followed by a character that
stands for a descriptor that is neither `Bool` nor `None`: the `for` loop
flips the former and returns -2 at the latter. -/
theorem clap_parse_bundle_value (env : Env) (as : List Char) (c : Char) (bs : List Char) :
    ∀ h : ClapHandler, (∀ a ∈ as, ∃ o, short_match a h.options = some o ∧ GoodBool env o) →
      (∃ o, short_match c h.options = some o ∧ o.type ≠ CLAP_OPT_BOOL ∧
        o.type ≠ CLAP_OPT_NONE) →
      clap_parse_bundle env (as ++ c :: bs) h =
        .ret (-2) { h with options := as.foldl (fun t a => toggle_short a t) h.options } := by
  induction as with
  | nil =>
    intro h _ hbad
    obtain ⟨o, hm, hnb, _⟩ := hbad
    obtain ⟨pre, post, ht, hpre, hend, hgrp, hshort⟩ := short_match_split c h.options o hm
    rw [List.nil_append, clap_parse_bundle,
      clap_option_short_hit env h c _ pre o post ht hpre hend hgrp hshort,
      if_pos ⟨by decide, Or.inl hnb⟩]
    rfl
  | cons a as ih =>
    intro h hall hbad
    obtain ⟨o, hm, hg⟩ := hall a (by simp)
    rw [List.cons_append, clap_parse_bundle, (clap_option_short_good env h a _ o hm hg).1]
    simp only [ne_eq, not_true_eq_false, if_false]
    rw [ih { h with options := toggle_short a h.options }
      (fun d hd => goodBool_after_toggle env h.options a d o hm hg (hall d (by simp [hd])))
      (not_bool_after_toggle env h.options a c o hm hg hbad)]
    rfl

theorem clap_parse_token_cluster (env : Env) (h : ClapHandler) (cs : List Char)
    (hlen : 2 ≤ cs.length) (hhead : cs.head? ≠ some '-') :
    clap_parse_token env h ('-' :: cs) = clap_parse_bundle env cs h := by
  match cs, hlen, hhead with
  | c :: d :: rest, _, hhead =>
    exact clap_parse_token_bundle env h c d rest (by simpa using hhead)

/-- C6 (amended): take a multi-character short cluster `-c1...ck`, `k >= 2`. Call
a `Bool` descriptor good when it is not positional, holds a boolean and has no
callback or a callback returning 0. If some character stands for a descriptor
that is neither `Bool` nor `None` and every character before it stands for a
good `Bool` descriptor, the token gives -2 and `clap_parse` returns -2. If
every character stands for a good `Bool` descriptor, the token gives 0 and
the table is the one obtained by flipping the boolean of the descriptor of
each character, once per occurrence, from left to right. -/
theorem clap_parse_cluster (env : Env) (h : ClapHandler) :
    (∀ as c bs, 2 ≤ (as ++ c :: bs).length → (as ++ c :: bs).head? ≠ some '-' →
      (∀ a ∈ as, ∃ o, short_match a h.options = some o ∧ GoodBool env o) →
      (∃ o, short_match c h.options = some o ∧ o.type ≠ CLAP_OPT_BOOL ∧
        o.type ≠ CLAP_OPT_NONE) →
      clap_parse_token env h ('-' :: (as ++ c :: bs)) =
          .ret (-2) { h with options := as.foldl (fun t a => toggle_short a t) h.options } ∧
        ∀ prog rest argc, argc > 1 →
          (clap_parse env h argc (prog :: ('-' :: (as ++ c :: bs)) :: rest)).code =
            some (-2)) ∧
    (∀ cs, 2 ≤ cs.length → cs.head? ≠ some '-' →
      (∀ c ∈ cs, ∃ o, short_match c h.options = some o ∧ GoodBool env o) →
      clap_parse_token env h ('-' :: cs) =
          .ret 0 { h with options := cs.foldl (fun t c => toggle_short c t) h.options } ∧
        ∀ prog, clap_parse env h 2 [prog, '-' :: cs] =
          .ret (if ∃ o ∈ descriptors (cs.foldl (fun t c => toggle_short c t) h.options),
              IsMandatory o ∧ ¬ IsSet o then -1 else 0) { h with
            options := cs.foldl (fun t c => toggle_short c t) h.options,
            argc := 2, args := [prog, '-' :: cs], argv := 2 }) := by
  constructor
  · intro as c bs hlen hhead hall hbad
    constructor
    · rw [clap_parse_token_cluster env h _ hlen hhead]
      exact clap_parse_bundle_value env as c bs h hall hbad
    · intro prog rest argc hargc
      rw [clap_parse_first_token env h argc prog _ rest hargc,
        clap_parse_token_cluster env _ _ hlen hhead,
        clap_parse_bundle_value env as c bs
          { h with argc := argc, args := prog :: ('-' :: (as ++ c :: bs)) :: rest, argv := 2 }
          hall hbad]
      rfl
  · intro cs hlen hhead hall
    constructor
    · rw [clap_parse_token_cluster env h _ hlen hhead]
      exact clap_parse_bundle_good env cs h hall
    · intro prog
      rw [clap_parse_first_token env h 2 prog _ [] (by decide),
        clap_parse_token_cluster env _ _ hlen hhead,
        clap_parse_bundle_good env cs
          { h with argc := 2, args := [prog, '-' :: cs], argv := 2 } hall]
      simp only [ne_eq, not_true_eq_false, if_false]
      rw [clap_parse_loop_done env _ _ (by simp)]
      simp only [ne_eq, not_true_eq_false, if_false]
      rw [clap_parse_mandatory_eq]

/-- The bundle `-vt` on the table of `example.c`: both booleans are flipped. -/
theorem clap_parse_cluster_witness :
    clap_parse_token example_env (handler_of example_options) ['-', 'v', 't'] =
      .ret 0 { handler_of example_options with
        options := ['v', 't'].foldl (fun t c => toggle_short c t) example_options } ∧
    ['v', 't'].foldl (fun t c => toggle_short c t) example_options =
      (example_options.take 5) ++
        [ entry CLAP_OPT_BOOL 'v' (some "verbose") (some (.bool true)) CLAP_FLAG_SET none,
          entry CLAP_OPT_BOOL 't' (some "test") (some (.bool false)) CLAP_FLAG_SET none,
          CLAP_END ] :=
  ⟨((clap_parse_cluster example_env (handler_of example_options)).2 ['v', 't'] (by decide)
      (by decide)
      (fun c hc => by
        rcases List.mem_cons.mp hc with rfl | hc1
        · exact ⟨entry CLAP_OPT_BOOL 'v' (some "verbose") (some (.bool false)) 0 none,
            by decide, rfl, by decide, ⟨false, rfl⟩, Or.inl (by decide)⟩
        · have hc2 : c = 't' := by simpa using hc1
          subst hc2
          exact ⟨entry CLAP_OPT_BOOL 't' (some "test") (some (.bool true)) 0 none,
            by decide, rfl, by decide, ⟨true, rfl⟩, Or.inl (by decide)⟩)).1,
   by decide⟩

/-- C6 as stated fails when a `Bool` descriptor has a callback that does not
return 0: in `help_bool_options` the flag `h` is a `Bool` with the callback
`clap_help_cb`. Every character of `-hv` stands for a `Bool` descriptor, yet
`clap_parse` returns -4; and in `-hn` the character `n` stands for an `Int`
descriptor, yet `clap_parse` returns -4, not -2. -/
theorem clap_parse_cluster_counterexample :
    (∀ c ∈ ['h', 'v'],
      (short_match c help_bool_options).map ClapOption.type = some CLAP_OPT_BOOL) ∧
    (clap_parse example_env (handler_of help_bool_options) 2
      ["prog".toList, ['-', 'h', 'v']]).code = some (-4) ∧
    (short_match 'n' help_bool_options).map ClapOption.type = some CLAP_OPT_INT ∧
    (clap_parse example_env (handler_of help_bool_options) 2
      ["prog".toList, ['-', 'h', 'n']]).code = some (-4) := by
  refine ⟨by decide, by decide, by decide, by decide⟩

/-! ## Positional tokens -/

/-- For a positional descriptor reached by a bare token, lines 107-165 depend on
the handler through the token `*(handler->argv - 1)` only. -/
theorem clap_option_store_positional (env : Env) (h : ClapHandler) (o : ClapOption)
    (tok : CString) (h0 : ClapHandler) (o1 : ClapOption) (hpos : IsPositional o)
    (hprev : prev_arg h = some tok)
    (hd : clap_option_store env (token_handler tok) o _FLAG_OPT_POSITIONAL = .done h0 o1) :
    clap_option_store env h o _FLAG_OPT_POSITIONAL = .done h o1 := by
  have hprev0 : prev_arg (token_handler tok) = some tok := rfl
  have hfl : ¬ (_FLAG_OPT_POSITIONAL &&& _FLAG_LONG_OPT_WITH_VALUE ≠ 0) := by decide
  have hp : ¬ (o.flags &&& CLAP_FLAG_POSITIONAL = 0) := hpos
  unfold clap_option_store at hd ⊢
  by_cases hb : o.type = CLAP_OPT_BOOL
  · rw [if_pos hb] at hd ⊢
    split at hd
    · simp only [Stored.done.injEq, true_and] at hd ⊢
      exact hd.2
    · exact absurd hd (by simp)
  · rw [if_neg hb] at hd ⊢
    by_cases hn : o.type ≠ CLAP_OPT_NONE
    · rw [if_pos hn, if_neg hfl, if_neg hp, hprev0] at hd
      rw [if_pos hn, if_neg hfl, if_neg hp, hprev]
      simp only at hd ⊢
      rcases clap_option_coerce_uniform env o tok with hu | ⟨o2, hdone⟩ | ⟨o2, herr⟩
      · rw [hu] at hd; exact absurd hd (by simp)
      · rw [hdone] at hd ⊢
        simp only [Stored.done.injEq, true_and] at hd ⊢
        exact hd.2
      · rw [herr] at hd; exact absurd hd (by simp)
    · rw [if_neg hn] at hd ⊢
      simp only [Stored.done.injEq, true_and] at hd ⊢
      exact hd.2

theorem bound_eq (env : Env) (o : ClapOption) (tok : CString) (h0 : ClapHandler)
    (o1 : ClapOption)
    (hd : clap_option_store env (token_handler tok) o _FLAG_OPT_POSITIONAL = .done h0 o1) :
    bound env o tok = { o1 with flags := o.flags ||| CLAP_FLAG_SET } ∧
      o1 = { o with ptr_value := o1.ptr_value } := by
  have hshape := (clap_option_store_shape env _ o _ h0 o1 (Or.inl hd)).2
  have hfl : o1.flags = o.flags := by rw [hshape]
  refine ⟨?_, hshape⟩
  unfold bound
  rw [hd]
  simp only [hfl]

theorem bound_props (env : Env) (o : ClapOption) (tok : CString) (hb : Binds env o tok) :
    (bound env o tok).type = o.type ∧ IsSet (bound env o tok) := by
  obtain ⟨⟨h0, o1, hd⟩, _⟩ := hb
  have hbe := bound_eq env o tok h0 o1 hd
  rw [hbe.1]
  refine ⟨by simp only; rw [hbe.2], ?_⟩
  unfold IsSet
  simp only
  rw [or_set_and_set]
  decide

/-- Binding a token to a positional descriptor whose coercion succeeds. -/
theorem clap_option_set_value_bind (env : Env) (h : ClapHandler) (pre : List ClapOption)
    (o : ClapOption) (post : List ClapOption) (tok : CString)
    (htab : h.options = pre ++ o :: post) (hpos : IsPositional o)
    (hprev : prev_arg h = some tok) (hb : Binds env o tok) :
    clap_option_set_value env h pre.length _FLAG_OPT_POSITIONAL =
      .ret 0 { h with options := pre ++ bound env o tok :: post } := by
  obtain ⟨⟨h0, o1, hd⟩, hquiet⟩ := hb
  have hget : h.options[pre.length]? = some o := by rw [htab]; exact getElem?_split pre o post
  have hstore := clap_option_store_positional env h o tok h0 o1 hpos hprev hd
  have hbe := bound_eq env o tok h0 o1 hd
  have hfl : o1.flags = o.flags := by rw [hbe.2]
  have hcbk : o1.callback = o.callback := by rw [hbe.2]
  have hw : write_option h pre.length { o1 with flags := o1.flags ||| CLAP_FLAG_SET } =
      { h with options := pre ++ bound env o tok :: post } := by
    unfold write_option
    rw [htab, set_split, hbe.1, hfl]
  unfold clap_option_set_value
  rw [hget]
  simp only
  rw [if_neg (fun hg => absurd hg.1 (by decide)), hstore]
  simp only
  rw [hw, or_set_and_callback, hfl, hcbk]
  rcases hquiet with hno | ⟨f, hf, hzero⟩
  · rw [if_neg (show ¬ (o.flags &&& CLAP_FLAG_CALLBACK ≠ 0) from hno)]
  · by_cases hc : o.flags &&& CLAP_FLAG_CALLBACK ≠ 0
    · rw [if_pos hc, hf]
      simp only
      rw [return_callback_some env f _ _ 0 (hzero _ _)]
    · rw [if_neg hc]

theorem clap_option_positional_from_none (env : Env) (h : ClapHandler) (fl : Nat)
    (R : List ClapOption) (i : Nat) (hR : positional_count R = 0) :
    clap_option_positional_from env h fl R i = .ret (-2) h := by
  induction R generalizing i with
  | nil => rfl
  | cons o R ih =>
    rw [clap_option_positional_from]
    rw [positional_count] at hR
    by_cases hend : o.type = CLAP_OPT_END
    · rw [if_pos hend]
    · rw [if_neg hend] at hR ⊢
      by_cases hs : IsSlot o
      · rw [if_pos hs] at hR
        exact absurd hR (Nat.succ_ne_zero _)
      · rw [if_neg hs] at hR
        rw [if_neg (fun hc => hs ⟨hc.1, hc.2.1⟩)]
        exact ih _ hR

/-- A table has no positional slot, or a first one. -/
theorem positional_split (R : List ClapOption) :
    positional_count R = 0 ∨
    ∃ pre o post, R = pre ++ o :: post ∧ (∀ p ∈ pre, p.type ≠ CLAP_OPT_END ∧ ¬ IsSlot p) ∧
      o.type ≠ CLAP_OPT_END ∧ IsSlot o ∧ positional_count R = positional_count post + 1 := by
  induction R with
  | nil => exact Or.inl rfl
  | cons o R ih =>
    by_cases hend : o.type = CLAP_OPT_END
    · left
      rw [positional_count, if_pos hend]
    · by_cases hs : IsSlot o
      · right
        refine ⟨[], o, R, rfl, fun p hp => by simp at hp, hend, hs, ?_⟩
        rw [positional_count, if_neg hend, if_pos hs]
      · have hc : positional_count (o :: R) = positional_count R := by
          rw [positional_count, if_neg hend, if_neg hs]
        rcases ih with h0 | ⟨pre, o1, post, hR, hpre, hend1, hs1, hcount⟩
        · exact Or.inl (by rw [hc, h0])
        · right
          refine ⟨o :: pre, o1, post, by rw [hR]; rfl, ?_, hend1, hs1, by rw [hc, hcount]⟩
          intro p hp
          rcases List.mem_cons.mp hp with rfl | hp1
          · exact ⟨hend, hs⟩
          · exact hpre p hp1

theorem bind_positionals_nil (env : Env) (R : List ClapOption) :
    bind_positionals env R [] = R := by
  cases R <;> rfl

theorem bind_positionals_none (env : Env) (R : List ClapOption) (toks : List CString)
    (hR : positional_count R = 0) : bind_positionals env R toks = R := by
  induction R with
  | nil => rfl
  | cons o R ih =>
    cases toks with
    | nil => rfl
    | cons tok toks =>
      rw [bind_positionals]
      rw [positional_count] at hR
      by_cases hend : o.type = CLAP_OPT_END
      · rw [if_pos hend]
      · rw [if_neg hend] at hR ⊢
        by_cases hs : IsSlot o
        · rw [if_pos hs] at hR
          exact absurd hR (Nat.succ_ne_zero _)
        · rw [if_neg hs] at hR ⊢
          rw [ih hR]

theorem bind_positionals_split (env : Env) (pre : List ClapOption) (o : ClapOption)
    (post : List ClapOption) (tok : CString) (toks : List CString)
    (hpre : ∀ p ∈ pre, p.type ≠ CLAP_OPT_END ∧ ¬ IsSlot p) (hend : o.type ≠ CLAP_OPT_END)
    (hs : IsSlot o) :
    bind_positionals env (pre ++ o :: post) (tok :: toks) =
      pre ++ bound env o tok :: bind_positionals env post toks := by
  induction pre with
  | nil => rw [List.nil_append, bind_positionals, if_neg hend, if_pos hs]; rfl
  | cons p pre ih =>
    have hp := hpre p (by simp)
    rw [List.cons_append, bind_positionals, if_neg hp.1, if_neg hp.2,
      ih (fun q hq => hpre q (by simp [hq]))]
    rfl

theorem allBind_split (env : Env) (pre : List ClapOption) (o : ClapOption)
    (post : List ClapOption) (tok : CString) (toks : List CString)
    (hpre : ∀ p ∈ pre, p.type ≠ CLAP_OPT_END ∧ ¬ IsSlot p) (hend : o.type ≠ CLAP_OPT_END)
    (hs : IsSlot o) (hall : AllBind env (pre ++ o :: post) (tok :: toks)) :
    Binds env o tok ∧ AllBind env post toks := by
  induction pre with
  | nil =>
    rw [List.nil_append, AllBind, if_neg hend, if_pos hs] at hall
    exact hall
  | cons p pre ih =>
    have hp := hpre p (by simp)
    rw [List.cons_append, AllBind, if_neg hp.1, if_neg hp.2] at hall
    exact ih (fun q hq => hpre q (by simp [hq])) hall

theorem freshSlots_split (pre : List ClapOption) (o : ClapOption) (post : List ClapOption)
    (hpre : ∀ p ∈ pre, p.type ≠ CLAP_OPT_END ∧ ¬ IsSlot p) (hend : o.type ≠ CLAP_OPT_END)
    (hs : IsSlot o) (hfresh : FreshSlots (pre ++ o :: post)) :
    ¬ IsSet o ∧ FreshSlots post := by
  induction pre with
  | nil =>
    rw [List.nil_append] at hfresh
    unfold FreshSlots at hfresh ⊢
    rw [descriptors_cons o post hend] at hfresh
    exact ⟨hfresh o (by simp) hs, fun q hq => hfresh q (by simp [hq])⟩
  | cons p pre ih =>
    have hp := hpre p (by simp)
    apply ih (fun q hq => hpre q (by simp [hq]))
    unfold FreshSlots at hfresh ⊢
    rw [List.cons_append, descriptors_cons p _ hp.1] at hfresh
    exact fun q hq => hfresh q (by simp [hq])

/-- The loop of `clap_parse` over bare tokens `toks`, on a table `D ++ R` whose part
`D` has no free slot left and whose part `R` is untouched. -/
theorem clap_parse_loop_positional (env : Env) (toks : List CString) :
    ∀ (fuel : Nat) (h : ClapHandler) (D R : List ClapOption),
      h.options = D ++ R → NoFreeSlot D → FreshSlots R → AllBind env R toks →
      (∀ tok ∈ toks, tok.head? ≠ some '-') →
      h.args.drop h.argv = toks → h.argv ≤ h.args.length → toks.length + 1 ≤ fuel →
      clap_parse_loop env fuel h =
        if toks.length ≤ positional_count R then
          .ret 0 { h with options := D ++ bind_positionals env R toks, argv := h.args.length }
        else
          .ret (-2) { h with options := D ++ bind_positionals env R toks,
                             argv := h.argv + positional_count R + 1 } := by
  induction toks with
  | nil =>
    intro fuel h D R htab _ _ _ _ hdrop hle hfuel
    obtain ⟨fuel1, rfl⟩ : ∃ k, fuel = k + 1 := ⟨fuel - 1, by omega⟩
    have hlen : h.args.length ≤ h.argv := List.drop_eq_nil_iff.mp hdrop
    rw [clap_parse_loop_done env fuel1 h (List.getElem?_eq_none hlen)]
    simp only [List.length_nil, Nat.zero_le, if_true]
    rw [bind_positionals_nil, ← htab, ← show h.argv = h.args.length by omega]
  | cons tok toks ih =>
    intro fuel h D R htab hD hfresh hall hbare hdrop hle hfuel
    obtain ⟨fuel1, rfl⟩ : ∃ k, fuel = k + 1 := ⟨fuel - 1, by simp at hfuel; omega⟩
    have hlt : h.argv < h.args.length := by
      rcases Nat.lt_or_ge h.argv h.args.length with hlt | hge
      · exact hlt
      · rw [List.drop_eq_nil_iff.mpr hge] at hdrop
        exact absurd hdrop (by simp)
    have harg : h.args[h.argv]? = some tok := by
      have h0 : (h.args.drop h.argv)[0]? = some tok := by rw [hdrop]; simp
      rw [List.getElem?_drop] at h0
      simpa using h0
    have hdrop1 : h.args.drop (h.argv + 1) = toks := by
      have h1 : (h.args.drop h.argv).tail = toks := by rw [hdrop]; rfl
      rw [List.tail_drop] at h1
      exact h1
    have hprev : prev_arg { h with argv := h.argv + 1 } = some tok := by
      simp [prev_arg, harg]
    rw [clap_parse_loop_step env fuel1 h tok harg,
      clap_parse_token_positional env _ tok (hbare tok (by simp))]
    rcases positional_split R with hzero | ⟨pre, o, post, hR, hpre, hend, hs, hcount⟩
    · unfold clap_option_positional
      simp only
      rw [htab, clap_option_positional_from_skip env _ _ D R 0 hD,
        clap_option_positional_from_none env _ _ R _ hzero]
      simp only [ne_eq, Int.reduceNeg, neg_eq_zero, OfNat.ofNat_ne_zero, not_false_eq_true,
        if_true]
      rw [if_neg (by rw [hzero]; simp), bind_positionals_none env R _ hzero, hzero, ← htab]
    · subst hR
      have hbind := allBind_split env pre o post tok toks hpre hend hs hall
      have hfr := freshSlots_split pre o post hpre hend hs hfresh
      have hDpre : NoFreeSlot (D ++ pre) := by
        intro p hp
        rcases List.mem_append.mp hp with hp1 | hp1
        · exact hD p hp1
        · refine ⟨(hpre p hp1).1, ?_⟩
          by_cases hg : p.type = CLAP_OPT_GROUP
          · exact Or.inl hg
          · exact Or.inr (Or.inl (fun hpos => (hpre p hp1).2 ⟨hg, hpos⟩))
      have htab1 : ({ h with argv := h.argv + 1 } : ClapHandler).options =
          (D ++ pre) ++ o :: post := by
        show h.options = _
        rw [htab, List.append_assoc]
      have hbp := bound_props env o tok hbind.1
      have hD1 : NoFreeSlot (D ++ pre ++ [bound env o tok]) := by
        intro p hp
        rcases List.mem_append.mp hp with hp1 | hp1
        · exact hDpre p hp1
        · have hp2 : p = bound env o tok := by simpa using hp1
          subst hp2
          exact ⟨by rw [hbp.1]; exact hend, Or.inr (Or.inr hbp.2)⟩
      rw [clap_option_positional_hit env { h with argv := h.argv + 1 } tok 0 (D ++ pre) o post
          htab1 hDpre hend hs.1 hs.2 hfr.1, Nat.zero_or,
        clap_option_set_value_bind env { h with argv := h.argv + 1 } (D ++ pre) o post tok
          htab1 hs.2 hprev hbind.1]
      simp only [ne_eq, not_true_eq_false, if_false]
      rw [ih fuel1
        ⟨D ++ pre ++ bound env o tok :: post, h.name, h.description, h.epilog, h.argc, h.args,
          h.argv + 1⟩
        (D ++ pre ++ [bound env o tok]) post (by simp) hD1 hfr.2 hbind.2
        (fun t ht => hbare t (by simp [ht])) hdrop1 (by simp only; omega)
        (by simp only [List.length_cons] at hfuel; omega)]
      rw [bind_positionals_split env pre o post tok toks hpre hend hs, hcount]
      simp only [List.length_cons, Nat.add_le_add_iff_right, List.append_assoc,
        List.singleton_append]
      split_ifs
      · rfl
      · congr 2
        omega

/-- C4: take a table whose positional slots all have their `Set` bit clear and an
`argv` of bare (non-dash) tokens such that the coercion of the i-th token
succeeds for the i-th positional slot. If there are no more tokens than slots,
the scan ends with 0 and leaves the table in which the i-th token is bound to
the i-th slot in table order, whatever lies between the slots
(`bind_positionals`), and `clap_parse` returns what the mandatory sweep finds
on that table. If there are more tokens than slots, the tokens that
have a slot are bound in the same way and the first surplus token makes
`clap_parse` return -2, the cursor standing just behind it. -/
theorem clap_parse_positional_order (env : Env) (handler : ClapHandler) (prog : CString)
    (ts : List CString) (hfresh : FreshSlots handler.options)
    (hbare : ∀ tok ∈ ts, tok.head? ≠ some '-') (hbind : AllBind env handler.options ts) :
    (ts.length ≤ positional_count handler.options →
      clap_parse_scan env handler (ts.length + 1) (prog :: ts) =
        .ret 0 { handler with
          options := bind_positionals env handler.options ts,
          argc := ts.length + 1, args := prog :: ts, argv := ts.length + 1 } ∧
      clap_parse env handler (ts.length + 1) (prog :: ts) =
        .ret (if ∃ o ∈ descriptors (bind_positionals env handler.options ts),
            IsMandatory o ∧ ¬ IsSet o then -1 else 0) { handler with
          options := bind_positionals env handler.options ts,
          argc := ts.length + 1, args := prog :: ts, argv := ts.length + 1 }) ∧
    (positional_count handler.options < ts.length →
      clap_parse env handler (ts.length + 1) (prog :: ts) =
        .ret (-2) { handler with
          options := bind_positionals env handler.options ts,
          argc := ts.length + 1, args := prog :: ts,
          argv := positional_count handler.options + 2 }) := by
  have hloop := clap_parse_loop_positional env ts ((prog :: ts).length + 1)
    { handler with argc := (ts.length : Int) + 1, args := prog :: ts, argv := 1 }
    [] handler.options rfl (fun p hp => by simp at hp) hfresh hbind hbare rfl
    (by simp) (by simp)
  simp only [List.nil_append] at hloop
  constructor
  · intro hle
    have hscan : clap_parse_scan env handler (ts.length + 1) (prog :: ts) =
        .ret 0 { handler with
          options := bind_positionals env handler.options ts,
          argc := ts.length + 1, args := prog :: ts, argv := ts.length + 1 } := by
      unfold clap_parse_scan
      by_cases hts : ts = []
      · subst hts
        simp [bind_positionals_nil]
      · have hpos : 0 < ts.length := List.length_pos.mpr hts
        have hargc : (ts.length : Int) + 1 > 1 := by omega
        simp only [hargc, if_true]
        rw [hloop, if_pos hle]
        simp
    refine ⟨hscan, ?_⟩
    unfold clap_parse
    rw [hscan]
    simp only [ne_eq, not_true_eq_false, if_false]
    rw [clap_parse_mandatory_eq]
  · intro hlt
    have hargc : (ts.length : Int) + 1 > 1 := by omega
    unfold clap_parse clap_parse_scan
    simp only [hargc, if_true]
    rw [hloop, if_neg (by omega)]
    simp only [ne_eq, Int.reduceNeg, neg_eq_zero, OfNat.ofNat_ne_zero, not_false_eq_true,
      if_true]
    congr 2
    omega

/-- On `copy_options` the tokens `a` and `7` are bound to `src` and `dst`, the two
positional slots, across the entries between them. -/
theorem clap_parse_positional_order_witness :
    FreshSlots copy_options ∧
    clap_parse_scan example_env (handler_of copy_options) ((2 : Nat) + 1)
        ["prog".toList, ['a'], ['7']] =
      .ret 0 { handler_of copy_options with
        options := bind_positionals example_env copy_options [['a'], ['7']],
        argc := (2 : Nat) + 1, args := ["prog".toList, ['a'], ['7']], argv := 2 + 1 } ∧
    (bind_positionals example_env copy_options [['a'], ['7']]).map ClapOption.ptr_value =
      [some (.bool false), some (.str (some ['a'])), none, some (.int 0), some (.int 7), none] :=
  ⟨by decide,
   ((clap_parse_positional_order example_env (handler_of copy_options) "prog".toList
      [['a'], ['7']] (by decide) (by decide)
      (show Binds example_env _ ['a'] ∧ Binds example_env _ ['7'] ∧ True from
        ⟨⟨⟨_, _, rfl⟩, Or.inl (by decide)⟩, ⟨⟨_, _, rfl⟩, Or.inl (by decide)⟩, trivial⟩)).1
      (by decide)).1,
   by decide⟩

/-! ## The loop of `clap_parse` ends -/

theorem advances_trans (h h1 : ClapHandler) (r : Outcome) (hargs : h1.args = h.args)
    (hle : h.argv ≤ h1.argv) (hr : Advances h1 r) : Advances h r := by
  cases r with
  | ret c h2 => exact ⟨hr.1.trans hargs, Nat.le_trans hle hr.2⟩
  | undefined => trivial
  | timeout => exact hr

theorem advances_return_callback (env : Env) (f : Nat) (h g : ClapHandler) (i : Nat)
    (hargs : g.args = h.args) (hle : h.argv ≤ g.argv) :
    Advances h (return_callback env f g i) := by
  unfold return_callback
  cases call_callback env f g i with
  | none => trivial
  | some code => exact ⟨hargs, hle⟩

theorem clap_option_set_value_advances (env : Env) (h : ClapHandler) (i fl : Nat) :
    Advances h (clap_option_set_value env h i fl) := by
  unfold clap_option_set_value
  cases h.options[i]? with
  | none => trivial
  | some o =>
    simp only
    split_ifs
    · exact ⟨rfl, Nat.le_refl _⟩
    · cases hst : clap_option_store env h o fl with
      | undefined => trivial
      | error h1 o1 =>
        have hs := (clap_option_store_shape env h o fl h1 o1 (Or.inr hst)).1
        rcases hs with rfl | rfl
        · exact ⟨rfl, Nat.le_refl _⟩
        · exact ⟨rfl, Nat.le_succ _⟩
      | done h1 o1 =>
        have hs := (clap_option_store_shape env h o fl h1 o1 (Or.inl hst)).1
        simp only
        split_ifs
        · cases o1.callback with
          | none => trivial
          | some f =>
            rcases hs with rfl | rfl
            · exact advances_return_callback env f _ _ i rfl (Nat.le_refl _)
            · exact advances_return_callback env f _ _ i rfl (Nat.le_succ _)
        · rcases hs with rfl | rfl
          · exact ⟨rfl, Nat.le_refl _⟩
          · exact ⟨rfl, Nat.le_succ _⟩

theorem clap_option_short_advances (env : Env) (h : ClapHandler) (c : Char) (fl : Nat) :
    Advances h (clap_option_short env h c fl) := by
  unfold clap_option_short
  generalize h.options = t
  generalize 0 = i
  induction t generalizing i with
  | nil => exact ⟨rfl, Nat.le_refl _⟩
  | cons o t ih =>
    rw [clap_option_short_from]
    split_ifs
    · exact ⟨rfl, Nat.le_refl _⟩
    · exact ⟨rfl, Nat.le_refl _⟩
    · exact clap_option_set_value_advances env h i 0
    · exact ih _

theorem clap_option_long_advances (env : Env) (h : ClapHandler) (opt : CString) (fl : Nat) :
    Advances h (clap_option_long env h opt fl) := by
  unfold clap_option_long
  generalize (if strchr_found '=' opt then fl ||| _FLAG_LONG_OPT_WITH_VALUE else fl) = fl1
  generalize h.options = t
  generalize 0 = i
  induction t generalizing i with
  | nil => exact ⟨rfl, Nat.le_refl _⟩
  | cons o t ih =>
    rw [clap_option_long_from]
    split_ifs
    · exact ⟨rfl, Nat.le_refl _⟩
    · cases o.long_option with
      | none => trivial
      | some l =>
        simp only
        split_ifs
        · exact clap_option_set_value_advances env h i _
        · exact ih _
    · exact ih _

theorem clap_option_positional_advances (env : Env) (h : ClapHandler) (tok : CString)
    (fl : Nat) : Advances h (clap_option_positional env h tok fl) := by
  unfold clap_option_positional
  generalize h.options = t
  generalize 0 = i
  induction t generalizing i with
  | nil => exact ⟨rfl, Nat.le_refl _⟩
  | cons o t ih =>
    rw [clap_option_positional_from]
    split_ifs
    · exact ⟨rfl, Nat.le_refl _⟩
    · exact clap_option_set_value_advances env h i _
    · exact ih _

theorem clap_parse_bundle_advances (env : Env) (cs : List Char) :
    ∀ h : ClapHandler, Advances h (clap_parse_bundle env cs h) := by
  induction cs with
  | nil => intro h; exact ⟨rfl, Nat.le_refl _⟩
  | cons c cs ih =>
    intro h
    rw [clap_parse_bundle]
    have hstep := clap_option_short_advances env h c _FLAG_REQUIRE_NO_VAL
    cases hr : clap_option_short env h c _FLAG_REQUIRE_NO_VAL with
    | ret err h1 =>
      rw [hr] at hstep
      simp only
      split_ifs
      · exact hstep
      · exact advances_trans h h1 _ hstep.1 hstep.2 (ih h1)
    | undefined => trivial
    | timeout => rw [hr] at hstep; exact hstep

theorem clap_parse_token_advances (env : Env) (h : ClapHandler) (arg : CString) :
    Advances h (clap_parse_token env h arg) := by
  unfold clap_parse_token
  split
  · split_ifs
    · exact ⟨rfl, Nat.le_refl _⟩
    · exact clap_option_short_advances env h _ 0
    · exact clap_parse_bundle_advances env _ h
    · exact ⟨rfl, Nat.le_refl _⟩
    · exact clap_option_long_advances env h _ 0
  · exact clap_option_positional_advances env h arg 0

/-- With one unit of fuel for every token still to be read and one more, the
loop does not run out of fuel. -/
theorem clap_parse_loop_advances (env : Env) (fuel : Nat) :
    ∀ h : ClapHandler, h.args.length - h.argv + 1 ≤ fuel →
      Advances h (clap_parse_loop env fuel h) := by
  induction fuel with
  | zero =>
    intro h hf
    exfalso
    omega
  | succ fuel ih =>
    intro h hf
    rw [clap_parse_loop]
    cases harg : h.args[h.argv]? with
    | none => exact ⟨rfl, Nat.le_refl _⟩
    | some arg =>
      simp only
      have hlt : h.argv < h.args.length := by
        rcases Nat.lt_or_ge h.argv h.args.length with hlt | hge
        · exact hlt
        · rw [List.getElem?_eq_none hge] at harg
          exact absurd harg (by simp)
      have hstep := clap_parse_token_advances env { h with argv := h.argv + 1 } arg
      cases hr : clap_parse_token env { h with argv := h.argv + 1 } arg with
      | ret err h1 =>
        rw [hr] at hstep
        have hargs : h1.args = h.args := hstep.1
        have hle : h.argv + 1 ≤ h1.argv := hstep.2
        simp only
        split_ifs
        · exact ⟨hargs, by omega⟩
        · exact advances_trans h h1 _ hargs (by omega)
            (ih h1 (by rw [hargs]; omega))
      | undefined => trivial
      | timeout => rw [hr] at hstep; exact hstep

/-- The fuel that `clap_parse` gives to its loop is enough: `clap_parse` never
ends for want of fuel. -/
theorem clap_parse_ne_timeout (env : Env) (handler : ClapHandler) (argc : Int)
    (argv : List CString) : clap_parse env handler argc argv ≠ .timeout := by
  have hscan : Advances { handler with argc := argc, args := argv, argv := 1 }
      (clap_parse_scan env handler argc argv) := by
    unfold clap_parse_scan
    simp only
    split_ifs
    · exact clap_parse_loop_advances env _ _ (by simp only; omega)
    · exact ⟨rfl, Nat.le_refl _⟩
  unfold clap_parse
  cases hr : clap_parse_scan env handler argc argv with
  | ret err h1 =>
    simp only
    split_ifs
    · simp
    · rw [clap_parse_mandatory_eq]; simp
  | undefined => simp
  | timeout => rw [hr] at hscan; exact absurd hscan (by simp [Advances])

/-! ## A boolean flag given several times -/

theorem toggle_short_replicate (c : Char) (pre post : List ClapOption)
    (hpre : NoShortMatch c pre) (n : Nat) :
    ∀ (o : ClapOption) (b : Bool), o.type ≠ CLAP_OPT_END → o.type ≠ CLAP_OPT_GROUP →
      o.short_option = c → o.ptr_value = some (.bool b) →
      (List.replicate n c).foldl (fun t a => toggle_short a t) (pre ++ o :: post) =
        pre ++ (if n = 0 then o else toggled o (if n % 2 = 0 then b else !b)) :: post := by
  induction n with
  | zero => intro o b _ _ _ _; rfl
  | succ n ih =>
    intro o b hend hgrp hshort hval
    rw [List.replicate_succ, List.foldl_cons,
      toggle_short_split c pre o post b hpre hend hgrp hshort hval,
      ih (toggled o (!b)) (!b) hend hgrp hshort rfl]
    simp only [toggled_toggled, Nat.succ_ne_zero, if_false]
    congr 2
    by_cases hn : n = 0
    · subst hn; simp
    · rw [if_neg hn]
      congr 1
      rcases Nat.mod_two_eq_zero_or_one n with h0 | h1
      · have : (n + 1) % 2 = 1 := by omega
        simp [h0, this]
      · have : (n + 1) % 2 = 0 := by omega
        simp [h1, this]

/-- C5: let `o` be a `Bool` descriptor holding `b` that is the first table match
for its short flag `c`, is not positional and has no callback or a callback
returning 0. Parsing `n` tokens `-c`, or one bundle of `n >= 2` characters `c`,
returns (0, or -1 from the mandatory sweep) and leaves a table that differs in
`o` only, whose boolean is `b` when `n` is even and `!b` when `n` is odd. -/
theorem clap_parse_bool_parity (env : Env) (handler : ClapHandler) (pre : List ClapOption)
    (o : ClapOption) (post : List ClapOption) (c : Char) (b : Bool) (prog : CString) (n : Nat)
    (htab : handler.options = pre ++ o :: post) (hpre : NoShortMatch c pre)
    (hbool : o.type = CLAP_OPT_BOOL) (hshort : o.short_option = c) (hc : c ≠ '-')
    (hpos : ¬ IsPositional o) (hval : o.ptr_value = some (.bool b))
    (hcb : CallbackQuiet env o) :
    (∃ code o1,
      clap_parse env handler (n + 1) (prog :: List.replicate n ['-', c]) =
        .ret code { handler with
          options := pre ++ o1 :: post, argc := n + 1,
          args := prog :: List.replicate n ['-', c], argv := n + 1 } ∧
      o1.ptr_value = some (.bool (if n % 2 = 0 then b else !b)) ∧
      (code = 0 ∨ code = -1)) ∧
    (2 ≤ n → ∃ code o1,
      clap_parse env handler 2 [prog, '-' :: List.replicate n c] =
        .ret code { handler with
          options := pre ++ o1 :: post, argc := 2,
          args := [prog, '-' :: List.replicate n c], argv := 2 } ∧
      o1.ptr_value = some (.bool (if n % 2 = 0 then b else !b)) ∧
      (code = 0 ∨ code = -1)) := by
  have hcode : ∀ (p : Prop) [Decidable p], (if p then (-1 : Int) else 0) = 0 ∨
      (if p then (-1 : Int) else 0) = -1 := by
    intro p _
    by_cases hp : p <;> simp [hp]
  have hend : o.type ≠ CLAP_OPT_END := by rw [hbool]; decide
  have hgrp : o.type ≠ CLAP_OPT_GROUP := by rw [hbool]; decide
  constructor
  · cases n with
    | zero =>
      refine ⟨if ∃ o1 ∈ descriptors (pre ++ o :: post), IsMandatory o1 ∧ ¬ IsSet o1
        then -1 else 0, o, ?_, by simpa using hval, hcode _⟩
      simp only [clap_parse, clap_parse_scan, List.replicate]
      simp [clap_parse_mandatory_eq, htab]
    | succ m =>
      have hargc : ((m + 1 : Nat) : Int) + 1 > 1 := by omega
      have hloop := clap_parse_loop_bool env pre post c hc hpre (m + 1)
        ((prog :: List.replicate (m + 1) ['-', c]).length + 1)
        { handler with argc := ((m + 1 : Nat) : Int) + 1,
                       args := prog :: List.replicate (m + 1) ['-', c], argv := 1 }
        o b (by simp) htab hbool hshort hpos hval hcb (by simp; omega)
        (fun j hj1 hj2 => getElem?_cons_replicate prog _ _ j hj1 hj2)
      refine ⟨if ∃ o1 ∈ descriptors
          (pre ++ toggled o (if (m + 1) % 2 = 0 then b else !b) :: post),
          IsMandatory o1 ∧ ¬ IsSet o1 then -1 else 0,
        toggled o (if (m + 1) % 2 = 0 then b else !b), ?_, rfl, hcode _⟩
      unfold clap_parse clap_parse_scan
      simp only [hargc, if_true]
      rw [hloop]
      simp only [ne_eq, not_true_eq_false, if_false, Nat.succ_ne_zero]
      rw [clap_parse_mandatory_eq]
      simp
  · intro hn
    have hn0 : n ≠ 0 := by omega
    have hgood : ∀ a ∈ List.replicate n c,
        ∃ o1, short_match a
          ({ handler with argc := 2, args := [prog, '-' :: List.replicate n c],
                          argv := 2 } : ClapHandler).options = some o1 ∧ GoodBool env o1 := by
      intro a ha
      have hac : a = c := (List.mem_replicate.mp ha).2
      subst hac
      refine ⟨o, ?_, hbool, hpos, ⟨b, hval⟩, hcb⟩
      show short_match a handler.options = some o
      rw [htab]
      exact short_match_of_split a pre o post hpre hend hgrp hshort
    have hhead : (List.replicate n c).head? ≠ some '-' := by
      obtain ⟨m, rfl⟩ : ∃ m, n = m + 1 := ⟨n - 1, by omega⟩
      simpa [List.replicate_succ] using hc
    refine ⟨if ∃ o1 ∈ descriptors
        (pre ++ toggled o (if n % 2 = 0 then b else !b) :: post),
        IsMandatory o1 ∧ ¬ IsSet o1 then -1 else 0,
      toggled o (if n % 2 = 0 then b else !b), ?_, rfl, hcode _⟩
    rw [clap_parse_first_token env handler 2 prog _ [] (by decide),
      clap_parse_token_cluster env _ _ (by simpa using hn) hhead,
      clap_parse_bundle_good env _ _ hgood]
    simp only [ne_eq, not_true_eq_false, if_false]
    rw [clap_parse_loop_done env _ _ (by simp)]
    simp only [ne_eq, not_true_eq_false, if_false]
    rw [clap_parse_mandatory_eq, htab,
      toggle_short_replicate c pre post hpre n o b hend hgrp hshort hval, if_neg hn0]

/-- Three times `-v` on the scenario table, where `verbose` starts as `false`. -/
theorem clap_parse_bool_parity_witness :
    NoShortMatch 'v' [] ∧
    ∃ code o1,
      clap_parse example_env (handler_of scenario_options) ((3 : Nat) + 1)
          ("prog".toList :: List.replicate 3 ['-', 'v']) =
        .ret code { handler_of scenario_options with
          options := [] ++ o1 :: scenario_options.tail, argc := (3 : Nat) + 1,
          args := "prog".toList :: List.replicate 3 ['-', 'v'], argv := 3 + 1 } ∧
      o1.ptr_value = some (.bool (if 3 % 2 = 0 then false else !false)) ∧
      (code = 0 ∨ code = -1) :=
  ⟨by decide,
   (clap_parse_bool_parity example_env (handler_of scenario_options) []
     (entry CLAP_OPT_BOOL 'v' (some "verbose") (some (.bool false)) 0 none)
     scenario_options.tail 'v' false "prog".toList 3 rfl (by decide) rfl rfl (by decide)
     (by decide) rfl (Or.inl (by decide))).1⟩

/-! ## The classes of tokens -/

/-- Writing back the entry that is there leaves the table as it is. -/
theorem set_same {α : Type} (l : List α) (i : Nat) (a : α) (h : l[i]? = some a) :
    l.set i a = l := by
  induction l generalizing i with
  | nil => rfl
  | cons b l ih =>
    cases i with
    | zero => simp at h; simp [h]
    | succ i => simp at h; simp [ih i h]

/-- C12: a token the scan reaches falls in one of five classes, and each class
is handled in its own way. A token that does not start with `-` goes to the
positional matcher. The tokens `-` and `--` give -1, nothing is written, and
`clap_parse` returns -1 from wherever the scan reads them. A token `-c` with
`c` other than `-` is the short cluster of the one character `c`, a token
`-c...` with more characters is the cluster of all the characters after the
leading `-`. Every other token is `--text` with a text that is not empty, and
goes to the long matcher with the whole of `text`. -/
theorem clap_parse_token_classes (env : Env) (h : ClapHandler) :
    (∀ tok : CString, tok.head? ≠ some '-' ∨ tok = ['-'] ∨ tok = ['-', '-'] ∨
      (∃ c cs, c ≠ '-' ∧ tok = '-' :: c :: cs) ∨
      (∃ text, text ≠ [] ∧ tok = '-' :: '-' :: text)) ∧
    (∀ tok : CString, tok.head? ≠ some '-' →
      clap_parse_token env h tok = clap_option_positional env h tok 0) ∧
    (∀ tok : CString, tok = ['-'] ∨ tok = ['-', '-'] →
      clap_parse_token env h tok = .ret (-1) h ∧
      (h.args[h.argv]? = some tok → ∀ fuel,
        clap_parse_loop env (fuel + 1) h = .ret (-1) { h with argv := h.argv + 1 }) ∧
      (∀ argc prog rest, argc > 1 →
        clap_parse env h argc (prog :: tok :: rest) =
          .ret (-1) { h with argc := argc, args := prog :: tok :: rest, argv := 2 })) ∧
    (∀ c, c ≠ '-' → clap_parse_token env h ['-', c] = clap_option_short env h c 0) ∧
    (∀ c cs, c ≠ '-' → cs ≠ [] →
      clap_parse_token env h ('-' :: c :: cs) = clap_parse_bundle env (c :: cs) h) ∧
    (∀ text, text ≠ [] →
      clap_parse_token env h ('-' :: '-' :: text) = clap_option_long env h text 0) := by
  refine ⟨?_, ?_, ?_, ?_, ?_, ?_⟩
  · intro tok
    match tok with
    | [] => left; simp
    | c :: rest =>
      by_cases hc : c = '-'
      · subst hc
        match rest with
        | [] => right; left; rfl
        | d :: rest2 =>
          by_cases hd : d = '-'
          · subst hd
            match rest2 with
            | [] => right; right; left; rfl
            | e :: rest3 =>
              right; right; right; right
              exact ⟨e :: rest3, by simp, rfl⟩
          · right; right; right; left
            exact ⟨d, rest2, hd, rfl⟩
      · left; simpa using hc
  · intro tok hbare
    exact clap_parse_token_positional env h tok hbare
  · intro tok htok
    have key : ∀ g : ClapHandler, clap_parse_token env g tok = .ret (-1) g := by
      intro g
      rcases htok with rfl | rfl <;> simp [clap_parse_token]
    refine ⟨key h, ?_, ?_⟩
    · intro harg fuel
      rw [clap_parse_loop_step env fuel h tok harg, key]
      simp
    · intro argc prog rest hargc
      rw [clap_parse_first_token env h argc prog tok rest hargc, key]
      simp
  · intro c hc
    exact clap_parse_token_short env h c hc
  · intro c cs hc hcs
    match cs, hcs with
    | d :: ds, _ => exact clap_parse_token_bundle env h c d ds hc
  · intro text htext
    exact clap_parse_token_long env h text htext

theorem clap_parse_token_classes_witness :
    clap_parse_token example_env (handler_of example_options) "input.txt".toList =
      clap_option_positional example_env (handler_of example_options) "input.txt".toList 0 ∧
    clap_parse_token example_env (handler_of example_options) "--".toList =
      .ret (-1) (handler_of example_options) ∧
    clap_parse example_env (handler_of example_options) 3
        (["prog", "-", "-v"].map String.toList) =
      .ret (-1) { handler_of example_options with
        argc := 3, args := ["prog", "-", "-v"].map String.toList, argv := 2 } ∧
    clap_parse_token example_env (handler_of example_options) "-v".toList =
      clap_option_short example_env (handler_of example_options) 'v' 0 ∧
    clap_parse_token example_env (handler_of example_options) "-vt".toList =
      clap_parse_bundle example_env "vt".toList (handler_of example_options) ∧
    clap_parse_token example_env (handler_of example_options) "--threshold=5".toList =
      clap_option_long example_env (handler_of example_options) "threshold=5".toList 0 :=
  have T := clap_parse_token_classes example_env (handler_of example_options)
  ⟨T.2.1 "input.txt".toList (by decide),
   (T.2.2.1 "--".toList (Or.inr rfl)).1,
   (T.2.2.1 "-".toList (Or.inl rfl)).2.2 3 "prog".toList ["-v".toList] (by decide),
   T.2.2.2.1 'v' (by decide),
   T.2.2.2.2.1 'v' ['t'] (by decide) (by decide),
   T.2.2.2.2.2 "threshold=5".toList (by decide)⟩

/-! ## The source string -/

theorem strchr_found_iff (s : CString) : strchr_found '=' s = true ↔ '=' ∈ s := by
  induction s with
  | nil => simp [strchr_found, strchr_next]
  | cons d s ih =>
    by_cases hd : d = '='
    · simp [strchr_found, strchr_next, hd]
    · have hd2 : ¬ '=' = d := fun e => hd e.symm
      simp only [strchr_found, strchr_next, if_neg hd, List.mem_cons, hd2, false_or]
      exact ih

/-- C14: the source string of a matched descriptor that takes a value (its kind
is neither `Bool` nor `None`). With the inline-value flag on, which
`clap_option_long` sets exactly when the text after `--` contains `=`, the
source is the text after the first `=` of the token, whatever it is, and the
cursor stays. Otherwise the source of a positional descriptor is the token
itself, and the cursor stays. Otherwise the source is the next token of `argv`,
whatever it is, and the cursor moves behind it; without a next token the
result is -3 and nothing is written. The `switch` that reads the source never
moves the cursor. On the table `[Bool v/verbose, Mandatory Int n/count]` the
arguments `-v -n 5` give 0 with `verbose` true and `count` 5. -/
theorem clap_option_store_source (env : Env) (h : ClapHandler) (o : ClapOption) (fl : Nat)
    (hb : o.type ≠ CLAP_OPT_BOOL) (hn : o.type ≠ CLAP_OPT_NONE) :
    (∀ pfx value, fl &&& _FLAG_LONG_OPT_WITH_VALUE ≠ 0 → '=' ∉ pfx →
      prev_arg h = some (pfx ++ '=' :: value) →
      clap_option_store env h o fl = clap_option_coerce env h o value) ∧
    (∀ tok, fl &&& _FLAG_LONG_OPT_WITH_VALUE = 0 → IsPositional o → prev_arg h = some tok →
      clap_option_store env h o fl = clap_option_coerce env h o tok) ∧
    (∀ next, fl &&& _FLAG_LONG_OPT_WITH_VALUE = 0 → ¬ IsPositional o →
      h.args[h.argv]? = some next →
      clap_option_store env h o fl =
        clap_option_coerce env { h with argv := h.argv + 1 } o next) ∧
    (fl &&& _FLAG_LONG_OPT_WITH_VALUE = 0 → ¬ IsPositional o → h.args[h.argv]? = none →
      clap_option_store env h o fl = .error { h with argv := h.argv + 1 } o ∧
      ∀ i, h.options[i]? = some o →
        clap_option_set_value env h i fl = .ret (-3) { h with argv := h.argv + 1 }) ∧
    (∀ g source h1 o1, clap_option_coerce env g o source = .done h1 o1 ∨
      clap_option_coerce env g o source = .error h1 o1 → h1 = g) ∧
    (∀ text, clap_option_long env h text 0 =
      clap_option_long_from env h text
        (if '=' ∈ text then _FLAG_LONG_OPT_WITH_VALUE else 0) h.options 0) ∧
    clap_parse example_env (handler_of scenario_options) 4 scenario_argv =
      .ret 0 scenario_handler_parsed := by
  refine ⟨?_, ?_, ?_, ?_, ?_, ?_, by decide⟩
  · intro pfx value hfl hpfx hprev
    exact clap_option_store_inline env h o fl _ value hb hn hfl hprev
      (strchr_next_append pfx value hpfx)
  · intro tok hfl hpos hprev
    unfold clap_option_store
    rw [if_neg hb, if_pos hn, if_neg (by simpa using hfl),
      if_neg (show ¬ (o.flags &&& CLAP_FLAG_POSITIONAL = 0) from hpos), hprev]
  · intro next hfl hpos hnext
    exact clap_option_store_next env h o fl next hb hn hfl hpos hnext
  · intro hfl hpos hnext
    have hstore : clap_option_store env h o fl = .error { h with argv := h.argv + 1 } o := by
      unfold clap_option_store
      rw [if_neg hb, if_pos hn, if_neg (by simpa using hfl),
        if_pos (show o.flags &&& CLAP_FLAG_POSITIONAL = 0 from Classical.not_not.mp hpos),
        hnext]
    refine ⟨hstore, ?_⟩
    intro i hget
    unfold clap_option_set_value
    rw [hget]
    simp only
    rw [if_neg (fun hc => hpos hc.2), hstore]
    simp only [write_option]
    rw [set_same _ _ _ hget]
  · intro g source h1 o1 hres
    exact (clap_option_coerce_shape env g o source h1 o1 hres).1
  · intro text
    unfold clap_option_long
    by_cases hin : '=' ∈ text
    · rw [(strchr_found_iff text).mpr hin, if_pos hin]
      simp
    · have : strchr_found '=' text = false := strchr_found_of_not_mem text hin
      rw [this, if_neg hin]
      simp

theorem clap_option_store_source_witness :
    clap_option_store example_env
        { handler_of scenario_options with
          args := ["prog", "--count=4=2"].map String.toList, argv := 2 }
        (entry CLAP_OPT_STRING 'n' (some "count") (some (.str none)) 0 none)
        (_FLAG_LONG_OPT_WITH_VALUE ||| _FLAG_OPT_LONG) =
      clap_option_coerce example_env
        { handler_of scenario_options with
          args := ["prog", "--count=4=2"].map String.toList, argv := 2 }
        (entry CLAP_OPT_STRING 'n' (some "count") (some (.str none)) 0 none) "4=2".toList ∧
    clap_option_store example_env
        { handler_of scenario_options with
          args := ["prog", "-n", "-5"].map String.toList, argv := 2 }
        (entry CLAP_OPT_INT 'n' (some "count") (some (.int 0)) CLAP_FLAG_MANDATORY none) 0 =
      clap_option_coerce example_env
        { handler_of scenario_options with
          args := ["prog", "-n", "-5"].map String.toList, argv := 3 }
        (entry CLAP_OPT_INT 'n' (some "count") (some (.int 0)) CLAP_FLAG_MANDATORY none)
        "-5".toList ∧
    clap_option_set_value example_env
        { handler_of scenario_options with
          args := ["prog", "-n"].map String.toList, argv := 2 } 1 0 =
      .ret (-3) { handler_of scenario_options with
          args := ["prog", "-n"].map String.toList, argv := 3 } ∧
    clap_parse example_env (handler_of scenario_options) 3
        (["prog", "-n", "-5"].map String.toList) =
      .ret 0 { handler_of
          [ entry CLAP_OPT_BOOL 'v' (some "verbose") (some (.bool false)) 0 none,
            entry CLAP_OPT_INT 'n' (some "count") (some (.int (-5)))
              (CLAP_FLAG_MANDATORY ||| CLAP_FLAG_SET) none,
            CLAP_END ] with
          argc := 3, args := ["prog", "-n", "-5"].map String.toList, argv := 3 } :=
  ⟨(clap_option_store_source example_env
      { handler_of scenario_options with
        args := ["prog", "--count=4=2"].map String.toList, argv := 2 }
      (entry CLAP_OPT_STRING 'n' (some "count") (some (.str none)) 0 none)
      (_FLAG_LONG_OPT_WITH_VALUE ||| _FLAG_OPT_LONG) (by decide) (by decide)).1
      "--count".toList "4=2".toList (by decide) (by decide) (by decide),
   (clap_option_store_source example_env
      { handler_of scenario_options with
        args := ["prog", "-n", "-5"].map String.toList, argv := 2 }
      (entry CLAP_OPT_INT 'n' (some "count") (some (.int 0)) CLAP_FLAG_MANDATORY none) 0
      (by decide) (by decide)).2.2.1 "-5".toList (by decide) (by decide) (by decide),
   ((clap_option_store_source example_env
      { handler_of scenario_options with
        args := ["prog", "-n"].map String.toList, argv := 2 }
      (entry CLAP_OPT_INT 'n' (some "count") (some (.int 0)) CLAP_FLAG_MANDATORY none) 0
      (by decide) (by decide)).2.2.2.1 (by decide) (by decide) (by decide)).2 1 (by decide),
   by decide⟩

/-! ## The check of the table -/

theorem clap_check_options_from_none (t : List ClapOption) (i : Nat) :
    clap_check_options_from t i = none ↔
      ∀ o ∈ descriptors t, CLAP_OPT_END ≤ o.type ∧ o.type ≤ CLAP_OPT_SIZE := by
  induction t generalizing i with
  | nil => simp [clap_check_options_from, descriptors]
  | cons o t ih =>
    by_cases hend : o.type = CLAP_OPT_END
    · rw [clap_check_options_from, if_pos hend, descriptors_cons_end o t hend]
      simp
    · rw [clap_check_options_from, if_neg hend, descriptors_cons o t hend]
      by_cases hbad : o.type > CLAP_OPT_SIZE ∨ o.type < CLAP_OPT_END
      · rw [if_pos hbad]
        simp only [List.mem_cons, forall_eq_or_imp, false_iff, not_and, reduceCtorEq]
        intro hok
        exfalso
        rcases hbad with hbad | hbad
        · exact absurd hok.2 (not_le.mpr hbad)
        · exact absurd hok.1 (not_le.mpr hbad)
      · rw [if_neg hbad, ih]
        simp only [List.mem_cons, forall_eq_or_imp]
        have hok : CLAP_OPT_END ≤ o.type ∧ o.type ≤ CLAP_OPT_SIZE := by
          constructor
          · exact not_lt.mp (fun hlt => hbad (Or.inr hlt))
          · exact not_lt.mp (fun hgt => hbad (Or.inl hgt))
        exact ⟨fun hall => ⟨hok, hall⟩, fun hall => hall.2⟩

/-- C15 (the code): `clap_check_options` returns `NULL` exactly when every
descriptor in front of the `End` sentinel has a kind between `CLAP_OPT_END` and
`CLAP_OPT_SIZE`, both included. The number `CLAP_OPT_SIZE` is the count of
kinds, not a kind: a table with a descriptor of that kind passes the check,
and `clap_handler_new` builds a handler on it. -/
theorem clap_check_options_accepts_size :
    (∀ t, clap_check_options t = none ↔
      ∀ o ∈ descriptors t, CLAP_OPT_END ≤ o.type ∧ o.type ≤ CLAP_OPT_SIZE) ∧
    (∃ o ∈ descriptors size_options, ¬ IsKind o.type) ∧
    clap_check_options size_options = none ∧
    clap_handler_new (some size_options) none none none = some (handler_of size_options) ∧
    clap_parse example_env (handler_of size_options) 3 (["prog", "-x", "1"].map String.toList) =
      .ret (-3) { handler_of size_options with
        argc := 3, args := ["prog", "-x", "1"].map String.toList, argv := 3 } := by
  refine ⟨fun t => clap_check_options_from_none t 0, by decide, by decide, by decide, by decide⟩

/-! ## Descriptors without a long flag -/

/-- The long matcher dereferences `NULL` when it comes to a descriptor without a
long flag before it has found the token. -/
theorem clap_option_long_null (env : Env) (h : ClapHandler) (opt : CString) (fl : Nat)
    (pre : List ClapOption) (o : ClapOption) (post : List ClapOption)
    (htab : h.options = pre ++ o :: post) (hpre : NoLongMatch opt pre)
    (hend : o.type ≠ CLAP_OPT_END) (hgrp : o.type ≠ CLAP_OPT_GROUP)
    (hlong : o.long_option = none) :
    clap_option_long env h opt fl = .undefined := by
  unfold clap_option_long
  rw [htab, clap_option_long_from_skip env h opt _ pre _ 0 hpre]
  simp only [clap_option_long_from]
  rw [if_neg hend, if_pos hgrp, hlong]

/-- C19 (the code): on a table whose first descriptor has the short flag `v` and
no long flag, and which satisfies the invariant of descriptors, the token
`--test` is not matched to the later descriptor `test`: `clap_option_long` hands
the `NULL` long flag to `strcmp_long_option`, which reads through it, and the
behaviour of the call and of `clap_parse` is not defined. -/
theorem clap_option_long_short_only :
    (∀ o ∈ descriptors short_only_options, DescriptorInvariant o) ∧
    clap_option_long example_env (handler_of short_only_options) "test".toList 0 =
      .undefined ∧
    clap_option_long example_env (handler_of short_only_options) "bogus".toList 0 =
      .undefined ∧
    clap_parse example_env (handler_of short_only_options) 2
      (["prog", "--test"].map String.toList) = .undefined := by
  refine ⟨by decide, by decide, by decide, by decide⟩

/-! ## First exact match -/

theorem toNat_ne_zero (c : Char) (h : c ≠ Char.ofNat 0) : c.toNat ≠ 0 := by
  intro hz
  apply h
  rw [← Char.ofNat_toNat c, hz]

theorem long_name_cons_eq (t : CString) : long_name ('=' :: t) = [] := by
  simp [long_name]

theorem long_name_cons_ne (d : Char) (t : CString) (hd : d ≠ '=') :
    long_name (d :: t) = d :: long_name t := by
  simp [long_name, hd]

theorem isCString_long_name (t : CString) (ht : IsCString t) : IsCString (long_name t) := by
  intro hmem
  exact ht ((List.takeWhile_sublist _).subset hmem)

/-- On C strings, `strcmp_long_option` gives 0 exactly when the first string is
the text of the second in front of its first `=`. -/
theorem strcmp_long_option_eq_zero (s t : CString) (hs : IsCString s) (ht : IsCString t) :
    strcmp_long_option s t = 0 ↔ s = long_name t := by
  induction s generalizing t with
  | nil =>
    cases t with
    | nil => simp [strcmp_long_option, long_name]
    | cons d t =>
      by_cases hd : d = '='
      · subst hd
        simp [strcmp_long_option, long_name]
      · have hd0 : d ≠ Char.ofNat 0 := fun e => ht (by simp [e])
        have := toNat_ne_zero d hd0
        rw [long_name_cons_ne d t hd]
        simp only [strcmp_long_option, if_neg hd]
        constructor
        · intro hz; exact absurd (by exact_mod_cast hz) this
        · intro hz; simp at hz
  | cons c s ih =>
    have hc0 : c ≠ Char.ofNat 0 := fun e => hs (by simp [e])
    have hcn := toNat_ne_zero c hc0
    have hs1 : IsCString s := fun hm => hs (List.mem_cons_of_mem _ hm)
    cases t with
    | nil =>
      simp only [strcmp_long_option, long_name, List.takeWhile_nil]
      constructor
      · intro hz; exact absurd (by exact_mod_cast hz) hcn
      · intro hz; simp at hz
    | cons d t =>
      have hd0 : d ≠ Char.ofNat 0 := fun e => ht (by simp [e])
      have hdn := toNat_ne_zero d hd0
      have ht1 : IsCString t := fun hm => ht (List.mem_cons_of_mem _ hm)
      have hne : ∀ x y : Char, x.toNat ≠ 0 → y.toNat ≠ 0 →
          (if x < y then -(x.toNat : Int) else (y.toNat : Int)) ≠ 0 := by
        intro x y hx hy
        split_ifs
        · intro hz; exact hx (by omega)
        · intro hz; exact hy (by exact_mod_cast hz)
      by_cases hd : d = '='
      · subst hd
        rw [long_name_cons_eq]
        simp only [strcmp_long_option, ne_eq, not_true_eq_false, if_false]
        constructor
        · intro hz; exact absurd hz (hne c '=' hcn hdn)
        · intro hz; simp at hz
      · rw [long_name_cons_ne d t hd]
        by_cases hcd : c = d
        · subst hcd
          simp only [strcmp_long_option, ne_eq, hd, not_false_eq_true, if_true,
            not_true_eq_false, if_false]
          rw [ih t hs1 ht1]
          simp
        · simp only [strcmp_long_option, ne_eq, hd, not_false_eq_true, if_true, hcd]
          constructor
          · intro hz; exact absurd hz (hne c d hcn hdn)
          · intro hz; simp at hz; exact absurd hz.1 hcd

theorem clap_option_short_from_none (env : Env) (h : ClapHandler) (c : Char) (fl : Nat)
    (t : List ClapOption) (i : Nat)
    (hno : ∀ p ∈ descriptors t, p.type = CLAP_OPT_GROUP ∨ p.short_option ≠ c) :
    clap_option_short_from env h c fl t i = .ret (-2) h := by
  induction t generalizing i with
  | nil => rfl
  | cons p t ih =>
    by_cases hend : p.type = CLAP_OPT_END
    · rw [clap_option_short_from, if_pos hend]
    · rw [descriptors_cons p t hend] at hno
      have hp := hno p (by simp)
      have hn : ¬ (p.type ≠ CLAP_OPT_GROUP ∧ p.short_option = c) := by
        rintro ⟨h1, h2⟩
        rcases hp with h3 | h3
        · exact h1 h3
        · exact h3 h2
      rw [clap_option_short_from, if_neg hend, if_neg hn]
      exact ih _ (fun q hq => hno q (by simp [hq]))

theorem clap_option_long_from_none (env : Env) (h : ClapHandler) (opt : CString) (fl : Nat)
    (t : List ClapOption) (i : Nat)
    (hno : ∀ p ∈ descriptors t, p.type = CLAP_OPT_GROUP ∨
      ∃ l, p.long_option = some l ∧ strcmp_long_option l opt ≠ 0) :
    clap_option_long_from env h opt fl t i = .ret (-2) h := by
  induction t generalizing i with
  | nil => rfl
  | cons p t ih =>
    by_cases hend : p.type = CLAP_OPT_END
    · rw [clap_option_long_from, if_pos hend]
    · rw [descriptors_cons p t hend] at hno
      have hp := hno p (by simp)
      have hrest := ih (i + 1) (fun q hq => hno q (by simp [hq]))
      rw [clap_option_long_from, if_neg hend]
      by_cases hg : p.type = CLAP_OPT_GROUP
      · rw [if_neg (by simp [hg]), hrest]
      · rcases hp with h3 | ⟨l, hl, hne⟩
        · exact absurd h3 hg
        · rw [if_pos hg, hl]
          simp only
          rw [if_neg hne, hrest]

theorem sameShape_refl (o : ClapOption) : SameShape o o :=
  ⟨rfl, rfl, rfl, rfl, rfl, Or.inl rfl⟩

theorem or_set_idem (f : Nat) : (f ||| CLAP_FLAG_SET) ||| CLAP_FLAG_SET = f ||| CLAP_FLAG_SET := by
  rw [Nat.or_assoc, Nat.or_self]

theorem sameShape_trans (o o1 o2 : ClapOption) (h1 : SameShape o o1) (h2 : SameShape o1 o2) :
    SameShape o o2 := by
  obtain ⟨a1, a2, a3, a4, a5, a6⟩ := h1
  obtain ⟨b1, b2, b3, b4, b5, b6⟩ := h2
  refine ⟨b1.trans a1, b2.trans a2, b3.trans a3, b4.trans a4, b5.trans a5, ?_⟩
  rcases a6 with a6 | a6 <;> rcases b6 with b6 | b6
  · exact Or.inl (b6.trans a6)
  · exact Or.inr (by rw [b6, a6])
  · exact Or.inr (b6.trans a6)
  · exact Or.inr (by rw [b6, a6, or_set_idem])

/-- What the shape fixes: the three attributes; and the `Set` bit stays on. -/
theorem sameShape_flags (o o1 : ClapOption) (h : SameShape o o1) :
    (IsMandatory o1 ↔ IsMandatory o) ∧ (HasCallback o1 ↔ HasCallback o) ∧
    (IsPositional o1 ↔ IsPositional o) ∧ (IsSet o → IsSet o1) := by
  obtain ⟨_, _, _, _, _, hf⟩ := h
  unfold IsMandatory HasCallback IsPositional IsSet
  rcases hf with hf | hf
  · rw [hf]; exact ⟨Iff.rfl, Iff.rfl, Iff.rfl, id⟩
  · rw [hf, or_set_and_mandatory, or_set_and_callback, or_set_and_positional, or_set_and_set]
    exact ⟨Iff.rfl, Iff.rfl, Iff.rfl, fun _ => by decide⟩

theorem touches_refl (P : Nat → ClapOption → Prop) (t : List ClapOption) : Touches P t t := by
  refine ⟨rfl, ?_⟩
  intro j o o1 h1 h2
  rw [h1] at h2
  cases h2
  exact ⟨sameShape_refl o, fun hne => absurd rfl hne⟩

theorem touches_mono (P Q : Nat → ClapOption → Prop) (t t1 : List ClapOption)
    (hPQ : ∀ j o, t[j]? = some o → P j o → Q j o) (h : Touches P t t1) : Touches Q t t1 :=
  ⟨h.1, fun j o o1 h1 h2 => ⟨(h.2 j o o1 h1 h2).1, fun hne => hPQ j o h1 ((h.2 j o o1 h1 h2).2 hne)⟩⟩

theorem touches_set (P : Nat → ClapOption → Prop) (t : List ClapOption) (i : Nat)
    (o o1 : ClapOption) (hget : t[i]? = some o) (hs : SameShape o o1) (hP : P i o) :
    Touches P t (t.set i o1) := by
  refine ⟨List.length_set _ _ _, ?_⟩
  intro j p p1 h1 h2
  by_cases hij : i = j
  · subst hij
    rw [hget] at h1
    cases h1
    have hlt : i < t.length := by
      rcases Nat.lt_or_ge i t.length with hlt | hge
      · exact hlt
      · rw [List.getElem?_eq_none hge] at hget
        exact absurd hget (by simp)
    rw [List.getElem?_set_self hlt] at h2
    cases h2
    exact ⟨hs, fun _ => hP⟩
  · rw [List.getElem?_set_ne hij] at h2
    rw [h1] at h2
    cases h2
    exact ⟨sameShape_refl p, fun hne => absurd rfl hne⟩

theorem touches_trans (P Q R : Nat → ClapOption → Prop) (t t1 t2 : List ClapOption)
    (h1 : Touches P t t1) (h2 : Touches Q t1 t2)
    (hP : ∀ j o, t[j]? = some o → P j o → R j o)
    (hQ : ∀ j o o1, t[j]? = some o → t1[j]? = some o1 → SameShape o o1 → Q j o1 → R j o) :
    Touches R t t2 := by
  refine ⟨h2.1.trans h1.1, ?_⟩
  intro j o o2 hj hj2
  have hlt : j < t1.length := by
    rw [h1.1]
    rcases Nat.lt_or_ge j t.length with hlt | hge
    · exact hlt
    · rw [List.getElem?_eq_none hge] at hj
      exact absurd hj (by simp)
  have hj1 : t1[j]? = some (t1.get ⟨j, hlt⟩) := by
    rw [List.getElem?_eq_getElem hlt]; rfl
  have a := h1.2 j o _ hj hj1
  have b := h2.2 j _ o2 hj1 hj2
  refine ⟨sameShape_trans _ _ _ a.1 b.1, ?_⟩
  intro hne
  by_cases h01 : t1.get ⟨j, hlt⟩ = o
  · rw [h01] at b hj1
    exact hQ j o o hj hj1 (sameShape_refl o) (b.2 hne)
  · exact hP j o hj (a.2 h01)

theorem touches_cons (P : Nat → ClapOption → Prop) (o o1 : ClapOption)
    (t t1 : List ClapOption) (h : Touches P (o :: t) (o1 :: t1)) :
    SameShape o o1 ∧ Touches (fun j => P (j + 1)) t t1 := by
  refine ⟨(h.2 0 o o1 (by simp) (by simp)).1, ?_, ?_⟩
  · have := h.1
    simp only [List.length_cons] at this
    omega
  · intro j p p1 hj hj1
    exact h.2 (j + 1) p p1 (by simpa using hj) (by simpa using hj1)

theorem short_index_touches (c : Char) (t : List ClapOption) :
    ∀ (P : Nat → ClapOption → Prop) (t1 : List ClapOption), Touches P t t1 →
      short_index c t1 = short_index c t := by
  induction t with
  | nil =>
    intro P t1 h
    have : t1 = [] := List.length_eq_zero.mp h.1
    rw [this]
  | cons o t ih =>
    intro P t1 h
    cases t1 with
    | nil => exact absurd h.1 (by simp)
    | cons o1 t1 =>
      obtain ⟨hs, ht⟩ := touches_cons P o o1 t t1 h
      rw [short_index, short_index, hs.1, hs.2.1, ih _ t1 ht]

theorem long_index_touches (text : CString) (t : List ClapOption) :
    ∀ (P : Nat → ClapOption → Prop) (t1 : List ClapOption), Touches P t t1 →
      long_index text t1 = long_index text t := by
  induction t with
  | nil =>
    intro P t1 h
    have : t1 = [] := List.length_eq_zero.mp h.1
    rw [this]
  | cons o t ih =>
    intro P t1 h
    cases t1 with
    | nil => exact absurd h.1 (by simp)
    | cons o1 t1 =>
      obtain ⟨hs, ht⟩ := touches_cons P o o1 t t1 h
      have hl : long_flag_is text o1 = long_flag_is text o := by
        unfold long_flag_is
        rw [hs.2.2.1]
      rw [long_index, long_index, hs.1, hl, ih _ t1 ht]

/-- A token that matches an entry of a table matches the entry of any table that
one came from. -/
theorem matches_touches (P : Nat → ClapOption → Prop) (t t1 : List ClapOption)
    (tok : CString) (j : Nat) (o o1 : ClapOption) (h : Touches P t t1)
    (hs : SameShape o o1) (hm : Matches t1 tok j o1) : Matches t tok j o := by
  unfold Matches at hm ⊢
  rw [long_index_touches _ t P t1 h] at hm
  split_ifs at hm ⊢ with hb hc
  · have hf := sameShape_flags o o1 hs
    refine ⟨⟨?_, hf.2.2.1.mp hm.1.2⟩, fun hset => hm.2 (hf.2.2.2 hset)⟩
    have := hm.1.1
    rw [hs.1] at this
    exact this
  · obtain ⟨c, hc1, hc2⟩ := hm
    exact ⟨c, hc1, by rw [← short_index_touches c t P t1 h]; exact hc2⟩
  · exact hm

theorem keeps_mono (P Q : Nat → ClapOption → Prop) (h : ClapHandler) (r : Outcome)
    (hPQ : ∀ j o, h.options[j]? = some o → P j o → Q j o) (hk : Keeps P h r) : Keeps Q h r := by
  cases r with
  | ret c h1 => exact touches_mono P Q _ _ hPQ hk
  | undefined => trivial
  | timeout => trivial

theorem keeps_return_callback (env : Env) (f : Nat) (h g : ClapHandler) (i : Nat)
    (P : Nat → ClapOption → Prop) (ht : Touches P h.options g.options) :
    Keeps P h (return_callback env f g i) := by
  unfold return_callback
  cases call_callback env f g i with
  | none => trivial
  | some code => exact ht

/-- The function `clap_option_set_value` writes to the entry it is given, and to
its storage and `Set` bit only. -/
theorem clap_option_set_value_keeps (env : Env) (h : ClapHandler) (i fl : Nat)
    (P : Nat → ClapOption → Prop) (hP : ∀ o, h.options[i]? = some o → P i o) :
    Keeps P h (clap_option_set_value env h i fl) := by
  unfold clap_option_set_value
  cases hget : h.options[i]? with
  | none => trivial
  | some o =>
    simp only
    split_ifs
    · exact touches_refl P _
    · cases hst : clap_option_store env h o fl with
      | undefined => trivial
      | error h1 o1 =>
        obtain ⟨hh, ho⟩ := clap_option_store_shape env h o fl h1 o1 (Or.inr hst)
        have hopt : h1.options = h.options := by rcases hh with rfl | rfl <;> rfl
        have hs : SameShape o o1 := by
          rw [ho]; exact ⟨rfl, rfl, rfl, rfl, rfl, Or.inl rfl⟩
        show Touches P h.options (write_option h1 i o1).options
        simp only [write_option, hopt]
        exact touches_set P _ i o o1 hget hs (hP o hget)
      | done h1 o1 =>
        obtain ⟨hh, ho⟩ := clap_option_store_shape env h o fl h1 o1 (Or.inl hst)
        have hopt : h1.options = h.options := by rcases hh with rfl | rfl <;> rfl
        have hty : o1.type = o.type := by rw [ho]
        have hso : o1.short_option = o.short_option := by rw [ho]
        have hlo : o1.long_option = o.long_option := by rw [ho]
        have hhe : o1.help = o.help := by rw [ho]
        have hca : o1.callback = o.callback := by rw [ho]
        have hfl : o1.flags = o.flags := by rw [ho]
        have key : ∀ o2, SameShape o o2 → Touches P h.options (write_option h1 i o2).options := by
          intro o2 hs
          simp only [write_option, hopt]
          exact touches_set P _ i o _ hget hs (hP o hget)
        simp only
        split_ifs
        · cases hcb : o1.callback with
          | none => trivial
          | some f =>
            exact keeps_return_callback env f h _ i P
              (key _ ⟨hty, hso, hlo, hhe, hcb.symm.trans hca, Or.inr (by rw [hfl])⟩)
        · exact key _ ⟨hty, hso, hlo, hhe, hca, Or.inr (by rw [hfl])⟩

theorem short_index_some (c : Char) (t : List ClapOption) (k : Nat)
    (h : short_index c t = some k) :
    ∃ o, t[k]? = some o ∧ o ∈ descriptors t ∧ o.type ≠ CLAP_OPT_GROUP ∧ o.short_option = c := by
  induction t generalizing k with
  | nil => simp [short_index] at h
  | cons p t ih =>
    rw [short_index] at h
    split_ifs at h with hend hm
    · cases h
      exact ⟨p, by simp, by rw [descriptors_cons p t hend]; simp, hm.1, hm.2⟩
    · cases hk : short_index c t with
      | none => rw [hk] at h; simp at h
      | some k1 =>
        rw [hk] at h
        simp at h
        subst h
        obtain ⟨o, h1, h2, h3, h4⟩ := ih k1 hk
        exact ⟨o, by simpa using h1, by rw [descriptors_cons p t hend]; simp [h2], h3, h4⟩

theorem long_index_some (text : CString) (t : List ClapOption) (k : Nat)
    (h : long_index text t = some k) :
    ∃ o, t[k]? = some o ∧ o ∈ descriptors t ∧ o.type ≠ CLAP_OPT_GROUP ∧
      long_flag_is text o = true := by
  induction t generalizing k with
  | nil => simp [long_index] at h
  | cons p t ih =>
    rw [long_index] at h
    split_ifs at h with hend hm
    · cases h
      exact ⟨p, by simp, by rw [descriptors_cons p t hend]; simp, hm.1, hm.2⟩
    · cases hk : long_index text t with
      | none => rw [hk] at h; simp at h
      | some k1 =>
        rw [hk] at h
        simp at h
        subst h
        obtain ⟨o, h1, h2, h3, h4⟩ := ih k1 hk
        exact ⟨o, by simpa using h1, by rw [descriptors_cons p t hend]; simp [h2], h3, h4⟩

/-- The short matcher gives -2 when the character stands for no entry, and
otherwise decides on the entry the character stands for. -/
theorem clap_option_short_from_index (env : Env) (h : ClapHandler) (c : Char) (fl : Nat)
    (t : List ClapOption) (i : Nat) :
    (short_index c t = none ∧ clap_option_short_from env h c fl t i = .ret (-2) h) ∨
    ∃ k o, short_index c t = some k ∧ t[k]? = some o ∧
      clap_option_short_from env h c fl t i =
        if fl &&& _FLAG_REQUIRE_NO_VAL ≠ 0 ∧ (o.type ≠ CLAP_OPT_BOOL ∨ o.type = CLAP_OPT_NONE)
        then .ret (-2) h else clap_option_set_value env h (i + k) 0 := by
  induction t generalizing i with
  | nil => exact Or.inl ⟨rfl, rfl⟩
  | cons o t ih =>
    rw [clap_option_short_from, short_index]
    by_cases hend : o.type = CLAP_OPT_END
    · rw [if_pos hend, if_pos hend]
      exact Or.inl ⟨rfl, rfl⟩
    · rw [if_neg hend, if_neg hend]
      by_cases hm : o.type ≠ CLAP_OPT_GROUP ∧ o.short_option = c
      · rw [if_pos hm, if_pos hm]
        exact Or.inr ⟨0, o, rfl, by simp, rfl⟩
      · rw [if_neg hm, if_neg hm]
        rcases ih (i + 1) with ⟨hk, hr⟩ | ⟨k, p, hk, hp, hr⟩
        · exact Or.inl ⟨by rw [hk]; rfl, hr⟩
        · refine Or.inr ⟨k + 1, p, by rw [hk]; rfl, by simpa using hp, ?_⟩
          rw [hr]
          have : i + 1 + k = i + (k + 1) := by omega
          rw [this]

/-- The long matcher reads through a `NULL` long flag, gives -2 when the text
stands for no entry, or acts on the entry the text stands for. -/
theorem clap_option_long_from_index (env : Env) (h : ClapHandler) (opt : CString) (fl : Nat)
    (t : List ClapOption) (i : Nat) :
    clap_option_long_from env h opt fl t i = .undefined ∨
    (long_index opt t = none ∧ clap_option_long_from env h opt fl t i = .ret (-2) h) ∨
    ∃ k, long_index opt t = some k ∧
      clap_option_long_from env h opt fl t i =
        clap_option_set_value env h (i + k) (fl ||| _FLAG_OPT_LONG) := by
  induction t generalizing i with
  | nil => exact Or.inr (Or.inl ⟨rfl, rfl⟩)
  | cons o t ih =>
    have hrec : clap_option_long_from env h opt fl t (i + 1) = .undefined ∨
        ((long_index opt t).map (fun k => k + 1) = none ∧
          clap_option_long_from env h opt fl t (i + 1) = .ret (-2) h) ∨
        ∃ k, (long_index opt t).map (fun k => k + 1) = some k ∧
          clap_option_long_from env h opt fl t (i + 1) =
            clap_option_set_value env h (i + k) (fl ||| _FLAG_OPT_LONG) := by
      rcases ih (i + 1) with hr | ⟨hk, hr⟩ | ⟨k, hk, hr⟩
      · exact Or.inl hr
      · exact Or.inr (Or.inl ⟨by rw [hk]; rfl, hr⟩)
      · refine Or.inr (Or.inr ⟨k + 1, by rw [hk]; rfl, ?_⟩)
        rw [hr]
        congr 1
        omega
    rw [clap_option_long_from, long_index]
    by_cases hend : o.type = CLAP_OPT_END
    · rw [if_pos hend, if_pos hend]
      exact Or.inr (Or.inl ⟨rfl, rfl⟩)
    · rw [if_neg hend, if_neg hend]
      by_cases hg : o.type = CLAP_OPT_GROUP
      · rw [if_neg (by simp [hg]), if_neg (by simp [hg])]
        exact hrec
      · rw [if_pos hg]
        cases hl : o.long_option with
        | none => exact Or.inl rfl
        | some l =>
          simp only
          by_cases hz : strcmp_long_option l opt = 0
          · rw [if_pos hz, if_pos ⟨hg, by simp [long_flag_is, hl, hz]⟩]
            exact Or.inr (Or.inr ⟨0, rfl, rfl⟩)
          · rw [if_neg hz, if_neg (by simp [long_flag_is, hl, hz])]
            exact hrec

theorem clap_option_positional_from_index (env : Env) (h : ClapHandler) (fl : Nat)
    (t : List ClapOption) (i : Nat) :
    clap_option_positional_from env h fl t i = .ret (-2) h ∨
    ∃ k o, t[k]? = some o ∧ IsSlot o ∧ ¬ IsSet o ∧
      clap_option_positional_from env h fl t i =
        clap_option_set_value env h (i + k) (fl ||| _FLAG_OPT_POSITIONAL) := by
  induction t generalizing i with
  | nil => exact Or.inl rfl
  | cons o t ih =>
    rw [clap_option_positional_from]
    split_ifs with hend hm
    · exact Or.inl rfl
    · exact Or.inr ⟨0, o, by simp, ⟨hm.1, hm.2.1⟩, fun hset => hset hm.2.2, rfl⟩
    · rcases ih (i + 1) with hr | ⟨k, p, hk, hp1, hp2, hr⟩
      · exact Or.inl hr
      · refine Or.inr ⟨k + 1, p, by simpa using hk, hp1, hp2, ?_⟩
        rw [hr]
        congr 1
        omega

theorem clap_option_short_keeps (env : Env) (h : ClapHandler) (c : Char) (fl : Nat) :
    Keeps (fun j _ => short_index c h.options = some j) h (clap_option_short env h c fl) := by
  unfold clap_option_short
  rcases clap_option_short_from_index env h c fl h.options 0 with ⟨_, hr⟩ | ⟨k, o, hk, _, hr⟩
  · rw [hr]; exact touches_refl _ _
  · rw [hr, Nat.zero_add]
    split_ifs
    · exact touches_refl _ _
    · exact clap_option_set_value_keeps env h k 0 _ (fun _ _ => hk)

theorem clap_option_long_keeps (env : Env) (h : ClapHandler) (opt : CString) (fl : Nat) :
    Keeps (fun j _ => long_index opt h.options = some j) h (clap_option_long env h opt fl) := by
  unfold clap_option_long
  rcases clap_option_long_from_index env h opt
      (if strchr_found '=' opt then fl ||| _FLAG_LONG_OPT_WITH_VALUE else fl) h.options 0
    with hr | ⟨_, hr⟩ | ⟨k, hk, hr⟩
  · rw [hr]; trivial
  · rw [hr]; exact touches_refl _ _
  · rw [hr, Nat.zero_add]
    exact clap_option_set_value_keeps env h k _ _ (fun _ _ => hk)

theorem clap_option_positional_keeps (env : Env) (h : ClapHandler) (tok : CString)
    (fl : Nat) :
    Keeps (fun _ o => IsSlot o ∧ ¬ IsSet o) h (clap_option_positional env h tok fl) := by
  unfold clap_option_positional
  rcases clap_option_positional_from_index env h fl h.options 0 with hr | ⟨k, o, hk, h1, h2, hr⟩
  · rw [hr]; exact touches_refl _ _
  · rw [hr, Nat.zero_add]
    apply clap_option_set_value_keeps env h k _ _
    intro p hp
    rw [hk] at hp
    cases hp
    exact ⟨h1, h2⟩

theorem clap_parse_bundle_keeps (env : Env) (cs : List Char) :
    ∀ h : ClapHandler,
      Keeps (fun j _ => ∃ c ∈ cs, short_index c h.options = some j) h
        (clap_parse_bundle env cs h) := by
  induction cs with
  | nil => intro h; exact touches_refl _ _
  | cons c cs ih =>
    intro h
    rw [clap_parse_bundle]
    have hstep := clap_option_short_keeps env h c _FLAG_REQUIRE_NO_VAL
    cases hr : clap_option_short env h c _FLAG_REQUIRE_NO_VAL with
    | ret err h1 =>
      rw [hr] at hstep
      simp only
      split_ifs
      · exact touches_mono _ _ _ _ (fun j o _ hj => ⟨c, by simp, hj⟩) hstep
      · have hrest := ih h1
        cases hr2 : clap_parse_bundle env cs h1 with
        | ret err2 h2 =>
          rw [hr2] at hrest
          refine touches_trans _ _ _ _ _ _ hstep hrest
            (fun j o _ hj => ⟨c, by simp, hj⟩) ?_
          rintro j o o1 _ _ _ ⟨d, hd, hdj⟩
          refine ⟨d, by simp [hd], ?_⟩
          rw [← short_index_touches d h.options _ h1.options hstep]
          exact hdj
        | undefined => trivial
        | timeout => trivial
    | undefined => trivial
    | timeout => trivial

/-- A token is bare, too short, a short cluster or a long option. -/
theorem token_cases (tok : CString) :
    tok.head? ≠ some '-' ∨ tok = ['-'] ∨ tok = ['-', '-'] ∨
      (∃ c cs, c ≠ '-' ∧ tok = '-' :: c :: cs) ∨
      (∃ text, text ≠ [] ∧ tok = '-' :: '-' :: text) := by
  match tok with
  | [] => left; simp
  | c :: rest =>
    by_cases hc : c = '-'
    · subst hc
      match rest with
      | [] => right; left; rfl
      | d :: rest2 =>
        by_cases hd : d = '-'
        · subst hd
          match rest2 with
          | [] => right; right; left; rfl
          | e :: rest3 =>
            right; right; right; right
            exact ⟨e :: rest3, by simp, rfl⟩
        · right; right; right; left
          exact ⟨d, rest2, hd, rfl⟩
    · left; simpa using hc

theorem clap_parse_token_keeps (env : Env) (h : ClapHandler) (tok : CString) :
    Keeps (fun j o => Matches h.options tok j o) h (clap_parse_token env h tok) := by
  rcases token_cases tok with hb | rfl | rfl | ⟨c, cs, hc, rfl⟩ | ⟨text, htext, rfl⟩
  · rw [clap_parse_token_positional env h tok hb]
    refine keeps_mono _ _ h _ ?_ (clap_option_positional_keeps env h tok 0)
    intro j o _ hj
    unfold Matches
    rw [if_pos hb]
    exact hj
  · have : clap_parse_token env h ['-'] = .ret (-1) h := by simp [clap_parse_token]
    rw [this]; exact touches_refl _ _
  · have : clap_parse_token env h ['-', '-'] = .ret (-1) h := by simp [clap_parse_token]
    rw [this]; exact touches_refl _ _
  · have hm : ∀ j o, (∃ d ∈ c :: cs, short_index d h.options = some j) →
        Matches h.options ('-' :: c :: cs) j o := by
      intro j o hj
      unfold Matches
      rw [if_neg (by simp), if_pos (by simpa using hc)]
      exact hj
    cases cs with
    | nil =>
      rw [clap_parse_token_short env h c hc]
      refine keeps_mono _ _ h _ ?_ (clap_option_short_keeps env h c 0)
      intro j o _ hj
      exact hm j o ⟨c, by simp, hj⟩
    | cons d ds =>
      rw [clap_parse_token_bundle env h c d ds hc]
      refine keeps_mono _ _ h _ ?_ (clap_parse_bundle_keeps env (c :: d :: ds) h)
      intro j o _ hj
      exact hm j o hj
  · rw [clap_parse_token_long env h text htext]
    refine keeps_mono _ _ h _ ?_ (clap_option_long_keeps env h text 0)
    intro j o _ hj
    unfold Matches
    rw [if_neg (by simp), if_neg (by simp)]
    exact hj

theorem mem_drop_of_getElem? {α : Type} (l : List α) (n : Nat) (a : α) (h : l[n]? = some a) :
    a ∈ l.drop n := by
  have hlt : n < l.length := by
    rcases Nat.lt_or_ge n l.length with hlt | hge
    · exact hlt
    · rw [List.getElem?_eq_none hge] at h
      exact absurd h (by simp)
  rw [List.mem_iff_getElem?]
  exact ⟨0, by rw [List.getElem?_drop]; simpa using h⟩

theorem mem_drop_of_le {α : Type} (l : List α) (m n : Nat) (a : α) (hle : m ≤ n)
    (h : a ∈ l.drop n) : a ∈ l.drop m := by
  have : l.drop n = (l.drop m).drop (n - m) := by
    rw [List.drop_drop]; congr 1; omega
  rw [this] at h
  exact List.mem_of_mem_drop h

theorem clap_parse_loop_keeps (env : Env) (fuel : Nat) :
    ∀ h : ClapHandler,
      Keeps (fun j o => ∃ tok ∈ h.args.drop h.argv, Matches h.options tok j o) h
        (clap_parse_loop env fuel h) := by
  induction fuel with
  | zero => intro h; trivial
  | succ fuel ih =>
    intro h
    rw [clap_parse_loop]
    cases harg : h.args[h.argv]? with
    | none => exact touches_refl _ _
    | some arg =>
      simp only
      have hmem : arg ∈ h.args.drop h.argv := mem_drop_of_getElem? _ _ _ harg
      have hadv := clap_parse_token_advances env { h with argv := h.argv + 1 } arg
      have hstep := clap_parse_token_keeps env { h with argv := h.argv + 1 } arg
      cases hr : clap_parse_token env { h with argv := h.argv + 1 } arg with
      | ret err h1 =>
        rw [hr] at hstep hadv
        have hargs : h1.args = h.args := hadv.1
        have hle : h.argv + 1 ≤ h1.argv := hadv.2
        have hstep1 : Touches (fun j o => Matches h.options arg j o) h.options h1.options :=
          hstep
        simp only
        split_ifs
        · exact touches_mono _ _ _ _ (fun j o _ hj => ⟨arg, hmem, hj⟩) hstep1
        · have hrest := ih h1
          cases hr2 : clap_parse_loop env fuel h1 with
          | ret err2 h2 =>
            rw [hr2] at hrest
            refine touches_trans _ _ _ _ _ _ hstep1 hrest
              (fun j o _ hj => ⟨arg, hmem, hj⟩) ?_
            rintro j o o1 _ _ hs ⟨tok, htok, hm⟩
            refine ⟨tok, ?_, matches_touches _ _ _ tok j o o1 hstep1 hs hm⟩
            rw [hargs] at htok
            exact mem_drop_of_le _ _ _ _ (by omega) htok
          | undefined => trivial
          | timeout => trivial
      | undefined => trivial
      | timeout => trivial

/-- The function `clap_parse` keeps the shape of the table and writes to entries
that a token of `argv` behind the program name matches. -/
theorem clap_parse_keeps (env : Env) (h : ClapHandler) (argc : Int) (argv : List CString) :
    Keeps (fun j o => ∃ tok ∈ argv.drop 1, Matches h.options tok j o) h
      (clap_parse env h argc argv) := by
  have hscan : Keeps (fun j o => ∃ tok ∈ argv.drop 1, Matches h.options tok j o) h
      (clap_parse_scan env h argc argv) := by
    unfold clap_parse_scan
    simp only
    split_ifs
    · exact clap_parse_loop_keeps env _ { h with argc := argc, args := argv, argv := 1 }
    · exact touches_refl _ _
  unfold clap_parse
  cases hr : clap_parse_scan env h argc argv with
  | ret err h1 =>
    rw [hr] at hscan
    simp only
    split_ifs
    · exact hscan
    · rw [clap_parse_mandatory_eq]; exact hscan
  | undefined => trivial
  | timeout => trivial

/-- The positional matcher gives -2 when the table has no slot left, and
otherwise writes to the first slot whose `Set` bit is clear. -/
theorem clap_option_positional_from_slot_index (env : Env) (h : ClapHandler) (fl : Nat)
    (t : List ClapOption) (i : Nat) :
    (slot_index t = none ∧ clap_option_positional_from env h fl t i = .ret (-2) h) ∨
    ∃ k, slot_index t = some k ∧
      clap_option_positional_from env h fl t i =
        clap_option_set_value env h (i + k) (fl ||| _FLAG_OPT_POSITIONAL) := by
  induction t generalizing i with
  | nil => exact Or.inl ⟨rfl, rfl⟩
  | cons o t ih =>
    rw [clap_option_positional_from, slot_index]
    by_cases hend : o.type = CLAP_OPT_END
    · rw [if_pos hend, if_pos hend]
      exact Or.inl ⟨rfl, rfl⟩
    · rw [if_neg hend, if_neg hend]
      by_cases hm : o.type ≠ CLAP_OPT_GROUP ∧
          o.flags &&& CLAP_FLAG_POSITIONAL ≠ 0 ∧ o.flags &&& CLAP_FLAG_SET = 0
      · rw [if_pos hm, if_pos hm]
        exact Or.inr ⟨0, rfl, rfl⟩
      · rw [if_neg hm, if_neg hm]
        rcases ih (i + 1) with ⟨hk, hr⟩ | ⟨k, hk, hr⟩
        · exact Or.inl ⟨by rw [hk]; rfl, hr⟩
        · refine Or.inr ⟨k + 1, by rw [hk]; rfl, ?_⟩
          rw [hr]
          congr 1
          omega

theorem clap_option_positional_keeps_slot (env : Env) (h : ClapHandler) (tok : CString)
    (fl : Nat) :
    Keeps (fun j _ => slot_index h.options = some j) h
      (clap_option_positional env h tok fl) := by
  unfold clap_option_positional
  rcases clap_option_positional_from_slot_index env h fl h.options 0 with ⟨_, hr⟩ | ⟨k, hk, hr⟩
  · rw [hr]; exact touches_refl _ _
  · rw [hr, Nat.zero_add]
    exact clap_option_set_value_keeps env h k _ _ (fun _ _ => hk)

theorem clap_parse_bundle_keeps_matched (env : Env) (cs : List Char) :
    ∀ h : ClapHandler,
      Keeps (fun j _ => j ∈ bundle_matched env cs h) h (clap_parse_bundle env cs h) := by
  induction cs with
  | nil => intro h; exact touches_refl _ _
  | cons c cs ih =>
    intro h
    have hstep := clap_option_short_keeps env h c _FLAG_REQUIRE_NO_VAL
    have hm : bundle_matched env (c :: cs) h =
        (short_index c h.options).toList ++
          match clap_option_short env h c _FLAG_REQUIRE_NO_VAL with
          | .ret err h1 => if err ≠ 0 then [] else bundle_matched env cs h1
          | _ => [] := by rw [bundle_matched]
    rw [clap_parse_bundle]
    cases hr : clap_option_short env h c _FLAG_REQUIRE_NO_VAL with
    | ret err h1 =>
      rw [hr] at hstep hm
      simp only at hm ⊢
      have hfirst : ∀ (j : Nat) (o : ClapOption), h.options[j]? = some o →
          short_index c h.options = some j → j ∈ bundle_matched env (c :: cs) h := by
        intro j o _ hj
        rw [hm, hj]
        simp
      by_cases herr : err ≠ 0
      · rw [if_pos herr]
        exact touches_mono _ _ _ _ hfirst hstep
      · rw [if_neg herr]
        rw [if_neg herr] at hm
        have hrest := ih h1
        cases hr2 : clap_parse_bundle env cs h1 with
        | ret err2 h2 =>
          rw [hr2] at hrest
          refine touches_trans _ _ _ _ _ _ hstep hrest hfirst ?_
          intro j o o1 _ _ _ hj
          rw [hm]
          exact List.mem_append_right _ hj
        | undefined => trivial
        | timeout => trivial
    | undefined => trivial
    | timeout => trivial

theorem token_matched_positional (env : Env) (h : ClapHandler) (tok : CString)
    (hbare : tok.head? ≠ some '-') :
    token_matched env h tok = (slot_index h.options).toList := by
  unfold token_matched
  split
  · simp at hbare
  · rfl

theorem token_matched_short (env : Env) (h : ClapHandler) (c : Char) (hc : c ≠ '-') :
    token_matched env h ['-', c] = (short_index c h.options).toList := by
  simp [token_matched, hc]

theorem token_matched_bundle (env : Env) (h : ClapHandler) (c d : Char) (cs : List Char)
    (hc : c ≠ '-') :
    token_matched env h ('-' :: c :: d :: cs) = bundle_matched env (c :: d :: cs) h := by
  simp [token_matched, hc]

theorem token_matched_long (env : Env) (h : ClapHandler) (tok : CString) (hne : tok ≠ []) :
    token_matched env h ('-' :: '-' :: tok) = (long_index tok h.options).toList := by
  cases tok with
  | nil => exact absurd rfl hne
  | cons d ds =>
    have h2 : ¬ (ds.length + 1 + 1 + 1 < 2) := by omega
    have h3 : ¬ (ds.length + 1 + 1 + 1 < 3) := by omega
    simp [token_matched, h2, h3]

/-- One turn of the loop writes to entries that its token matches only. -/
theorem clap_parse_token_keeps_matched (env : Env) (h : ClapHandler) (tok : CString) :
    Keeps (fun j _ => j ∈ token_matched env h tok) h (clap_parse_token env h tok) := by
  rcases token_cases tok with hb | rfl | rfl | ⟨c, cs, hc, rfl⟩ | ⟨text, htext, rfl⟩
  · rw [clap_parse_token_positional env h tok hb, token_matched_positional env h tok hb]
    refine keeps_mono _ _ h _ ?_ (clap_option_positional_keeps_slot env h tok 0)
    intro j o _ hj
    rw [hj]
    simp
  · have : clap_parse_token env h ['-'] = .ret (-1) h := by simp [clap_parse_token]
    rw [this]; exact touches_refl _ _
  · have : clap_parse_token env h ['-', '-'] = .ret (-1) h := by simp [clap_parse_token]
    rw [this]; exact touches_refl _ _
  · cases cs with
    | nil =>
      rw [clap_parse_token_short env h c hc, token_matched_short env h c hc]
      refine keeps_mono _ _ h _ ?_ (clap_option_short_keeps env h c 0)
      intro j o _ hj
      rw [hj]
      simp
    | cons d ds =>
      rw [clap_parse_token_bundle env h c d ds hc, token_matched_bundle env h c d ds hc]
      exact clap_parse_bundle_keeps_matched env (c :: d :: ds) h
  · rw [clap_parse_token_long env h text htext, token_matched_long env h text htext]
    refine keeps_mono _ _ h _ ?_ (clap_option_long_keeps env h text 0)
    intro j o _ hj
    rw [hj]
    simp

theorem clap_parse_loop_keeps_matched (env : Env) (fuel : Nat) :
    ∀ h : ClapHandler,
      Keeps (fun j _ => ∃ p ∈ clap_parse_reads env fuel h, j ∈ token_matched env p.1 p.2) h
        (clap_parse_loop env fuel h) := by
  induction fuel with
  | zero => intro h; trivial
  | succ fuel ih =>
    intro h
    have hreads : clap_parse_reads env (fuel + 1) h =
        match h.args[h.argv]? with
        | none => []
        | some arg =>
          ({ h with argv := h.argv + 1 }, arg) ::
            match clap_parse_token env { h with argv := h.argv + 1 } arg with
            | .ret err h1 => if err ≠ 0 then [] else clap_parse_reads env fuel h1
            | _ => [] := by rw [clap_parse_reads]
    rw [clap_parse_loop]
    cases harg : h.args[h.argv]? with
    | none => exact touches_refl _ _
    | some arg =>
      rw [harg] at hreads
      simp only at hreads ⊢
      have hstep := clap_parse_token_keeps_matched env { h with argv := h.argv + 1 } arg
      cases hr : clap_parse_token env { h with argv := h.argv + 1 } arg with
      | ret err h1 =>
        rw [hr] at hstep hreads
        have hstep1 : Touches
            (fun j _ => j ∈ token_matched env { h with argv := h.argv + 1 } arg)
            h.options h1.options := hstep
        have hfirst : ∀ (j : Nat) (o : ClapOption), h.options[j]? = some o →
            j ∈ token_matched env { h with argv := h.argv + 1 } arg →
            ∃ p ∈ clap_parse_reads env (fuel + 1) h, j ∈ token_matched env p.1 p.2 := by
          intro j o _ hj
          exact ⟨({ h with argv := h.argv + 1 }, arg), by rw [hreads]; simp, hj⟩
        simp only at hreads ⊢
        by_cases herr : err ≠ 0
        · rw [if_pos herr]
          exact touches_mono _ _ _ _ hfirst hstep1
        · rw [if_neg herr]
          rw [if_neg herr] at hreads
          have hrest := ih h1
          cases hr2 : clap_parse_loop env fuel h1 with
          | ret err2 h2 =>
            rw [hr2] at hrest
            refine touches_trans _ _ _ _ _ _ hstep1 hrest hfirst ?_
            rintro j o o1 _ _ _ ⟨p, hp, hj⟩
            exact ⟨p, by rw [hreads]; exact List.mem_cons_of_mem _ hp, hj⟩
          | undefined => trivial
          | timeout => trivial
      | undefined => trivial
      | timeout => trivial

theorem mem_scan_matched (env : Env) (h : ClapHandler) (argc : Int) (argv : List CString)
    (j : Nat) :
    j ∈ scan_matched env h argc argv ↔
      ∃ p ∈ scan_reads env h argc argv, j ∈ token_matched env p.1 p.2 := by
  unfold scan_matched
  simp only [List.mem_flatten, List.mem_map]
  constructor
  · rintro ⟨l, ⟨p, hp, rfl⟩, hj⟩
    exact ⟨p, hp, hj⟩
  · rintro ⟨p, hp, hj⟩
    exact ⟨_, ⟨p, hp, rfl⟩, hj⟩

/-- The function `clap_parse` keeps the shape of the table and writes to entries
that a token matches at the turn of the loop that handles it. -/
theorem clap_parse_keeps_matched (env : Env) (h : ClapHandler) (argc : Int)
    (argv : List CString) :
    Keeps (fun j _ => j ∈ scan_matched env h argc argv) h (clap_parse env h argc argv) := by
  have hscan : Keeps (fun j _ => j ∈ scan_matched env h argc argv) h
      (clap_parse_scan env h argc argv) := by
    by_cases hc : argc > 1
    · have hl := clap_parse_loop_keeps_matched env (argv.length + 1)
        { h with argc := argc, args := argv, argv := 1 }
      have he : clap_parse_scan env h argc argv =
          clap_parse_loop env (argv.length + 1)
            { h with argc := argc, args := argv, argv := 1 } := by
        unfold clap_parse_scan
        simp only
        rw [if_pos hc]
      rw [he]
      refine keeps_mono _ _ _ _ ?_ hl
      intro j o _ hj
      rw [mem_scan_matched]
      unfold scan_reads
      rw [if_pos hc]
      exact hj
    · unfold clap_parse_scan
      simp only
      rw [if_neg hc]
      exact touches_refl _ _
  unfold clap_parse
  cases hr : clap_parse_scan env h argc argv with
  | ret err h1 =>
    rw [hr] at hscan
    simp only
    split_ifs
    · exact hscan
    · rw [clap_parse_mandatory_eq]; exact hscan
  | undefined => trivial
  | timeout => trivial

/-- C17: `clap_parse` does not run out of fuel, and when it returns the table has
the entries it had, in the same order and number: each entry has kept its kind,
short flag, long flag, help text and callback, and its `Mandatory`, `Callback`
and `Positional` attributes; its flag word is the one it had, or that with the
`Set` bit put on. An entry that differs from what it was, in storage or `Set`
bit, is an entry that a token of `argv` matched during the scan
(`scan_matched`): the token was read by the `while` loop, not taken as the value
of an option nor left behind the token on which the scan stopped, and the entry
is the one that the matcher called on the token found in the table as it was at
that turn: the first entry with the long flag of a long token, the first entry
with a character of a short cluster that the `for` loop reached, or the first
positional slot whose `Set` bit was clear, for a token that does not start with
`-`. Callbacks are functions of the handler that return a code: they write
nothing. -/
theorem clap_parse_shape (env : Env) (h : ClapHandler) (argc : Int) (argv : List CString) :
    clap_parse env h argc argv ≠ .timeout ∧
    ∀ code h1, clap_parse env h argc argv = .ret code h1 →
      h1.options.length = h.options.length ∧
      ∀ j o o1, h.options[j]? = some o → h1.options[j]? = some o1 →
        o1.type = o.type ∧ o1.short_option = o.short_option ∧
        o1.long_option = o.long_option ∧ o1.help = o.help ∧ o1.callback = o.callback ∧
        (IsMandatory o1 ↔ IsMandatory o) ∧ (HasCallback o1 ↔ HasCallback o) ∧
        (IsPositional o1 ↔ IsPositional o) ∧
        (o1.flags = o.flags ∨ o1.flags = o.flags ||| CLAP_FLAG_SET) ∧
        (o1 ≠ o → j ∈ scan_matched env h argc argv) := by
  refine ⟨clap_parse_ne_timeout env h argc argv, ?_⟩
  intro code h1 hr
  have hk := clap_parse_keeps_matched env h argc argv
  rw [hr] at hk
  refine ⟨hk.1, ?_⟩
  intro j o o1 hj hj1
  obtain ⟨hs, hm⟩ := hk.2 j o o1 hj hj1
  have hf := sameShape_flags o o1 hs
  exact ⟨hs.1, hs.2.1, hs.2.2.1, hs.2.2.2.1, hs.2.2.2.2.1, hf.1, hf.2.1, hf.2.2.1,
    hs.2.2.2.2.2, hm⟩

theorem clap_parse_shape_witness :
    clap_parse example_env (handler_of scenario_options) 4 scenario_argv =
      .ret 0 scenario_handler_parsed ∧
    scenario_handler_parsed.options.length = (handler_of scenario_options).options.length ∧
    scan_matched example_env (handler_of scenario_options) 4 scenario_argv = [0, 1] ∧
    scan_matched example_env (handler_of copy_options) 2 ["prog".toList, "a".toList] = [1] ∧
    1 ∈ scan_matched example_env (handler_of scenario_options) 4 scenario_argv :=
  ⟨by decide,
   ((clap_parse_shape example_env (handler_of scenario_options) 4 scenario_argv).2 0
      scenario_handler_parsed (by decide)).1,
   by decide, by decide,
   (((clap_parse_shape example_env (handler_of scenario_options) 4 scenario_argv).2 0
      scenario_handler_parsed (by decide)).2 1
      (entry CLAP_OPT_INT 'n' (some "count") (some (.int 0)) CLAP_FLAG_MANDATORY none)
      (entry CLAP_OPT_INT 'n' (some "count") (some (.int 5))
        (CLAP_FLAG_MANDATORY ||| CLAP_FLAG_SET) none)
      (by decide) (by decide)).2.2.2.2.2.2.2.2.2 (by decide)⟩

/-! ## The `Set` bit stays on -/

theorem clap_option_positional_from_filled (env : Env) (h : ClapHandler) (fl : Nat)
    (t : List ClapOption) (i : Nat) (hfull : SlotsFilled t) :
    clap_option_positional_from env h fl t i = .ret (-2) h := by
  induction t generalizing i with
  | nil => rfl
  | cons o t ih =>
    rw [clap_option_positional_from]
    by_cases hend : o.type = CLAP_OPT_END
    · rw [if_pos hend]
    · have hfull1 : ∀ p ∈ o :: descriptors t, IsSlot p → IsSet p := by
        rw [← descriptors_cons o t hend]; exact hfull
      have hno : ¬ (o.type ≠ CLAP_OPT_GROUP ∧
          o.flags &&& CLAP_FLAG_POSITIONAL ≠ 0 ∧ o.flags &&& CLAP_FLAG_SET = 0) := by
        rintro ⟨h1, h2, h3⟩
        exact hfull1 o (by simp) ⟨h1, h2⟩ h3
      rw [if_neg hend, if_neg hno]
      exact ih _ (fun p hp => hfull1 p (by simp [hp]))

theorem slotsFilled_touches (t : List ClapOption) :
    ∀ (P : Nat → ClapOption → Prop) (t1 : List ClapOption), Touches P t t1 →
      SlotsFilled t → SlotsFilled t1 := by
  induction t with
  | nil =>
    intro P t1 h _
    have : t1 = [] := List.length_eq_zero.mp h.1
    rw [this]
    intro o ho
    simp [descriptors] at ho
  | cons o t ih =>
    intro P t1 h hfull
    cases t1 with
    | nil => exact absurd h.1 (by simp)
    | cons o1 t1 =>
      obtain ⟨hs, ht⟩ := touches_cons P o o1 t t1 h
      by_cases hend : o.type = CLAP_OPT_END
      · have hend1 : o1.type = CLAP_OPT_END := hs.1.trans hend
        intro p hp
        rw [descriptors_cons_end o1 t1 hend1] at hp
        simp at hp
      · have hend1 : o1.type ≠ CLAP_OPT_END := fun e => hend (hs.1.symm.trans e)
        have hfull1 : ∀ p ∈ o :: descriptors t, IsSlot p → IsSet p := by
          rw [← descriptors_cons o t hend]; exact hfull
        have hrest : SlotsFilled t1 :=
          ih _ t1 ht (fun p hp => hfull1 p (by simp [hp]))
        have hf := sameShape_flags o o1 hs
        intro p hp hslot
        rw [descriptors_cons o1 t1 hend1] at hp
        rcases List.mem_cons.mp hp with rfl | hp
        · apply hf.2.2.2
          apply hfull1 o (by simp)
          refine ⟨?_, hf.2.2.1.mp hslot.2⟩
          have := hslot.1
          rw [hs.1] at this
          exact this
        · exact hrest p hp hslot

/-- With every positional slot set, the loop that reads a token not starting with
`-` returns -2 on it. -/
theorem clap_parse_loop_filled (env : Env) (fuel : Nat) :
    ∀ (h g : ClapHandler) (tok : CString), SlotsFilled h.options →
      (g, tok) ∈ clap_parse_reads env fuel h → tok.head? ≠ some '-' →
      clap_parse_loop env fuel h = .ret (-2) g := by
  induction fuel with
  | zero =>
    intro h g tok _ hmem _
    simp [clap_parse_reads] at hmem
  | succ fuel ih =>
    intro h g tok hfull hmem hbare
    rw [clap_parse_reads] at hmem
    rw [clap_parse_loop]
    cases harg : h.args[h.argv]? with
    | none => rw [harg] at hmem; simp at hmem
    | some arg =>
      rw [harg] at hmem
      simp only at hmem ⊢
      rcases List.mem_cons.mp hmem with heq | hrest
      · cases heq
        rw [clap_parse_token_positional env _ tok hbare]
        unfold clap_option_positional
        rw [clap_option_positional_from_filled env _ _ _ _ hfull]
        simp
      · have hkeep := clap_parse_token_keeps env { h with argv := h.argv + 1 } arg
        cases hr : clap_parse_token env { h with argv := h.argv + 1 } arg with
        | ret err h1 =>
          rw [hr] at hrest hkeep
          simp only at hrest ⊢
          by_cases herr : err ≠ 0
          · rw [if_pos herr] at hrest
            simp at hrest
          · rw [if_neg herr] at hrest
            rw [if_neg herr]
            exact ih h1 g tok (slotsFilled_touches _ _ _ hkeep hfull) hrest hbare
        | undefined => rw [hr] at hrest; simp at hrest
        | timeout => rw [hr] at hrest; simp at hrest

/-- C18: `clap_parse` never clears a `Set` bit: it does not run out of fuel, and
when it returns, every entry whose `Set` bit was on at the call has it on.
Hence, when a parse has returned with the `Set` bit on in every positional
slot, a second `clap_parse` on the handler it left, whose scan reaches a token
that does not start with `-`, returns -2 on that token. On the table with the
slots `src` and `dst`, the arguments `a.txt 7` give 0 the first time and -2 the
second time. -/
theorem clap_parse_set_persists (env : Env) (h : ClapHandler) (argc : Int)
    (argv : List CString) :
    clap_parse env h argc argv ≠ .timeout ∧
    (∀ code h1, clap_parse env h argc argv = .ret code h1 →
      (∀ (j : Nat) o o1, h.options[j]? = some o → h1.options[j]? = some o1 →
        IsSet o → IsSet o1) ∧
      (SlotsFilled h1.options → ∀ argc2 argv2 g tok,
        (g, tok) ∈ scan_reads env h1 argc2 argv2 → tok.head? ≠ some '-' →
        clap_parse env h1 argc2 argv2 = .ret (-2) g)) ∧
    (clap_parse example_env (handler_of copy_options) 3
        (["prog", "a.txt", "7"].map String.toList)).code = some 0 ∧
    (clap_parse example_env (handler_of copy_options) 3
        (["prog", "a.txt", "7"].map String.toList)).state.map
      (fun h1 => (decide (SlotsFilled h1.options),
        (clap_parse example_env h1 3 (["prog", "a.txt", "7"].map String.toList)).code)) =
      some (true, some (-2)) := by
  refine ⟨clap_parse_ne_timeout env h argc argv, ?_, by decide, by decide⟩
  intro code h1 hr
  have hk := clap_parse_keeps env h argc argv
  rw [hr] at hk
  refine ⟨?_, ?_⟩
  · intro j o o1 hj hj1 hset
    exact (sameShape_flags o o1 (hk.2 j o o1 hj hj1).1).2.2.2 hset
  · intro hfull argc2 argv2 g tok hmem hbare
    unfold scan_reads at hmem
    by_cases hargc : argc2 > 1
    · rw [if_pos hargc] at hmem
      have hloop := clap_parse_loop_filled env _
        { h1 with argc := argc2, args := argv2, argv := 1 } g tok hfull hmem hbare
      unfold clap_parse clap_parse_scan
      simp only
      rw [if_pos hargc, hloop]
      simp
    · rw [if_neg hargc] at hmem
      simp at hmem

theorem clap_parse_set_persists_witness :
    clap_parse example_env scenario_handler_parsed 2 (["prog", "-v"].map String.toList) =
      .ret 0 { scenario_handler_parsed with
        options :=
          [ entry CLAP_OPT_BOOL 'v' (some "verbose") (some (.bool false)) CLAP_FLAG_SET none,
            entry CLAP_OPT_INT 'n' (some "count") (some (.int 5))
              (CLAP_FLAG_MANDATORY ||| CLAP_FLAG_SET) none,
            CLAP_END ],
        argc := 2, args := ["prog", "-v"].map String.toList, argv := 2 } ∧
    IsSet (entry CLAP_OPT_BOOL 'v' (some "verbose") (some (.bool true)) CLAP_FLAG_SET none) ∧
    IsSet (entry CLAP_OPT_BOOL 'v' (some "verbose") (some (.bool false)) CLAP_FLAG_SET none) ∧
    clap_parse example_env (handler_of scenario_options) 4 scenario_argv =
      .ret 0 scenario_handler_parsed ∧
    clap_parse example_env scenario_handler_parsed 2 (["prog", "x"].map String.toList) =
      .ret (-2) { scenario_handler_parsed with
        argc := 2, args := ["prog", "x"].map String.toList, argv := 2 } :=
  ⟨by decide, by decide,
   ((clap_parse_set_persists example_env scenario_handler_parsed 2
      (["prog", "-v"].map String.toList)).2.1 0
      { scenario_handler_parsed with
        options :=
          [ entry CLAP_OPT_BOOL 'v' (some "verbose") (some (.bool false)) CLAP_FLAG_SET none,
            entry CLAP_OPT_INT 'n' (some "count") (some (.int 5))
              (CLAP_FLAG_MANDATORY ||| CLAP_FLAG_SET) none,
            CLAP_END ],
        argc := 2, args := ["prog", "-v"].map String.toList, argv := 2 }
      (by decide)).1 0
      (entry CLAP_OPT_BOOL 'v' (some "verbose") (some (.bool true)) CLAP_FLAG_SET none)
      (entry CLAP_OPT_BOOL 'v' (some "verbose") (some (.bool false)) CLAP_FLAG_SET none)
      (by decide) (by decide) (by decide),
   by decide,
   ((clap_parse_set_persists example_env (handler_of scenario_options) 4 scenario_argv).2.1 0
      scenario_handler_parsed (by decide)).2 (by decide) 2 (["prog", "x"].map String.toList)
      { scenario_handler_parsed with
        argc := 2, args := ["prog", "x"].map String.toList, argv := 2 }
      "x".toList (by decide) (by decide)⟩

/-! ## A mandatory option that is not supplied -/

theorem clap_parse_scan_keeps (env : Env) (h : ClapHandler) (argc : Int)
    (argv : List CString) :
    Keeps (fun j o => ∃ tok ∈ argv.drop 1, Matches h.options tok j o) h
      (clap_parse_scan env h argc argv) := by
  unfold clap_parse_scan
  simp only
  split_ifs
  · exact clap_parse_loop_keeps env _ { h with argc := argc, args := argv, argv := 1 }
  · exact touches_refl _ _

theorem mem_descriptors_of_index (t : List ClapOption) :
    ∀ (j : Nat) (o : ClapOption),
      (∀ i, i ≤ j → ∀ p, t[i]? = some p → p.type ≠ CLAP_OPT_END) → t[j]? = some o →
      o ∈ descriptors t := by
  induction t with
  | nil => intro j o _ hj; simp at hj
  | cons p t ih =>
    intro j o hfront hj
    have hp : p.type ≠ CLAP_OPT_END := hfront 0 (Nat.zero_le _) p (by simp)
    rw [descriptors_cons p t hp]
    cases j with
    | zero =>
      simp at hj
      simp [hj]
    | succ j =>
      have := ih j o (fun i hi q hq => hfront (i + 1) (by omega) q (by simpa using hq))
        (by simpa using hj)
      simp [this]

theorem isHelp_flags (o : ClapOption) (h : IsHelp o) :
    HasCallback o ∧ ¬ IsPositional o ∧
      (o.flags ||| CLAP_FLAG_SET) &&& CLAP_FLAG_CALLBACK ≠ 0 := by
  obtain ⟨_, _, _, _, hf⟩ := h
  unfold HasCallback IsPositional
  rcases hf with hf | hf <;> rw [hf] <;> decide

theorem isHelp_sameShape (o o1 : ClapOption) (hs : SameShape o o1) (h : IsHelp o) :
    IsHelp o1 := by
  obtain ⟨a1, a2, a3, a4, a5⟩ := h
  obtain ⟨b1, b2, b3, _, b5, b6⟩ := hs
  refine ⟨b1.trans a1, b2.trans a2, b3.trans a3, b5.trans a4, ?_⟩
  rcases a5 with a5 | a5 <;> rcases b6 with b6 | b6
  · exact Or.inl (b6.trans a5)
  · exact Or.inr (by rw [b6, a5])
  · exact Or.inr (b6.trans a5)
  · exact Or.inr (by rw [b6, a5, or_set_idem])

theorem descriptors_touches (t : List ClapOption) :
    ∀ (P : Nat → ClapOption → Prop) (t1 : List ClapOption), Touches P t t1 →
      ∀ o1 ∈ descriptors t1, ∃ o ∈ descriptors t, SameShape o o1 := by
  induction t with
  | nil =>
    intro P t1 h o1 ho1
    have : t1 = [] := List.length_eq_zero.mp h.1
    rw [this] at ho1
    simp [descriptors] at ho1
  | cons o t ih =>
    intro P t1 h p1 hp1
    cases t1 with
    | nil => exact absurd h.1 (by simp)
    | cons o1 t1 =>
      obtain ⟨hs, ht⟩ := touches_cons P o o1 t t1 h
      by_cases hend : o.type = CLAP_OPT_END
      · rw [descriptors_cons_end o1 t1 (hs.1.trans hend)] at hp1
        simp at hp1
      · have hend1 : o1.type ≠ CLAP_OPT_END := fun e => hend (hs.1.symm.trans e)
        rw [descriptors_cons o1 t1 hend1] at hp1
        rw [descriptors_cons o t hend]
        rcases List.mem_cons.mp hp1 with rfl | hp1
        · exact ⟨o, by simp, hs⟩
        · obtain ⟨p, hp, hsp⟩ := ih _ t1 ht p1 hp1
          exact ⟨p, by simp [hp], hsp⟩

theorem helpOnly_touches (P : Nat → ClapOption → Prop) (t t1 : List ClapOption)
    (h : Touches P t t1) (ht : HelpOnly t) : HelpOnly t1 := by
  intro o1 ho1 hcb
  obtain ⟨o, ho, hs⟩ := descriptors_touches t P t1 h o1 ho1
  exact isHelp_sameShape o o1 hs (ht o ho ((sameShape_flags o o1 hs).2.1.mp hcb))

/-- What `clap_usage` reads of a descriptor is its shape. -/
theorem sameShape_bits (o o1 : ClapOption) (hs : SameShape o o1) :
    o1.flags &&& CLAP_FLAG_MANDATORY = o.flags &&& CLAP_FLAG_MANDATORY ∧
    o1.flags &&& CLAP_FLAG_POSITIONAL = o.flags &&& CLAP_FLAG_POSITIONAL := by
  rcases hs.2.2.2.2.2 with hf | hf
  · rw [hf]; exact ⟨rfl, rfl⟩
  · rw [hf, or_set_and_mandatory, or_set_and_positional]; exact ⟨rfl, rfl⟩

theorem clap_print_option_in_list_sameShape (o o1 : ClapOption) (hs : SameShape o o1) :
    clap_print_option_in_list o1 = clap_print_option_in_list o := by
  unfold clap_print_option_in_list
  rw [(sameShape_bits o o1 hs).2, hs.2.1, hs.2.2.1]

theorem clap_print_option_sameShape (o o1 : ClapOption) (hs : SameShape o o1) :
    clap_print_option o1 = clap_print_option o := by
  unfold clap_print_option
  rw [(sameShape_bits o o1 hs).2, hs.2.2.1]

theorem clap_usage_list_touches (t : List ClapOption) :
    ∀ (P : Nat → ClapOption → Prop) (t1 : List ClapOption) (n p : Nat), Touches P t t1 →
      clap_usage_list t1 n p = clap_usage_list t n p := by
  induction t with
  | nil =>
    intro P t1 n p h
    have : t1 = [] := List.length_eq_zero.mp h.1
    rw [this]
  | cons o t ih =>
    intro P t1 n p h
    cases t1 with
    | nil => exact absurd h.1 (by simp)
    | cons o1 t1 =>
      obtain ⟨hs, ht⟩ := touches_cons P o o1 t t1 h
      simp only [clap_usage_list, hs.1, (sameShape_bits o o1 hs).1, (sameShape_bits o o1 hs).2,
        clap_print_option_in_list_sameShape o o1 hs, ih _ t1 _ _ ht]

theorem clap_usage_positionals_touches (t : List ClapOption) :
    ∀ (P : Nat → ClapOption → Prop) (t1 : List ClapOption) (p : Nat), Touches P t t1 →
      clap_usage_positionals t1 p = clap_usage_positionals t p := by
  induction t with
  | nil =>
    intro P t1 p h
    have : t1 = [] := List.length_eq_zero.mp h.1
    rw [this]
  | cons o t ih =>
    intro P t1 p h
    cases t1 with
    | nil => exact absurd h.1 (by simp)
    | cons o1 t1 =>
      obtain ⟨hs, ht⟩ := touches_cons P o o1 t t1 h
      simp only [clap_usage_positionals, hs.1, (sameShape_bits o o1 hs).2,
        clap_print_option_sameShape o o1 hs, ih _ t1 _ ht]

theorem clap_usage_others_touches (t : List ClapOption) :
    ∀ (P : Nat → ClapOption → Prop) (t1 : List ClapOption), Touches P t t1 →
      clap_usage_others t1 = clap_usage_others t := by
  induction t with
  | nil =>
    intro P t1 h
    have : t1 = [] := List.length_eq_zero.mp h.1
    rw [this]
  | cons o t ih =>
    intro P t1 h
    cases t1 with
    | nil => exact absurd h.1 (by simp)
    | cons o1 t1 =>
      obtain ⟨hs, ht⟩ := touches_cons P o o1 t t1 h
      simp only [clap_usage_others, hs.1, (sameShape_bits o o1 hs).2, hs.2.2.2.1,
        clap_print_option_sameShape o o1 hs, ih _ t1 ht]

/-- Whether `clap_usage` is defined depends on the shape of the table only. -/
theorem clap_usage_touches (P : Nat → ClapOption → Prop) (h h1 : ClapHandler)
    (ht : Touches P h.options h1.options) : clap_usage h1 = clap_usage h := by
  unfold clap_usage
  simp only [clap_usage_list_touches h.options P h1.options _ _ ht,
    clap_usage_positionals_touches h.options P h1.options _ ht,
    clap_usage_others_touches h.options P h1.options ht]

theorem clap_usage_write (h : ClapHandler) (i : Nat) (o o1 : ClapOption)
    (hget : h.options[i]? = some o) (hs : SameShape o o1) :
    clap_usage (write_option h i o1) = clap_usage h :=
  clap_usage_touches (fun _ _ => True) h (write_option h i o1)
    (touches_set (fun _ _ => True) h.options i o o1 hget hs trivial)

/-- On the help entry `clap_option_set_value` puts the `Set` bit on and calls
`clap_help_cb`: it returns -4 when `clap_usage` is defined on the table, and has
no defined behaviour otherwise. -/
theorem clap_option_set_value_help (env : Env) (h : ClapHandler) (i fl : Nat)
    (o : ClapOption) (hget : h.options[i]? = some o) (hhelp : IsHelp o) :
    clap_option_set_value env h i fl =
      match clap_usage h with
      | none => .undefined
      | some _ => .ret (-4) (write_option h i { o with flags := o.flags ||| CLAP_FLAG_SET }) := by
  have hf := isHelp_flags o hhelp
  unfold clap_option_set_value
  rw [hget]
  simp only
  rw [if_neg (fun hc => hf.2.1 hc.2)]
  have hstore : clap_option_store env h o fl = .done h o := by
    unfold clap_option_store
    rw [if_neg (by rw [hhelp.1]; decide), if_neg (by rw [hhelp.1]; decide)]
  rw [hstore]
  simp only
  rw [if_pos hf.2.2, hhelp.2.2.2.1]
  simp only
  unfold return_callback call_callback clap_help_cb
  rw [if_pos rfl, clap_usage_write h i o
    { o with flags := o.flags ||| CLAP_FLAG_SET, callback := some clap_help_cb_ptr } hget
    ⟨rfl, rfl, rfl, rfl, hhelp.2.2.2.1.symm, Or.inr rfl⟩]
  cases clap_usage h <;> rfl

/-- On a descriptor without callback `clap_option_set_value` returns 0 or -3. -/
theorem clap_option_set_value_plain (env : Env) (h : ClapHandler) (i fl : Nat)
    (o : ClapOption) (code : Int) (h1 : ClapHandler) (hget : h.options[i]? = some o)
    (hncb : ¬ HasCallback o) (hr : clap_option_set_value env h i fl = .ret code h1) :
    code = 0 ∨ code = -3 := by
  unfold clap_option_set_value at hr
  rw [hget] at hr
  simp only at hr
  split_ifs at hr with hguard
  · cases hr; exact Or.inr rfl
  · cases hst : clap_option_store env h o fl with
    | undefined => rw [hst] at hr; cases hr
    | error h2 o2 => rw [hst] at hr; cases hr; exact Or.inr rfl
    | done h2 o2 =>
      rw [hst] at hr
      simp only at hr
      have ho := (clap_option_store_shape env h o fl h2 o2 (Or.inl hst)).2
      have hfl : o2.flags = o.flags := by rw [ho]
      have hno : ¬ ((o2.flags ||| CLAP_FLAG_SET) &&& CLAP_FLAG_CALLBACK ≠ 0) := by
        rw [or_set_and_callback, hfl]; exact hncb
      rw [if_neg hno] at hr
      cases hr
      exact Or.inl rfl

/-- With no other callback in the table than `clap_help_cb`,
`clap_option_set_value` returns 0, -3 or -4, and -4 on a help entry only. -/
theorem clap_option_set_value_code (env : Env) (h : ClapHandler) (i fl : Nat)
    (o : ClapOption) (code : Int) (h1 : ClapHandler)
    (hget : h.options[i]? = some o) (ho : HasCallback o → IsHelp o)
    (hr : clap_option_set_value env h i fl = .ret code h1) :
    (code = 0 ∨ code = -3 ∨ code = -4) ∧ (code = -4 ↔ IsHelp o) := by
  by_cases hcb : HasCallback o
  · have hhelp := ho hcb
    rw [clap_option_set_value_help env h i fl o hget hhelp] at hr
    cases hu : clap_usage h with
    | none => rw [hu] at hr; cases hr
    | some u =>
      rw [hu] at hr
      cases hr
      exact ⟨Or.inr (Or.inr rfl), fun _ => hhelp, fun _ => rfl⟩
  · have := clap_option_set_value_plain env h i fl o code h1 hget hcb hr
    refine ⟨by rcases this with e | e <;> simp [e], ?_⟩
    constructor
    · intro e
      rcases this with e1 | e1 <;> rw [e1] at e <;> exact absurd e (by decide)
    · intro hhelp
      exact absurd (isHelp_flags o hhelp).1 hcb

theorem mem_descriptors_short (c : Char) (t : List ClapOption) (k : Nat) (o : ClapOption)
    (hk : short_index c t = some k) (hget : t[k]? = some o) :
    o ∈ descriptors t ∧ o.type ≠ CLAP_OPT_GROUP ∧ o.short_option = c := by
  obtain ⟨p, hp, h1, h2, h3⟩ := short_index_some c t k hk
  rw [hget] at hp
  cases hp
  exact ⟨h1, h2, h3⟩

theorem mem_descriptors_long (text : CString) (t : List ClapOption) (k : Nat) (o : ClapOption)
    (hk : long_index text t = some k) (hget : t[k]? = some o) :
    o ∈ descriptors t ∧ o.type ≠ CLAP_OPT_GROUP ∧ long_flag_is text o = true := by
  obtain ⟨p, hp, h1, h2, h3⟩ := long_index_some text t k hk
  rw [hget] at hp
  cases hp
  exact ⟨h1, h2, h3⟩

theorem clap_option_short_code (env : Env) (h : ClapHandler) (c : Char) (code : Int)
    (h1 : ClapHandler)
    (ht : HelpOnly h.options) (hr : clap_option_short env h c 0 = .ret code h1) :
    (code = 0 ∨ code = -2 ∨ code = -3 ∨ code = -4) ∧
    (code = -4 ↔ ∃ k o, short_index c h.options = some k ∧ h.options[k]? = some o ∧
      IsHelp o) := by
  unfold clap_option_short at hr
  rcases clap_option_short_from_index env h c 0 h.options 0 with ⟨hk, hx⟩ | ⟨k, o, hk, hget, hx⟩
  · rw [hx] at hr
    cases hr
    refine ⟨Or.inr (Or.inl rfl), fun e => absurd e (by decide), ?_⟩
    rintro ⟨k, o, hk2, _, _⟩
    rw [hk] at hk2
    cases hk2
  · rw [hx, if_neg (fun hc => hc.1 (by decide)), Nat.zero_add] at hr
    have hmem := (mem_descriptors_short c h.options k o hk hget).1
    obtain ⟨hc, hiff⟩ := clap_option_set_value_code env h k 0 o code h1 hget
      (ht o hmem) hr
    refine ⟨by rcases hc with e | e | e <;> simp [e], hiff.trans ?_⟩
    constructor
    · intro hh; exact ⟨k, o, hk, hget, hh⟩
    · rintro ⟨k2, o2, hk2, hget2, hh⟩
      rw [hk] at hk2
      cases hk2
      rw [hget] at hget2
      cases hget2
      exact hh

theorem clap_option_short_bundled_code (env : Env) (h : ClapHandler) (c : Char) (code : Int)
    (h1 : ClapHandler) (ht : HelpOnly h.options)
    (hr : clap_option_short env h c _FLAG_REQUIRE_NO_VAL = .ret code h1) :
    code = 0 ∨ code = -2 ∨ code = -3 := by
  unfold clap_option_short at hr
  rcases clap_option_short_from_index env h c _FLAG_REQUIRE_NO_VAL h.options 0
    with ⟨_, hx⟩ | ⟨k, o, hk, hget, hx⟩
  · rw [hx] at hr
    cases hr
    exact Or.inr (Or.inl rfl)
  · rw [hx, Nat.zero_add] at hr
    split_ifs at hr with hrej
    · cases hr
      exact Or.inr (Or.inl rfl)
    · have hbool : o.type = CLAP_OPT_BOOL := by
        by_contra hne
        exact hrej ⟨by decide, Or.inl hne⟩
      have hmem := (mem_descriptors_short c h.options k o hk hget).1
      have hncb : ¬ HasCallback o := by
        intro hcb
        have := (ht o hmem hcb).1
        rw [hbool] at this
        exact absurd this (by decide)
      rcases clap_option_set_value_plain env h k 0 o code h1 hget hncb hr with e | e
      · exact Or.inl e
      · exact Or.inr (Or.inr e)

theorem clap_parse_bundle_code (env : Env) (cs : List Char) :
    ∀ (h : ClapHandler) (code : Int) (h1 : ClapHandler), HelpOnly h.options →
      clap_parse_bundle env cs h = .ret code h1 → code = 0 ∨ code = -2 ∨ code = -3 := by
  induction cs with
  | nil =>
    intro h code h1 _ hr
    rw [clap_parse_bundle] at hr
    cases hr
    exact Or.inl rfl
  | cons c cs ih =>
    intro h code h1 ht hr
    rw [clap_parse_bundle] at hr
    have hkeep := clap_option_short_keeps env h c _FLAG_REQUIRE_NO_VAL
    cases hs : clap_option_short env h c _FLAG_REQUIRE_NO_VAL with
    | ret err h2 =>
      rw [hs] at hr hkeep
      simp only at hr
      split_ifs at hr with herr
      · cases hr
        exact clap_option_short_bundled_code env h c _ _ ht hs
      · exact ih h2 code h1 (helpOnly_touches _ _ _ hkeep ht) hr
    | undefined => rw [hs] at hr; cases hr
    | timeout => rw [hs] at hr; cases hr

theorem clap_option_long_code (env : Env) (h : ClapHandler) (text : CString) (code : Int)
    (h1 : ClapHandler)
    (ht : HelpOnly h.options) (hr : clap_option_long env h text 0 = .ret code h1) :
    (code = 0 ∨ code = -2 ∨ code = -3 ∨ code = -4) ∧
    (code = -4 ↔ ∃ k o, long_index text h.options = some k ∧ h.options[k]? = some o ∧
      IsHelp o) := by
  unfold clap_option_long at hr
  rcases clap_option_long_from_index env h text
      (if strchr_found '=' text then 0 ||| _FLAG_LONG_OPT_WITH_VALUE else 0) h.options 0
    with hx | ⟨hk, hx⟩ | ⟨k, hk, hx⟩
  · rw [hx] at hr
    cases hr
  · rw [hx] at hr
    cases hr
    refine ⟨Or.inr (Or.inl rfl), fun e => absurd e (by decide), ?_⟩
    rintro ⟨k, o, hk2, _, _⟩
    rw [hk] at hk2
    cases hk2
  · rw [hx, Nat.zero_add] at hr
    obtain ⟨o, hget, hmem, _, _⟩ := long_index_some text h.options k hk
    obtain ⟨hc, hiff⟩ := clap_option_set_value_code env h k _ o code h1 hget
      (ht o hmem) hr
    refine ⟨by rcases hc with e | e | e <;> simp [e], hiff.trans ?_⟩
    constructor
    · intro hh; exact ⟨k, o, hk, hget, hh⟩
    · rintro ⟨k2, o2, hk2, hget2, hh⟩
      rw [hk] at hk2
      cases hk2
      rw [hget] at hget2
      cases hget2
      exact hh

theorem clap_option_positional_from_slot (env : Env) (h : ClapHandler) (fl : Nat)
    (t : List ClapOption) (i : Nat) :
    clap_option_positional_from env h fl t i = .ret (-2) h ∨
    ∃ k o, t[k]? = some o ∧ o ∈ descriptors t ∧ IsSlot o ∧ ¬ IsSet o ∧
      clap_option_positional_from env h fl t i =
        clap_option_set_value env h (i + k) (fl ||| _FLAG_OPT_POSITIONAL) := by
  induction t generalizing i with
  | nil => exact Or.inl rfl
  | cons o t ih =>
    rw [clap_option_positional_from]
    by_cases hend : o.type = CLAP_OPT_END
    · rw [if_pos hend]
      exact Or.inl rfl
    · rw [if_neg hend, descriptors_cons o t hend]
      split_ifs with hm
      · exact Or.inr ⟨0, o, by simp, by simp, ⟨hm.1, hm.2.1⟩, fun hset => hset hm.2.2, rfl⟩
      · rcases ih (i + 1) with hr | ⟨k, p, hk, hmem, hp1, hp2, hr⟩
        · exact Or.inl hr
        · refine Or.inr ⟨k + 1, p, by simpa using hk, by simp [hmem], hp1, hp2, ?_⟩
          rw [hr]
          congr 1
          omega

theorem clap_option_positional_code (env : Env) (h : ClapHandler) (tok : CString)
    (code : Int) (h1 : ClapHandler) (ht : HelpOnly h.options)
    (hr : clap_option_positional env h tok 0 = .ret code h1) :
    code = 0 ∨ code = -2 ∨ code = -3 := by
  unfold clap_option_positional at hr
  rcases clap_option_positional_from_slot env h 0 h.options 0
    with hx | ⟨k, o, hget, hmem, hslot, _, hx⟩
  · rw [hx] at hr
    cases hr
    exact Or.inr (Or.inl rfl)
  · rw [hx, Nat.zero_add] at hr
    have hncb : ¬ HasCallback o := by
      intro hcb
      exact (isHelp_flags o (ht o hmem hcb)).2.1 hslot.2
    rcases clap_option_set_value_plain env h k _ o code h1 hget hncb hr with e | e
    · exact Or.inl e
    · exact Or.inr (Or.inr e)

theorem matchesHelp_iff (t : List ClapOption) (tok : CString) :
    MatchesHelp t tok ↔ ∃ o, help_match t tok = some o ∧ IsHelp o := by
  unfold MatchesHelp
  cases help_match t tok with
  | none => simp
  | some o => simp

theorem help_match_short (t : List ClapOption) :
    help_match t ['-', 'h'] = (short_index 'h' t).bind (fun j => t[j]?) := by
  simp [help_match]

theorem help_match_long (t : List ClapOption) (text : CString) :
    help_match t ('-' :: '-' :: text) = (long_index text t).bind (fun j => t[j]?) := by
  simp [help_match]

theorem help_match_none (t : List ClapOption) (tok : CString) (h1 : tok ≠ ['-', 'h'])
    (h2 : tok.take 2 ≠ ['-', '-']) : help_match t tok = none := by
  simp [help_match, h1, h2]

theorem bind_index_iff (t : List ClapOption) (x : Option Nat) :
    (∃ o, x.bind (fun j => t[j]?) = some o ∧ IsHelp o) ↔
      ∃ k o, x = some k ∧ t[k]? = some o ∧ IsHelp o := by
  cases x with
  | none => simp
  | some k => simp

theorem isHelp_not_long_empty (o : ClapOption) (h : IsHelp o) : long_flag_is [] o = false := by
  unfold long_flag_is
  rw [h.2.2.1]
  decide

/-- With no other callback in the table than `clap_help_cb`, a token
gives 0, -1, -2, -3 or -4, and -4 exactly when it is `-h` or a long token matched
to a help entry. -/
theorem clap_parse_token_code (env : Env) (h : ClapHandler) (tok : CString) (code : Int)
    (h1 : ClapHandler)
    (ht : HelpOnly h.options) (hr : clap_parse_token env h tok = .ret code h1) :
    (code = 0 ∨ code = -1 ∨ code = -2 ∨ code = -3 ∨ code = -4) ∧
    (code = -4 ↔ MatchesHelp h.options tok) := by
  rw [matchesHelp_iff]
  rcases token_cases tok with hb | rfl | rfl | ⟨c, cs, hc, rfl⟩ | ⟨text, htext, rfl⟩
  · rw [clap_parse_token_positional env h tok hb] at hr
    have hc := clap_option_positional_code env h tok code h1 ht hr
    have hnone : help_match h.options tok = none := by
      apply help_match_none
      · rintro rfl; simp at hb
      · intro e
        cases tok with
        | nil => simp at e
        | cons a rest =>
          cases rest with
          | nil => simp at e
          | cons b rest2 =>
            simp at e
            simp [e.1] at hb
    rw [hnone]
    refine ⟨by rcases hc with e | e | e <;> simp [e], ?_⟩
    constructor
    · intro e; rcases hc with e1 | e1 | e1 <;> rw [e1] at e <;> exact absurd e (by decide)
    · rintro ⟨o, ho, _⟩; cases ho
  · have : clap_parse_token env h ['-'] = .ret (-1) h := by simp [clap_parse_token]
    rw [this] at hr
    cases hr
    rw [help_match_none _ _ (by decide) (by decide)]
    refine ⟨Or.inr (Or.inl rfl), fun e => absurd e (by decide), ?_⟩
    rintro ⟨o, ho, _⟩; cases ho
  · have : clap_parse_token env h ['-', '-'] = .ret (-1) h := by simp [clap_parse_token]
    rw [this] at hr
    cases hr
    refine ⟨Or.inr (Or.inl rfl), fun e => absurd e (by decide), ?_⟩
    rw [help_match_long, bind_index_iff]
    rintro ⟨k, o, hk, hget, hh⟩
    have := (mem_descriptors_long [] h.options k o hk hget).2.2
    rw [isHelp_not_long_empty o hh] at this
    cases this
  · cases cs with
    | nil =>
      rw [clap_parse_token_short env h c hc] at hr
      obtain ⟨hcode, hiff⟩ := clap_option_short_code env h c code h1 ht hr
      refine ⟨by rcases hcode with e | e | e | e <;> simp [e], hiff.trans ?_⟩
      by_cases hch : c = 'h'
      · subst hch
        rw [help_match_short, bind_index_iff]
      · rw [help_match_none _ _ (by simp [hch]) (by simp [hc])]
        constructor
        · rintro ⟨k, o, hk, hget, hh⟩
          have := (mem_descriptors_short c h.options k o hk hget).2.2
          rw [hh.2.1] at this
          exact absurd this.symm hch
        · rintro ⟨o, ho, _⟩; cases ho
    | cons d ds =>
      rw [clap_parse_token_bundle env h c d ds hc] at hr
      have hcode := clap_parse_bundle_code env _ h code h1 ht hr
      rw [help_match_none _ _ (by simp) (by simp [hc])]
      refine ⟨by rcases hcode with e | e | e <;> simp [e], ?_⟩
      constructor
      · intro e; rcases hcode with e1 | e1 | e1 <;> rw [e1] at e <;> exact absurd e (by decide)
      · rintro ⟨o, ho, _⟩; cases ho
  · rw [clap_parse_token_long env h text htext] at hr
    obtain ⟨hcode, hiff⟩ := clap_option_long_code env h text code h1 ht hr
    refine ⟨by rcases hcode with e | e | e | e <;> simp [e], hiff.trans ?_⟩
    rw [help_match_long, bind_index_iff]

theorem clap_parse_loop_code (env : Env) (fuel : Nat) :
    ∀ (h : ClapHandler) (code : Int) (h1 : ClapHandler), HelpOnly h.options →
      clap_parse_loop env fuel h = .ret code h1 →
      (code = 0 ∨ code = -1 ∨ code = -2 ∨ code = -3 ∨ code = -4) ∧
      (code = -4 ↔ ∃ p ∈ clap_parse_reads env fuel h, MatchesHelp p.1.options p.2) := by
  induction fuel with
  | zero =>
    intro h code h1 _ hr
    rw [clap_parse_loop] at hr
    cases hr
  | succ fuel ih =>
    intro h code h1 ht hr
    rw [clap_parse_loop] at hr
    rw [clap_parse_reads]
    cases harg : h.args[h.argv]? with
    | none =>
      rw [harg] at hr
      cases hr
      exact ⟨Or.inl rfl, fun e => absurd e (by decide), by simp⟩
    | some arg =>
      rw [harg] at hr
      simp only at hr ⊢
      have hkeep := clap_parse_token_keeps env { h with argv := h.argv + 1 } arg
      cases htok : clap_parse_token env { h with argv := h.argv + 1 } arg with
      | ret err h2 =>
        rw [htok] at hr hkeep
        simp only at hr ⊢
        obtain ⟨hcode, hiff⟩ := clap_parse_token_code env { h with argv := h.argv + 1 } arg
          err h2 ht htok
        by_cases herr : err ≠ 0
        · rw [if_pos herr] at hr
          rw [if_pos herr]
          cases hr
          refine ⟨hcode, hiff.trans ?_⟩
          simp
        · rw [if_neg herr] at hr
          rw [if_neg herr]
          have hz : err = 0 := Classical.not_not.mp herr
          have hnot : ¬ MatchesHelp h.options arg := by
            intro hm
            have := hiff.mpr hm
            rw [hz] at this
            exact absurd this (by decide)
          obtain ⟨hcode2, hiff2⟩ := ih h2 code h1 (helpOnly_touches _ _ _ hkeep ht) hr
          refine ⟨hcode2, hiff2.trans ?_⟩
          constructor
          · rintro ⟨p, hp, hm⟩
            exact ⟨p, List.mem_cons_of_mem _ hp, hm⟩
          · rintro ⟨p, hp, hm⟩
            rcases List.mem_cons.mp hp with rfl | hp
            · exact absurd hm hnot
            · exact ⟨p, hp, hm⟩
      | undefined => rw [htok] at hr; cases hr
      | timeout => rw [htok] at hr; cases hr

/-- C11 (amended): take a table whose only descriptors with the attribute
`Callback` are entries `CLAP_HELP()`; their callback is the function
`clap_help_cb` of `CLAP.c`, which calls `clap_usage` and returns -4. Then
`clap_parse` does not run out of fuel, and when it returns, it returns 0, -1, -2,
-3 or -4, and -4 exactly when its scan reaches a token `-h`, or a long token
(`--help`, `--help=value`), that is matched to an entry `CLAP_HELP()`. When the
character `h` stands for an entry `CLAP_HELP()`, the arguments `-h` give -4 and
put the `Set` bit of that entry on, whatever `Mandatory` descriptors of the table
are not set, provided `clap_usage` is defined on the table; when it is not (it
hands a `NULL` long flag or group title to `strlen`, `fputs` or `%s`), the
arguments `-h` have no defined behaviour. -/
theorem clap_parse_help_signal (env : Env) (h : ClapHandler) (argc : Int)
    (argv : List CString) (ht : HelpOnly h.options) :
    clap_parse env h argc argv ≠ .timeout ∧
    (∀ code h1, clap_parse env h argc argv = .ret code h1 →
      (code = 0 ∨ code = -1 ∨ code = -2 ∨ code = -3 ∨ code = -4) ∧
      (code = -4 ↔ ReadsHelp env h argc argv)) ∧
    (∀ prog k o, short_index 'h' h.options = some k → h.options[k]? = some o → IsHelp o →
      (clap_usage h = some () →
        clap_parse env h 2 [prog, ['-', 'h']] =
          .ret (-4) (write_option { h with argc := 2, args := [prog, ['-', 'h']], argv := 2 } k
            { o with flags := o.flags ||| CLAP_FLAG_SET })) ∧
      (clap_usage h = none → clap_parse env h 2 [prog, ['-', 'h']] = .undefined)) := by
  refine ⟨clap_parse_ne_timeout env h argc argv, ?_, ?_⟩
  · intro code h1 hr
    unfold clap_parse at hr
    unfold ReadsHelp scan_reads
    cases hs : clap_parse_scan env h argc argv with
    | ret err h2 =>
      rw [hs] at hr
      simp only at hr
      unfold clap_parse_scan at hs
      simp only at hs
      by_cases hargc : argc > 1
      · rw [if_pos hargc] at hs
        rw [if_pos hargc]
        obtain ⟨hcode, hiff⟩ := clap_parse_loop_code env _
          { h with argc := argc, args := argv, argv := 1 } err h2 ht hs
        by_cases herr : err ≠ 0
        · rw [if_pos herr] at hr
          cases hr
          exact ⟨hcode, hiff⟩
        · rw [if_neg herr, clap_parse_mandatory_eq] at hr
          have hz : err = 0 := Classical.not_not.mp herr
          have hnot : ¬ ∃ p ∈ clap_parse_reads env (argv.length + 1)
              { h with argc := argc, args := argv, argv := 1 },
              MatchesHelp p.1.options p.2 := by
            intro hm
            have := hiff.mpr hm
            rw [hz] at this
            exact absurd this (by decide)
          cases hr
          split_ifs
          · exact ⟨Or.inr (Or.inl rfl), fun e => absurd e (by decide), fun hm => absurd hm hnot⟩
          · exact ⟨Or.inl rfl, fun e => absurd e (by decide), fun hm => absurd hm hnot⟩
      · rw [if_neg hargc] at hs
        rw [if_neg hargc]
        cases hs
        rw [if_neg (by decide), clap_parse_mandatory_eq] at hr
        cases hr
        split_ifs
        · exact ⟨Or.inr (Or.inl rfl), fun e => absurd e (by decide), by simp⟩
        · exact ⟨Or.inl rfl, fun e => absurd e (by decide), by simp⟩
    | undefined => rw [hs] at hr; cases hr
    | timeout => rw [hs] at hr; cases hr
  · intro prog k o hk hget hhelp
    rw [clap_parse_first_token env h 2 prog ['-', 'h'] [] (by decide),
      clap_parse_token_short env _ 'h' (by decide)]
    unfold clap_option_short
    rcases clap_option_short_from_index env
        { h with argc := 2, args := [prog, ['-', 'h']], argv := 2 } 'h' 0 h.options 0
      with ⟨hk2, _⟩ | ⟨k2, o2, hk2, hget2, hx⟩
    · rw [hk] at hk2
      cases hk2
    · rw [hk] at hk2
      cases hk2
      rw [hget] at hget2
      cases hget2
      rw [hx, if_neg (fun hc => hc.1 (by decide)), Nat.zero_add,
        clap_option_set_value_help env
          { h with argc := 2, args := [prog, ['-', 'h']], argv := 2 } k 0 o hget hhelp]
      constructor
      · intro hu
        have hu1 : clap_usage { h with argc := 2, args := [prog, ['-', 'h']], argv := 2 } =
            some () := hu
        rw [hu1]
        simp
      · intro hu
        have hu1 : clap_usage { h with argc := 2, args := [prog, ['-', 'h']], argv := 2 } =
            none := hu
        rw [hu1]

theorem clap_parse_help_signal_witness :
    HelpOnly help_options ∧ clap_usage (handler_of help_options) = some () ∧
    (clap_parse example_env (handler_of help_options) 3
        (["prog", "-v", "--help"].map String.toList)).code = some (-4) ∧
    ReadsHelp example_env (handler_of help_options) 3
      (["prog", "-v", "--help"].map String.toList) ∧
    ¬ IsSet (entry CLAP_OPT_INT 'n' (some "count") (some (.int 0)) CLAP_FLAG_MANDATORY none) ∧
    clap_parse example_env (handler_of help_options) 2 ["prog".toList, ['-', 'h']] =
      .ret (-4) (write_option
        { handler_of help_options with argc := 2, args := ["prog".toList, ['-', 'h']], argv := 2 }
        0 { CLAP_HELP with flags := CLAP_HELP.flags ||| CLAP_FLAG_SET }) :=
  ⟨by decide, by decide, by decide,
   ((clap_parse_help_signal example_env (handler_of help_options) 3
      (["prog", "-v", "--help"].map String.toList) (by decide)).2.1 (-4)
      { options :=
          [ { CLAP_HELP with flags := CLAP_HELP.flags ||| CLAP_FLAG_SET },
            entry CLAP_OPT_BOOL 'v' (some "verbose") (some (.bool true)) CLAP_FLAG_SET none,
            entry CLAP_OPT_INT 'n' (some "count") (some (.int 0)) CLAP_FLAG_MANDATORY none,
            CLAP_END ],
        name := none, description := none, epilog := none, argc := 3,
        args := ["prog", "-v", "--help"].map String.toList, argv := 3 }
      (by decide)).2.mp rfl,
   by decide,
   ((clap_parse_help_signal example_env (handler_of help_options) 2
      ["prog".toList, ['-', 'h']] (by decide)).2.2 "prog".toList 0 CLAP_HELP
      (by decide) (by decide) (by decide)).1 (by decide)⟩

/-- C11 (as stated) fails: the table `[CLAP_HELP(), Positional String f]`, whose
positional descriptor has the short flag `f` and no long flag, has no
callback but that of `CLAP_HELP()` and satisfies the invariant of descriptors.
On it `clap_usage` hands the `NULL` long flag to `%s` and to `strlen`: the
arguments `-h` and `--help` do not return -4, they have no defined behaviour. -/
theorem clap_parse_help_signal_counterexample :
    HelpOnly help_unnamed_options ∧
    (∀ o ∈ descriptors help_unnamed_options, DescriptorInvariant o) ∧
    clap_usage (handler_of help_unnamed_options) = none ∧
    clap_parse example_env (handler_of help_unnamed_options) 2
      ["prog".toList, "-h".toList] = .undefined ∧
    clap_parse example_env (handler_of help_unnamed_options) 2
      ["prog".toList, "--help".toList] = .undefined := by
  refine ⟨by decide, by decide, by decide, by decide, by decide⟩

/-! ## A cluster and its separate tokens -/

theorem agree_code_table (r1 r2 : Outcome) (h : Agree r1 r2) :
    r1.code = r2.code ∧ r1.table = r2.table := by
  cases r1 <;> cases r2 <;> simp [Agree] at h
  · obtain ⟨rfl, ho⟩ := h
    simp [Outcome.code, Outcome.table, Outcome.state, ho]
  · exact ⟨rfl, rfl⟩

theorem tableOnly_call (env : Env) (hcb : TableOnly env) (f : Nat) (h1 h2 : ClapHandler)
    (i : Nat) (hopts : h1.options = h2.options) :
    call_callback env f h1 i = call_callback env f h2 i :=
  call_callback_congr env f h1 h2 i hopts (hcb f h1 h2 i hopts)

theorem return_callback_agree (env : Env) (f : Nat) (gA gB : ClapHandler) (k : Nat)
    (hcb : TableOnly env) (hopt : gA.options = gB.options) :
    (return_callback env f gA k = .undefined ∧ return_callback env f gB k = .undefined) ∨
    ∃ code, return_callback env f gA k = .ret code gA ∧
      return_callback env f gB k = .ret code gB := by
  unfold return_callback
  rw [tableOnly_call env hcb f gA gB k hopt]
  cases call_callback env f gB k with
  | none => exact Or.inl ⟨rfl, rfl⟩
  | some code => exact Or.inr ⟨code, rfl, rfl⟩

/-- On a `Bool` descriptor `clap_option_set_value` does the same on two handlers
with the same table, when callbacks look at the table only, and leaves the
cursor where it is. -/
theorem clap_option_set_value_bool_agree (env : Env) (hA hB : ClapHandler) (k : Nat)
    (o : ClapOption) (hcb : TableOnly env) (hopt : hA.options = hB.options)
    (hget : hB.options[k]? = some o) (hbool : o.type = CLAP_OPT_BOOL) :
    (clap_option_set_value env hA k 0 = .undefined ∧
      clap_option_set_value env hB k 0 = .undefined) ∨
    ∃ code t1, clap_option_set_value env hA k 0 = .ret code { hA with options := t1 } ∧
      clap_option_set_value env hB k 0 = .ret code { hB with options := t1 } := by
  unfold clap_option_set_value
  rw [hopt, hget]
  simp only
  by_cases hg : 0 &&& _FLAG_OPT_POSITIONAL = 0 ∧ o.flags &&& CLAP_FLAG_POSITIONAL ≠ 0
  · rw [if_pos hg, if_pos hg]
    exact Or.inr ⟨-3, hB.options, by rw [← hopt], rfl⟩
  · rw [if_neg hg, if_neg hg]
    unfold clap_option_store
    rw [if_pos hbool, if_pos hbool]
    cases hv : o.ptr_value with
    | none => exact Or.inl ⟨rfl, rfl⟩
    | some v =>
      cases v with
      | bool b =>
        simp only [write_option, hopt]
        by_cases hc : (o.flags ||| CLAP_FLAG_SET) &&& CLAP_FLAG_CALLBACK ≠ 0
        · rw [if_pos hc, if_pos hc]
          cases hf : o.callback with
          | none => exact Or.inl ⟨rfl, rfl⟩
          | some f =>
            simp only
            refine Or.imp id ?_ (return_callback_agree env f _ _ k hcb rfl)
            rintro ⟨code, h1, h2⟩
            exact ⟨code, _, h1, h2⟩
        · rw [if_neg hc, if_neg hc]
          exact Or.inr ⟨_, _, rfl, rfl⟩
      | int i => exact Or.inl ⟨rfl, rfl⟩
      | double d => exact Or.inl ⟨rfl, rfl⟩
      | str s => exact Or.inl ⟨rfl, rfl⟩
      | file f => exact Or.inl ⟨rfl, rfl⟩

/-- A character that stands for a `Bool` descriptor or for none: the short
matcher does the same bundled on one handler and alone on another with the same
table. -/
theorem clap_option_short_agree (env : Env) (hA hB : ClapHandler) (c : Char)
    (hcb : TableOnly env) (hopt : hA.options = hB.options)
    (hbool : ∀ k o, short_index c hB.options = some k → hB.options[k]? = some o →
      o.type = CLAP_OPT_BOOL) :
    (clap_option_short env hA c _FLAG_REQUIRE_NO_VAL = .undefined ∧
      clap_option_short env hB c 0 = .undefined) ∨
    ∃ code t1, clap_option_short env hA c _FLAG_REQUIRE_NO_VAL =
        .ret code { hA with options := t1 } ∧
      clap_option_short env hB c 0 = .ret code { hB with options := t1 } := by
  unfold clap_option_short
  rw [hopt]
  rcases clap_option_short_from_index env hA c _FLAG_REQUIRE_NO_VAL hB.options 0
    with ⟨hk, hx⟩ | ⟨k, o, hk, hget, hx⟩
  · rcases clap_option_short_from_index env hB c 0 hB.options 0
      with ⟨_, hy⟩ | ⟨k2, o2, hk2, _, _⟩
    · rw [hx, hy]
      exact Or.inr ⟨-2, hB.options, by rw [← hopt], rfl⟩
    · rw [hk] at hk2
      cases hk2
  · rcases clap_option_short_from_index env hB c 0 hB.options 0
      with ⟨hk2, _⟩ | ⟨k2, o2, hk2, hget2, hy⟩
    · rw [hk] at hk2
      cases hk2
    · rw [hk] at hk2
      cases hk2
      have hb := hbool k o hk hget
      have hrej : ¬ (_FLAG_REQUIRE_NO_VAL &&& _FLAG_REQUIRE_NO_VAL ≠ 0 ∧
          (o.type ≠ CLAP_OPT_BOOL ∨ o.type = CLAP_OPT_NONE)) := by
        rw [hb]; decide
      rw [hx, hy, if_neg hrej, if_neg (fun hc => hc.1 (by decide)), Nat.zero_add]
      exact clap_option_set_value_bool_agree env hA hB k o hcb hopt hget hb

theorem short_match_index (c : Char) (t : List ClapOption) :
    short_match c t = (short_index c t).bind (fun k => t[k]?) := by
  induction t with
  | nil => rfl
  | cons o t ih =>
    rw [short_match, short_index]
    split_ifs with hend hm
    · rfl
    · simp
    · rw [ih]
      cases short_index c t with
      | none => rfl
      | some k => simp

theorem boolOrNone_index (t : List ClapOption) (c : Char) (h : BoolOrNone t c) (k : Nat)
    (o : ClapOption) (hk : short_index c t = some k) (hget : t[k]? = some o) :
    o.type = CLAP_OPT_BOOL := by
  unfold BoolOrNone at h
  rw [short_match_index, hk] at h
  simp only [Option.some_bind, hget] at h
  exact h

theorem boolOrNone_touches (P : Nat → ClapOption → Prop) (t t1 : List ClapOption) (c : Char)
    (ht : Touches P t t1) (h : BoolOrNone t c) : BoolOrNone t1 c := by
  unfold BoolOrNone
  rw [short_match_index, short_index_touches c t P t1 ht]
  cases hk : short_index c t with
  | none => simp
  | some k =>
    obtain ⟨o, hget, _⟩ := short_index_some c t k hk
    have hlt : k < t1.length := by
      rw [ht.1]
      rcases Nat.lt_or_ge k t.length with hlt | hge
      · exact hlt
      · rw [List.getElem?_eq_none hge] at hget
        exact absurd hget (by simp)
    have hget1 : t1[k]? = some (t1.get ⟨k, hlt⟩) := by
      rw [List.getElem?_eq_getElem hlt]; rfl
    simp only [Option.some_bind, hget1]
    rw [(ht.2 k o _ hget hget1).1.1]
    exact boolOrNone_index t c h k o hk hget

theorem drop_eq_cons {α : Type} (l : List α) (n : Nat) (a : α) (r : List α)
    (h : l.drop n = a :: r) : l[n]? = some a ∧ l.drop (n + 1) = r := by
  constructor
  · have := List.getElem?_drop (L := l) (i := n) (j := 0)
    rw [h] at this
    simpa using this.symm
  · have : l.drop (n + 1) = (l.drop n).drop 1 := by rw [List.drop_drop, Nat.add_comm]
    rw [this, h]
    rfl

theorem getElem?_of_drop_nil {α : Type} (l : List α) (n : Nat) (h : l.drop n = []) :
    l[n]? = none := by
  rw [List.getElem?_eq_none]
  exact List.drop_eq_nil_iff.mp h

/-- The run of a bundle and the run of the loop over its separate tokens end
alike, when every character is other than `-` and stands for a `Bool`
descriptor or for none, and callbacks look at the table only. -/
theorem clap_parse_bundle_split (env : Env) (hcb : TableOnly env) (cs : List Char) :
    ∀ (hA hB : ClapHandler) (fuel : Nat), hA.options = hB.options →
      (∀ c ∈ cs, c ≠ '-') → (∀ c ∈ cs, BoolOrNone hB.options c) →
      hB.args.drop hB.argv = split_cluster cs → cs.length + 1 ≤ fuel →
      Agree (clap_parse_bundle env cs hA) (clap_parse_loop env fuel hB) := by
  induction cs with
  | nil =>
    intro hA hB fuel hopt _ _ hdrop hfuel
    cases fuel with
    | zero => simp at hfuel
    | succ fuel =>
      rw [clap_parse_bundle, clap_parse_loop_done env fuel hB (getElem?_of_drop_nil _ _ hdrop)]
      exact ⟨rfl, hopt⟩
  | cons c cs ih =>
    intro hA hB fuel hopt hdash hbool hdrop hfuel
    cases fuel with
    | zero => simp at hfuel
    | succ fuel =>
      obtain ⟨harg, hrest⟩ := drop_eq_cons hB.args hB.argv ['-', c] (split_cluster cs) hdrop
      have hc : c ≠ '-' := hdash c (by simp)
      rw [clap_parse_bundle, clap_parse_loop_step env fuel hB _ harg,
        clap_parse_token_short env _ c hc]
      have hkeep := clap_option_short_keeps env { hB with argv := hB.argv + 1 } c 0
      rcases clap_option_short_agree env hA { hB with argv := hB.argv + 1 } c hcb hopt
          (fun k o hk hget => boolOrNone_index hB.options c (hbool c (by simp)) k o hk hget)
        with ⟨ha, hb⟩ | ⟨code, t1, ha, hb⟩
      · rw [ha, hb]
        trivial
      · rw [hb] at hkeep
        rw [ha, hb]
        simp only
        by_cases hcode : code ≠ 0
        · rw [if_pos hcode, if_pos hcode]
          exact ⟨rfl, rfl⟩
        · rw [if_neg hcode, if_neg hcode]
          refine ih { hA with options := t1 }
            { hB with options := t1, argv := hB.argv + 1 } fuel rfl
            (fun d hd => hdash d (by simp [hd])) ?_ hrest ?_
          · intro d hd
            exact boolOrNone_touches _ hB.options t1 d hkeep (hbool d (by simp [hd]))
          · simp only [List.length_cons] at hfuel
            omega

/-- C20 (amended): take a short cluster `-c1...ck`, `k >= 2`, in which no character
is `-` and each character stands for a `Bool` descriptor or for no descriptor,
and callbacks whose value depends on the table only. Then parsing the one
token and parsing the `k` tokens `-c1`, ..., `-ck` end alike: both have no
defined behaviour, or both return, with the same code and the same table,
stored values and `Set` bits, also when the run stops early on an unknown
character or on a callback that returns non-zero. -/
theorem clap_parse_cluster_split (env : Env) (h : ClapHandler) (prog : CString)
    (cs : List Char) (hcb : TableOnly env) (hlen : 2 ≤ cs.length)
    (hdash : ∀ c ∈ cs, c ≠ '-') (hbool : ∀ c ∈ cs, BoolOrNone h.options c) :
    Agree (clap_parse env h 2 [prog, '-' :: cs])
      (clap_parse env h ((cs.length + 1 : Nat) : Int) (prog :: split_cluster cs)) ∧
    (clap_parse env h 2 [prog, '-' :: cs]).code =
      (clap_parse env h ((cs.length + 1 : Nat) : Int) (prog :: split_cluster cs)).code ∧
    (clap_parse env h 2 [prog, '-' :: cs]).table =
      (clap_parse env h ((cs.length + 1 : Nat) : Int) (prog :: split_cluster cs)).table := by
  have hhead : cs.head? ≠ some '-' := by
    cases cs with
    | nil => simp
    | cons c cs => simpa using hdash c (by simp)
  have hargc : ((cs.length + 1 : Nat) : Int) > 1 := by
    have : (2 : Int) ≤ ((cs.length + 1 : Nat) : Int) := by exact_mod_cast (by omega : 2 ≤ cs.length + 1)
    omega
  have key : Agree (clap_parse env h 2 [prog, '-' :: cs])
      (clap_parse env h ((cs.length + 1 : Nat) : Int) (prog :: split_cluster cs)) := by
    rw [clap_parse_first_token env h 2 prog ('-' :: cs) [] (by decide),
      clap_parse_token_cluster env _ cs hlen hhead]
    have hadv := clap_parse_bundle_advances env cs
      { h with argc := 2, args := [prog, '-' :: cs], argv := 2 }
    have hsplit := clap_parse_bundle_split env hcb cs
      { h with argc := 2, args := [prog, '-' :: cs], argv := 2 }
      { h with argc := ((cs.length + 1 : Nat) : Int), args := prog :: split_cluster cs,
               argv := 1 }
      ((prog :: split_cluster cs).length + 1) rfl hdash hbool rfl
      (by simp [split_cluster])
    unfold clap_parse clap_parse_scan
    simp only
    rw [if_pos hargc]
    cases hA : clap_parse_bundle env cs
        { h with argc := 2, args := [prog, '-' :: cs], argv := 2 } with
    | ret a hA1 =>
      rw [hA] at hadv hsplit
      cases hB : clap_parse_loop env ((prog :: split_cluster cs).length + 1)
          { h with argc := ((cs.length + 1 : Nat) : Int), args := prog :: split_cluster cs,
                   argv := 1 } with
      | ret b hB1 =>
        rw [hB] at hsplit
        obtain ⟨hab, hopt⟩ := hsplit
        subst hab
        simp only
        by_cases ha : a ≠ 0
        · rw [if_pos ha, if_pos ha]
          exact ⟨rfl, hopt⟩
        · have hnone : hA1.args[hA1.argv]? = none := by
            rw [List.getElem?_eq_none]
            rw [hadv.1]
            have := hadv.2
            simp only [List.length_cons, List.length_nil] at this ⊢
            omega
          rw [if_neg ha, if_neg ha, clap_parse_loop_done env _ hA1 hnone]
          simp only
          rw [if_neg (by decide), clap_parse_mandatory_eq, clap_parse_mandatory_eq, hopt]
          exact ⟨rfl, hopt⟩
      | undefined => rw [hB] at hsplit; exact absurd hsplit (by simp [Agree])
      | timeout => rw [hB] at hsplit; exact absurd hsplit (by simp [Agree])
    | undefined =>
      rw [hA] at hsplit
      cases hB : clap_parse_loop env ((prog :: split_cluster cs).length + 1)
          { h with argc := ((cs.length + 1 : Nat) : Int), args := prog :: split_cluster cs,
                   argv := 1 } with
      | ret b hB1 => rw [hB] at hsplit; exact absurd hsplit (by simp [Agree])
      | undefined => trivial
      | timeout => rw [hB] at hsplit; exact absurd hsplit (by simp [Agree])
    | timeout =>
      rw [hA] at hadv
      exact absurd hadv (by simp [Advances])
  exact ⟨key, agree_code_table _ _ key⟩

theorem clap_parse_cluster_split_witness :
    TableOnly example_env ∧ (∀ c ∈ "vhv".toList, BoolOrNone help_bool_options c) ∧
    (clap_parse example_env (handler_of help_bool_options) 2
        ["prog".toList, '-' :: "vhv".toList]).code =
      (clap_parse example_env (handler_of help_bool_options) ((("vhv".toList).length + 1 : Nat) : Int)
        ("prog".toList :: split_cluster "vhv".toList)).code ∧
    (clap_parse example_env (handler_of help_bool_options) 2
        ["prog".toList, '-' :: "vhv".toList]).code = some (-4) :=
  ⟨fun _ _ _ _ _ => rfl, by decide,
   (clap_parse_cluster_split example_env (handler_of help_bool_options) "prog".toList
      "vhv".toList (fun _ _ _ _ _ => rfl) (by decide) (by decide) (by decide)).2.1,
   by decide⟩

/-- C20 (as stated) fails: on the table `[Bool v/verbose, Mandatory Int n/count]`
take the cluster `-v-`, whose character `v` stands for a `Bool` descriptor and
whose character `-` stands for no descriptor. The one token gives -2, the code
of the unknown character `-`; the separate tokens are `-v` and `--`, and `--` is
a token that is too short, which gives -1. -/
theorem clap_parse_cluster_split_counterexample :
    (∀ c ∈ ['v', '-'], BoolOrNone scenario_options c) ∧ TableOnly example_env ∧
    (clap_parse example_env (handler_of scenario_options) 2
        ["prog".toList, '-' :: ['v', '-']]).code = some (-2) ∧
    (clap_parse example_env (handler_of scenario_options) 3
        ("prog".toList :: split_cluster ['v', '-'])).code = some (-1) ∧
    split_cluster ['v', '-'] = ["-v".toList, "--".toList] := by
  refine ⟨by decide, fun _ _ _ _ _ => rfl, by decide, by decide, by decide⟩

/-! ## What an error leaves in an `Int` descriptor -/

/-- On an `Int` descriptor lines 107-165 find the source string and run the
`switch` on it; without a source string they return -3 when the next token of
`argv` was to be the source, and read through `NULL` otherwise. -/
theorem clap_option_store_int (env : Env) (h : ClapHandler) (o : ClapOption) (fl : Nat)
    (hint : o.type = CLAP_OPT_INT) :
    clap_option_store env h o fl =
      match source_string h o fl with
      | some source => clap_option_coerce env (after_source h o fl) o source
      | none =>
        if fl &&& _FLAG_LONG_OPT_WITH_VALUE = 0 ∧ o.flags &&& CLAP_FLAG_POSITIONAL = 0 then
          .error { h with argv := h.argv + 1 } o
        else .undefined := by
  unfold clap_option_store source_string after_source
  rw [if_neg (by rw [hint]; decide), if_pos (by rw [hint]; decide)]
  by_cases hl : fl &&& _FLAG_LONG_OPT_WITH_VALUE ≠ 0
  · have hl2 : ¬ (fl &&& _FLAG_LONG_OPT_WITH_VALUE = 0 ∧ o.flags &&& CLAP_FLAG_POSITIONAL = 0) :=
      fun hc => hl hc.1
    simp only [if_pos hl, if_neg hl2]
    cases prev_arg h with
    | none => rfl
    | some arg =>
      simp only [Option.some_bind]
      cases strchr_next '=' arg <;> rfl
  · have hl0 : fl &&& _FLAG_LONG_OPT_WITH_VALUE = 0 := Classical.not_not.mp hl
    by_cases hp : o.flags &&& CLAP_FLAG_POSITIONAL = 0
    · simp only [if_neg hl, if_pos hp, if_pos (And.intro hl0 hp)]
      cases h.args[h.argv]? <;> rfl
    · have hp2 : ¬ (fl &&& _FLAG_LONG_OPT_WITH_VALUE = 0 ∧
          o.flags &&& CLAP_FLAG_POSITIONAL = 0) := fun hc => hp hc.2
      simp only [if_neg hl, if_neg hp, if_neg hp2]
      cases prev_arg h <;> rfl

/-- The `switch` on an `Int` descriptor: the integer is written, then the text
behind the number is looked at. -/
theorem clap_option_coerce_int (env : Env) (h : ClapHandler) (o : ClapOption) (s : CString)
    (hint : o.type = CLAP_OPT_INT) :
    clap_option_coerce env h o s =
      match o.ptr_value with
      | none => .undefined
      | some _ =>
        if (strtol s).2 ≠ [] then
          .error h { o with ptr_value := some (.int (toInt32 (strtol s).1)) }
        else .done h { o with ptr_value := some (.int (toInt32 (strtol s).1)) } := by
  unfold clap_option_coerce
  rw [if_neg (by rw [hint]; decide), if_pos hint]

/-- After lines 107-165 have ended well, `clap_option_set_value` does not return
-3 when the callback does not. -/
theorem clap_option_set_value_done (env : Env) (h h2 h1 : ClapHandler) (i fl : Nat)
    (o o2 : ClapOption) (hget : h.options[i]? = some o)
    (hguard : ¬ (fl &&& _FLAG_OPT_POSITIONAL = 0 ∧ o.flags &&& CLAP_FLAG_POSITIONAL ≠ 0))
    (hcb : ∀ f g k, o.callback = some f → call_callback env f g k ≠ some (-3))
    (hca : o2.callback = o.callback)
    (hst : clap_option_store env h o fl = .done h2 o2) :
    clap_option_set_value env h i fl ≠ .ret (-3) h1 := by
  intro hr
  unfold clap_option_set_value at hr
  rw [hget] at hr
  simp only at hr
  rw [if_neg hguard, hst] at hr
  simp only at hr
  split_ifs at hr with hflag
  · cases hf : o2.callback with
    | none => rw [hf] at hr; cases hr
    | some f =>
      rw [hf] at hr
      simp only at hr
      rcases return_callback_cases env f
          (write_option h2 i { o2 with flags := o2.flags ||| CLAP_FLAG_SET, callback := some f }) i
        with ⟨_, hu⟩ | ⟨code, hc, hu⟩
      · rw [hu] at hr; cases hr
      · rw [hu] at hr
        injection hr with hcode _
        rw [hcode] at hc
        exact hcb f _ i (hca.symm.trans hf) hc
  · cases hr

/-- The empty source string: `strtol` converts nothing and leaves `end` on the
terminating NUL, so the `switch` writes 0 and ends well. -/
theorem clap_option_coerce_int_empty (env : Env) (h : ClapHandler) (o : ClapOption)
    (v0 : Value) (hint : o.type = CLAP_OPT_INT) (hptr : o.ptr_value = some v0) :
    clap_option_coerce env h o [] = .done h { o with ptr_value := some (.int 0) } := by
  have hst : strtol [] = (0, []) := by decide
  unfold clap_option_coerce
  rw [if_neg (by rw [hint]; decide), if_pos hint, hptr]
  simp only [hst]
  rw [if_neg (by simp)]
  rfl

/-- Among the source strings in which `strtol` finds no digit to convert, the
`switch` of an `Int` descriptor accepts the empty one and no other. -/
theorem clap_option_coerce_int_accepts (env : Env) (h : ClapHandler) (o : ClapOption)
    (v0 : Value) (s : CString) (hint : o.type = CLAP_OPT_INT) (hptr : o.ptr_value = some v0)
    (hnone : (strtol_body s).takeWhile isdigit = []) :
    (∃ h1 o1, clap_option_coerce env h o s = .done h1 o1) ↔ s = [] := by
  constructor
  · rintro ⟨h1, o1, hd⟩
    by_contra hne
    rw [clap_option_coerce_int_no_digit env h o v0 s hint hptr hnone hne] at hd
    cases hd
  · rintro rfl
    exact ⟨h, _, clap_option_coerce_int_empty env h o v0 hint hptr⟩

/-- C22 (the code): the empty source string holds no digit, yet the `switch` of
an `Int` descriptor takes it: `strtol` converts nothing, returns 0 and leaves
`end` on the terminating NUL, and the only test is `end[0] != 0`. On the table
`[Bool v/verbose, Mandatory Int n/count]` the arguments `-n ""` and `--count=`
give 0, store 0 in `count` and put its `Set` bit on, so that the mandatory sweep
is content. Every other source without a digit is refused: `abc`, `-` and a
blank give -3. -/
theorem clap_parse_int_no_digit :
    clap_option_coerce example_env (handler_of scenario_options)
        (entry CLAP_OPT_INT 'n' (some "count") (some (.int 7)) CLAP_FLAG_MANDATORY none) [] =
      .done (handler_of scenario_options)
        (entry CLAP_OPT_INT 'n' (some "count") (some (.int 0)) CLAP_FLAG_MANDATORY none) ∧
    clap_parse example_env (handler_of scenario_options) 3
        (["prog", "-n", ""].map String.toList) =
      .ret 0 { handler_of
          [ entry CLAP_OPT_BOOL 'v' (some "verbose") (some (.bool false)) 0 none,
            entry CLAP_OPT_INT 'n' (some "count") (some (.int 0))
              (CLAP_FLAG_MANDATORY ||| CLAP_FLAG_SET) none,
            CLAP_END ] with
          argc := 3, args := ["prog", "-n", ""].map String.toList, argv := 3 } ∧
    (clap_parse example_env (handler_of scenario_options) 2
        (["prog", "--count="].map String.toList)).code = some 0 ∧
    ((clap_parse example_env (handler_of scenario_options) 2
        (["prog", "--count="].map String.toList)).table.bind (fun t => t[1]?)).map
      (fun o => (o.ptr_value, decide (IsSet o))) = some (some (.int 0), true) ∧
    (clap_parse example_env (handler_of scenario_options) 2
        (["prog", "--count=abc"].map String.toList)).code = some (-3) ∧
    (clap_parse example_env (handler_of scenario_options) 2
        (["prog", "--count=-"].map String.toList)).code = some (-3) ∧
    (clap_parse example_env (handler_of scenario_options) 2
        (["prog", "--count= "].map String.toList)).code = some (-3) := by
  refine ⟨by decide, by decide, by decide, by decide, by decide, by decide, by decide⟩

end CLAP
